import Mathlib

/-!
# ViralStream client: a shallow embedding of the page handlers

The repository is a set of React pages (upload, profile, chat with a friends
leaderboard, feed, achievements) over a hosted entity backend.  The handlers
are embedded as state-passing functions over a page state (the `useState`
cells the handler touches) and a backend store.

* `Act σ α` is the body of an `async` handler: it runs on a state, yields a
  value or throws, and leaves a state behind in both cases, so `try/catch`
  and `finally` see the state at the point of the throw.
* JavaScript numbers that are counters are integers (`Int`); a field that
  may be missing is an `Option`, and `x || d` is `jsOr x d`.
* `Math.random()` and the clock are inputs of the handler that reads them.
-/

namespace ViralStream

/-! ## Handler bodies -/

/-- The body of an asynchronous handler over a state of type `σ`. -/
def Act (σ α : Type) : Type := σ → Option α × σ

namespace Act

variable {σ α β : Type}

/-- Sequencing of two awaited steps: a throw skips the rest. -/
def andThen (m : Act σ α) (f : α → Act σ β) : Act σ β := fun s =>
  match m s with
  | (some a, t) => f a t
  | (none, t) => (none, t)

instance : Monad (Act σ) where
  pure a := fun s => (some a, s)
  bind := andThen

/-- A rejected promise. -/
def throw : Act σ α := fun s => (none, s)

/-- The block `try { m } catch (e) { h }`. -/
def tryCatch (m : Act σ α) (h : Act σ α) : Act σ α := fun s =>
  match m s with
  | (some a, t) => (some a, t)
  | (none, t) => h t

/-- The block `try { m } finally { fin }`: `fin` runs on both exits and the
outcome of `m` is kept unless `fin` itself throws. -/
def tryFinally (m : Act σ α) (fin : Act σ Unit) : Act σ α := fun s =>
  match m s with
  | (r, t) =>
    match fin t with
    | (some _, u) => (r, u)
    | (none, u) => (none, u)

/-- Read the state. -/
def get : Act σ σ := fun s => (some s, s)

/-- A state setter. -/
def modify (f : σ → σ) : Act σ Unit := fun s => (some (), f s)

end Act

/-! ## JavaScript values -/

/-- The expression `x || d` on a numeric field: a missing value and `0` are
falsy and give `d`. -/
def jsOr (x : Option Int) (d : Int) : Int :=
  match x with
  | some v => if v = 0 then d else v
  | none => d

/-- White space and line terminators removed by `String.prototype.trim`. -/
def isJsWhiteSpace (c : Char) : Bool :=
  let n := c.toNat
  n = 9 || n = 10 || n = 11 || n = 12 || n = 13 || n = 32 || n = 160 ||
  n = 5760 || (8192 ≤ n && n ≤ 8202) || n = 8232 || n = 8233 || n = 8239 ||
  n = 8287 || n = 12288 || n = 65279

/-- The method `s.trim()`. -/
def jsTrim (s : String) : String :=
  String.mk ((s.data.dropWhile isJsWhiteSpace).reverse.dropWhile isJsWhiteSpace).reverse

/-- The property `s.length`: the number of UTF-16 code units. -/
def jsLength (s : String) : Nat :=
  (s.data.map (fun c => if c.toNat < 65536 then 1 else 2)).sum

/-! ### Binary64 rounding

`Math.random() * 50` is a product of doubles; it is rounded to the nearest
binary64 value (ties to even).  Values are rationals, the exponent range is
the one of binary64 with gradual underflow, overflow does not occur on the
values the pages compute. -/

/-- Rounding of a rational to the nearest integer, ties to the even one. -/
def roundHalfEven (x : ℚ) : ℤ :=
  let f := Int.floor x
  let d := x - f
  if d < 1 / 2 then f
  else if 1 / 2 < d then f + 1
  else if f % 2 = 0 then f else f + 1

/-- The exponent of the last place of a positive rational in binary64:
53 significant bits, and never below the subnormal spacing `2 ^ (-1074)`. -/
def ulpExp (x : ℚ) : ℤ := max (Int.log 2 x) (-1022) - 52

/-- Binary64 rounding of a rational (round to nearest, ties to even). -/
def fl (x : ℚ) : ℚ :=
  if x = 0 then 0
  else if 0 < x then roundHalfEven (x / 2 ^ ulpExp x) * 2 ^ ulpExp x
  else -(roundHalfEven (-x / 2 ^ ulpExp (-x)) * 2 ^ ulpExp (-x))

/-- A rational that is a binary64 value. -/
def isBinary64 (x : ℚ) : Prop := fl x = x

instance (x : ℚ) : Decidable (isBinary64 x) := by
  unfold isBinary64; infer_instance

/-! ## Entities -/

/-- A user account as returned by `User.me` and `User.filter`. -/
structure User where
  id : String
  email : String
  full_name : Option String
deriving DecidableEq, Repr

/-- The fields of a `UserStats` record that the pages write. -/
structure UserStatsData where
  videos_posted : Option Int
  total_views : Option Int
  total_likes : Option Int
  viral_videos : Option Int
  achievements_unlocked : Option Int
  level : Option Int
deriving DecidableEq, Repr

/-- A stored `UserStats` record. -/
structure UserStats extends UserStatsData where
  id : String
  created_by : String
deriving DecidableEq, Repr

/-- The fields of a `Video` record that the pages write. -/
structure VideoData where
  title : String
  description : String
  video_url : String
  views : Option Int
  likes : Option Int
  is_viral : Bool
  post_number : Int
  hashtags : List String
  comment_count : Option Int
deriving DecidableEq, Repr

/-- A stored `Video` record. -/
structure Video extends VideoData where
  id : String
  created_by : String
deriving DecidableEq, Repr

/-- The fields of an `Achievement` record that the pages write. -/
structure AchievementData where
  name : String
  requirement : Int
  category : String
  icon : String
  description : String
  unlocked : Bool
  unlocked_date : String
deriving DecidableEq, Repr

/-- A stored `Achievement` record. -/
structure Achievement extends AchievementData where
  id : String
  created_by : String
deriving DecidableEq, Repr

/-- The fields of a `Conversation` record. -/
structure ConversationData where
  participants : List String
  participant_details : List User
  last_message : Option String
  last_message_date : Option String
deriving DecidableEq, Repr

/-- A stored `Conversation` record. -/
structure Conversation extends ConversationData where
  id : String
deriving DecidableEq, Repr

/-- A chat message, stored or optimistic. -/
structure Message where
  id : String
  conversation_id : Option String
  content : String
  created_by : String
  created_date : Option String
deriving DecidableEq, Repr

/-- A stored `Like` record. -/
structure Like where
  id : String
  video_id : String
  created_by : String
deriving DecidableEq, Repr

/-- A stored `Comment` record. -/
structure Comment where
  id : String
  video_id : String
  content : String
  reply_to : Option String
  created_by : String
deriving DecidableEq, Repr

/-- A file picked in the upload form, with the URL the storage endpoint
gives it. -/
structure File where
  type : String
  url : String
deriving DecidableEq, Repr

/-! ## The hosted backend -/

/-- Modelled from the spec: the managed backend behind `@/entities/all`,
`@/entities/User` and `@/integrations/Core` is not part of the sources.  It
is a set of collections with generic `filter`/`create`/`update` calls; a
record gets a fresh id and the signed-in user as `created_by`; records are
kept in creation order.  `faults` is the schedule of network failures: each
call consumes one entry and is rejected when the entry is `true`; an empty
schedule means no call fails. -/
structure Backend where
  currentUser : Option User
  users : List User
  userStats : List UserStats
  videos : List Video
  achievements : List Achievement
  conversations : List Conversation
  messages : List Message
  likes : List Like
  comments : List Comment
  nextId : Nat
  faults : List Bool
deriving DecidableEq, Repr

/-- A page: its React state and the backend it talks to. -/
structure World (υ : Type) where
  ui : υ
  db : Backend

section Api

variable {υ : Type}

/-- Modelled from the spec: one round trip of the entity SDK, rejected when
the fault schedule says so. -/
def request : Act (World υ) Unit := fun w =>
  match w.db.faults with
  | [] => (some (), w)
  | false :: rest => (some (), { w with db := { w.db with faults := rest } })
  | true :: rest => (none, { w with db := { w.db with faults := rest } })

/-- The signed-in user, as the backend stamps it on created records; the
call is rejected when nobody is signed in. -/
def signedIn : Act (World υ) User := fun w =>
  match w.db.currentUser with
  | some u => (some u, w)
  | none => (none, w)

/-- A fresh record id. -/
def freshId : Act (World υ) String := fun w =>
  (some (toString w.db.nextId), { w with db := { w.db with nextId := w.db.nextId + 1 } })

/-- Modelled from the spec: the call `User.me()`. -/
def User.me : Act (World υ) User := do
  request
  signedIn

/-- Modelled from the spec: the call `User.filter(query)`. -/
def User.filter (query : User → Bool) : Act (World υ) (List User) := do
  request
  let w ← Act.get
  pure (w.db.users.filter query)

/-- Modelled from the spec: the call `UserStats.filter(query)`. -/
def UserStats.filter (query : UserStats → Bool) : Act (World υ) (List UserStats) := do
  request
  let w ← Act.get
  pure (w.db.userStats.filter query)

/-- Modelled from the spec: the call `UserStats.create(data)`. -/
def UserStats.create (data : UserStatsData) : Act (World υ) UserStats := do
  request
  let u ← signedIn
  let i ← freshId
  let r : UserStats := { data with id := i, created_by := u.email }
  Act.modify (fun w => { w with db := { w.db with userStats := w.db.userStats ++ [r] } })
  pure r

/-- Modelled from the spec: the call `UserStats.update(id, patch)`; it is
rejected when no record has the id. -/
def UserStats.update (id : String) (patch : UserStatsData → UserStatsData) :
    Act (World υ) Unit := do
  request
  let w ← Act.get
  if w.db.userStats.any (fun r => r.id == id) then
    Act.modify (fun w =>
      let rs := w.db.userStats.map
        (fun r => if r.id == id then { r with toUserStatsData := patch r.toUserStatsData } else r)
      { w with db := { w.db with userStats := rs } })
  else Act.throw

/-- Modelled from the spec: the call `Video.create(data)`. -/
def Video.create (data : VideoData) : Act (World υ) Video := do
  request
  let u ← signedIn
  let i ← freshId
  let r : Video := { data with id := i, created_by := u.email }
  Act.modify (fun w => { w with db := { w.db with videos := w.db.videos ++ [r] } })
  pure r

/-- Modelled from the spec: the call `Achievement.filter(query)`. -/
def Achievement.filter (query : Achievement → Bool) : Act (World υ) (List Achievement) := do
  request
  let w ← Act.get
  pure (w.db.achievements.filter query)

/-- Modelled from the spec: the call `Achievement.create(data)`. -/
def Achievement.create (data : AchievementData) : Act (World υ) Achievement := do
  request
  let u ← signedIn
  let i ← freshId
  let r : Achievement := { data with id := i, created_by := u.email }
  Act.modify (fun w => { w with db := { w.db with achievements := w.db.achievements ++ [r] } })
  pure r

/-- Modelled from the spec: the call `UploadFile(\x7b file \x7d)` of the
storage integration. -/
def UploadFile (file : File) : Act (World υ) String := do
  request
  pure file.url

/-- Modelled from the spec: the call `Conversation.filter(query)`. -/
def Conversation.filter (query : Conversation → Bool) : Act (World υ) (List Conversation) := do
  request
  let w ← Act.get
  pure (w.db.conversations.filter query)

/-- Modelled from the spec: the call `Conversation.update(id, patch)`; it is
rejected when no record has the id. -/
def Conversation.update (id : String) (patch : ConversationData → ConversationData) :
    Act (World υ) Unit := do
  request
  let w ← Act.get
  if w.db.conversations.any (fun r => r.id == id) then
    Act.modify (fun w =>
      let rs := w.db.conversations.map
        (fun r => if r.id == id then { r with toConversationData := patch r.toConversationData } else r)
      { w with db := { w.db with conversations := rs } })
  else Act.throw

/-- Modelled from the spec: the call `Message.filter(query, "created_date")`;
the store keeps messages in creation order. -/
def Message.filter (query : Message → Bool) : Act (World υ) (List Message) := do
  request
  let w ← Act.get
  pure (w.db.messages.filter query)

/-- Modelled from the spec: the call `Message.create(data)`; `now` is the
creation date the backend stamps. -/
def Message.create (conversation_id content now : String) : Act (World υ) Message := do
  request
  let u ← signedIn
  let i ← freshId
  let r : Message := { id := i, conversation_id := some conversation_id, content := content,
                       created_by := u.email, created_date := some now }
  Act.modify (fun w => { w with db := { w.db with messages := w.db.messages ++ [r] } })
  pure r

end Api

/-! ## Upload page (`upload.js`) -/

/-- The React state of `UploadPage`. -/
structure UploadUi where
  file : Option File
  title : String
  description : String
  hashtags : String
  isUploading : Bool
  uploadProgress : Nat
  videoPreview : Option String
  showSuccess : Bool
  willGoViral : Bool
deriving DecidableEq, Repr

/-- The record both `checkIfWillGoViral` and `handleUpload` create for a user
without statistics. -/
def initialStats : UserStatsData :=
  { videos_posted := some 0, total_views := some 0, total_likes := some 0,
    viral_videos := some 0, achievements_unlocked := some 0, level := some 1 }

/-- The function `checkIfWillGoViral` of `upload.js`.  The counters of the
upload page are whole numbers and `+ 1` is the exact sum, which is the sum
binary64 computes as long as the result is a safe integer (below `2 ^ 53` in
absolute value, `fl_succ_safeInt`); `%` is the remainder with the sign of the
dividend. -/
def checkIfWillGoViral {υ : Type} : Act (World υ) Bool :=
  Act.tryCatch
    (do
      let user ← User.me
      let userStats ← UserStats.filter (fun r => r.created_by == user.email)
      match userStats with
      | [] =>
        -- Create initial stats
        let _ ← UserStats.create initialStats
        pure false
      | stats :: _ =>
        let nextPostNumber := jsOr stats.videos_posted 0 + 1
        -- Every 10th video goes viral
        pure (decide (Int.tmod nextPostNumber 10 = 0)))
    (pure false)

/-- The constant `nextPostNumber` of `checkIfWillGoViral` as binary64
computes it from the first statistics record: the sum
`(stats.videos_posted || 0) + 1` is rounded. -/
def nextPostNumber (stats : UserStats) : ℚ :=
  fl (((jsOr stats.videos_posted 0 : Int) : ℚ) + 1)

/-- The expression `Math.floor(Math.random() * 50) + 10` at the draw `r`. -/
def randomViews (r : ℚ) : Int := Int.floor (fl (r * 50)) + 10

/-- The expression `Math.floor(Math.random() * 10)` at the draw `r`. -/
def randomLikes (r : ℚ) : Int := Int.floor (fl (r * 10))

/-- The method `s.split(' ')` on the characters of a string. -/
def splitOnSpace : List Char → List (List Char)
  | [] => [[]]
  | c :: cs =>
    match splitOnSpace cs with
    | [] => [[c]]
    | t :: ts => if c = ' ' then [] :: t :: ts else (c :: t) :: ts

/-- The expression
`hashtags.split(' ').filter(tag => tag.startsWith('#')).map(tag => tag.slice(1))`. -/
def parseHashtags (hashtags : String) : List String :=
  ((splitOnSpace hashtags.data).filter (fun tag => tag.head? == some '#')).map
    (fun tag => String.mk (tag.drop 1))

/-- An entry of the table `achievementsToCheck`. -/
structure AchievementRule where
  name : String
  requirement : Int
  category : String
deriving DecidableEq, Repr

/-- The table `achievementsToCheck` of `checkAndUnlockAchievements`. -/
def achievementsToCheck : List AchievementRule :=
  [ { name := "First Video", requirement := 1, category := "posting" },
    { name := "Getting Started", requirement := 5, category := "posting" },
    { name := "Content Creator", requirement := 10, category := "posting" },
    { name := "Influencer", requirement := 25, category := "posting" },
    { name := "Viral Sensation", requirement := 1, category := "viral" } ]

/-- The record `checkAndUnlockAchievements` creates for a rule; `today` is
`new Date().toISOString().split('T')[0]`. -/
def unlockedRecord (achievement : AchievementRule) (today : String) : AchievementData :=
  { name := achievement.name
    requirement := achievement.requirement
    category := achievement.category
    icon := if achievement.category == "viral" then "flame" else "star"
    description := "Unlocked for " ++
      (if achievement.category == "viral" then "posting a viral video"
       else "posting " ++ toString achievement.requirement ++ " videos")
    unlocked := true
    unlocked_date := today }

/-- The condition of the `if` in the loop of `checkAndUnlockAchievements`. -/
def qualifies (postNumber : Int) (isViral : Bool) (achievement : AchievementRule) : Bool :=
  (achievement.category == "posting" && decide (postNumber ≥ achievement.requirement)) ||
  (achievement.category == "viral" && isViral)

/-- The body of the loop of `checkAndUnlockAchievements` for one rule. -/
def checkAchievement {υ : Type} (postNumber : Int) (isViral : Bool) (today : String)
    (achievement : AchievementRule) : Act (World υ) Unit :=
  if qualifies postNumber isViral achievement then do
    -- Check if already unlocked
    let me ← User.me
    let existing ← Achievement.filter
      (fun a => a.name == achievement.name && a.created_by == me.email)
    if existing.length = 0 then
      let _ ← Achievement.create (unlockedRecord achievement today)
      pure ()
    else pure ()
  else pure ()

/-- The loop `for (const achievement of rules)`. -/
def checkAchievements {υ : Type} (postNumber : Int) (isViral : Bool) (today : String) :
    List AchievementRule → Act (World υ) Unit
  | [] => pure ()
  | achievement :: rest => do
    checkAchievement postNumber isViral today achievement
    checkAchievements postNumber isViral today rest

/-- The function `checkAndUnlockAchievements` of `upload.js`. -/
def checkAndUnlockAchievements {υ : Type} (postNumber : Int) (isViral : Bool) (today : String) :
    Act (World υ) Unit :=
  checkAchievements postNumber isViral today achievementsToCheck

/-- The object `videoData` of `handleUpload`. -/
def videoDataOf (ui : UploadUi) (file_url : String) (viral : Bool) (postNumber : Int)
    (rViews rLikes : ℚ) : VideoData :=
  { title := jsTrim ui.title
    description := jsTrim ui.description
    video_url := file_url
    -- Viral videos start with more views
    views := some (if viral then 1000 else randomViews rViews)
    likes := some (if viral then 50 else randomLikes rLikes)
    is_viral := viral
    post_number := postNumber
    hashtags := parseHashtags ui.hashtags
    comment_count := none }

/-- A state setter of the upload page. -/
def setUpload (f : UploadUi → UploadUi) : Act (World UploadUi) Unit :=
  Act.modify (fun w => { w with ui := f w.ui })

/-- The function `handleUpload` of `upload.js`.  `rViews` and `rLikes` are
the two draws of `Math.random()`, `today` the current date.  The form is
cleared by a timer three seconds after a success; that timer is not part of
the handler. -/
def handleUpload (rViews rLikes : ℚ) (today : String) : Act (World UploadUi) Unit := do
  let w ← Act.get
  match w.ui.file with
  | none => pure ()
  | some file =>
    if jsTrim w.ui.title = "" then pure ()
    else do
      setUpload (fun u => { u with isUploading := true })
      setUpload (fun u => { u with uploadProgress := 10 })
      Act.tryCatch
        (do
          let user ← User.me
          -- Check if this will be a viral video
          let viral ← checkIfWillGoViral
          setUpload (fun u => { u with willGoViral := viral })
          setUpload (fun u => { u with uploadProgress := 30 })
          -- Upload the file
          let file_url ← UploadFile file
          setUpload (fun u => { u with uploadProgress := 70 })
          -- Get user stats
          let userStats ← UserStats.filter (fun r => r.created_by == user.email)
          let stats ← (match userStats with
            | s :: _ => pure s
            | [] => UserStats.create initialStats)
          let postNumber := jsOr stats.videos_posted 0 + 1
          -- Create the video
          let videoData := videoDataOf w.ui file_url viral postNumber rViews rLikes
          let _ ← Video.create videoData
          setUpload (fun u => { u with uploadProgress := 90 })
          -- Update user stats
          UserStats.update stats.id (fun d =>
            { d with
              videos_posted := some postNumber
              viral_videos := if viral then some (jsOr stats.viral_videos 0 + 1) else stats.viral_videos
              -- `Math.floor(postNumber / 5) + 1`: integer division rounds down
              level := some (postNumber / 5 + 1) })
          -- Check and unlock achievements
          checkAndUnlockAchievements postNumber viral today
          setUpload (fun u => { u with uploadProgress := 100 })
          setUpload (fun u => { u with showSuccess := true }))
        (do
          setUpload (fun u => { u with isUploading := false })
          setUpload (fun u => { u with uploadProgress := 0 }))

/-! ### A series of uploads -/

/-- The timer callback of `handleUpload` that clears the form after a
success. -/
def resetForm (_u : UploadUi) : UploadUi :=
  { file := none, title := "", description := "", hashtags := "", videoPreview := none,
    showSuccess := false, willGoViral := false, isUploading := false, uploadProgress := 0 }

/-- What the user enters for one upload, with the random draws and the date
the handler will read. -/
structure UploadInput where
  file : File
  title : String
  description : String
  hashtags : String
  rViews : ℚ
  rLikes : ℚ
  today : String

/-- The form setters `setFile`, `setTitle`, `setDescription`, `setHashtags`
fired by the inputs of the page. -/
def fillForm (inp : UploadInput) (u : UploadUi) : UploadUi :=
  { u with file := some inp.file, videoPreview := some inp.file.url, title := inp.title,
           description := inp.description, hashtags := inp.hashtags }

/-- One use of the upload page: the cleared form is filled and the button
runs `handleUpload`. -/
def uploadRun (inp : UploadInput) (w : World UploadUi) : World UploadUi :=
  (handleUpload inp.rViews inp.rLikes inp.today
    { w with ui := fillForm inp (resetForm w.ui) }).2

/-- Uploads one after another, with no other writer to the store. -/
def uploadRuns : List UploadInput → World UploadUi → World UploadUi
  | [], w => w
  | inp :: rest, w => uploadRuns rest (uploadRun inp w)

/-! ## Achievements page (`acheivements.js`) -/

/-- An entry of the table `predefinedAchievements`. -/
structure PredefinedAchievement where
  name : String
  description : String
  icon : String
  category : String
  requirement : Int
  points : Int
deriving DecidableEq, Repr

/-- The table `predefinedAchievements` of `acheivements.js`. -/
def predefinedAchievements : List PredefinedAchievement :=
  [ { name := "First Video", description := "Posted your very first video", icon := "star",
      category := "posting", requirement := 1, points := 10 },
    { name := "Getting Started", description := "Posted 5 videos", icon := "target",
      category := "posting", requirement := 5, points := 25 },
    { name := "Content Creator", description := "Posted 10 videos", icon := "award",
      category := "posting", requirement := 10, points := 50 },
    { name := "Influencer", description := "Posted 25 videos", icon := "crown",
      category := "posting", requirement := 25, points := 100 },
    { name := "Video Master", description := "Posted 50 videos", icon := "medal",
      category := "posting", requirement := 50, points := 200 },
    { name := "Viral Sensation", description := "Had your first viral video", icon := "flame",
      category := "viral", requirement := 1, points := 75 },
    { name := "Viral King", description := "Had 5 viral videos", icon := "zap",
      category := "viral", requirement := 5, points := 250 } ]

/-! ## Profile page (`Profile.js`) -/

/-- The function `getNextViralVideo` of `Profile.js`; `stats` is the state
cell of the same name, `null` before the statistics are loaded.  The result
is a number of JavaScript: the sum, the quotient, the product and the
difference are rounded to binary64, `Math.ceil` is exact. -/
def getNextViralVideo (stats : Option UserStats) : ℚ :=
  let videosPosted : ℚ := ((jsOr (stats.bind (fun s => s.videos_posted)) 0 : Int) : ℚ)
  let nextMilestone := fl ((Int.ceil (fl (fl (videosPosted + 1) / 10)) : ℚ) * 10)
  fl (nextMilestone - videosPosted)

/-! ## Friends leaderboard (`Chat.js`, component `FriendsLeaderboard`) -/

/-- An entry of the array `friendsStats`. -/
structure LeaderboardEntry where
  email : String
  name : String
  level : Int
  videos_posted : Int
  viral_videos : Int
  total_views : Int
deriving DecidableEq, Repr

/-- The React state of `FriendsLeaderboard`. -/
structure LeaderboardUi where
  leaderboard : List LeaderboardEntry
  isLoading : Bool
deriving DecidableEq, Repr

/-- The method `Set.prototype.add` on a set kept in insertion order. -/
def setAdd (set : List String) (email : String) : List String :=
  if set.contains email then set else set ++ [email]

/-- The set `friendEmails` of `loadLeaderboard`, in iteration order. -/
def friendEmails (user : User) (conversations : List Conversation) : List String :=
  conversations.foldl
    (fun set conv =>
      conv.participants.foldl
        (fun set email => if email != user.email then setAdd set email else set) set)
    []

/-- The expression `userData[0].full_name || userData[0].email.split('@')[0]`. -/
def displayName (d : User) : String :=
  match d.full_name with
  | some n => if n = "" then String.mk (d.email.data.takeWhile (fun c => c != '@')) else n
  | none => String.mk (d.email.data.takeWhile (fun c => c != '@'))

/-- The body of the loop over `friendEmails`: the entry pushed for one email,
if any; an error of either query is swallowed. -/
def friendEntry {υ : Type} (email : String) : Act (World υ) (Option LeaderboardEntry) :=
  Act.tryCatch
    (do
      let userStats ← UserStats.filter (fun r => r.created_by == email)
      let userData ← User.filter (fun d => d.email == email)
      match userStats, userData with
      | s :: _, d :: _ =>
        pure (some
          { email := email
            name := displayName d
            level := jsOr s.level 1
            videos_posted := jsOr s.videos_posted 0
            viral_videos := jsOr s.viral_videos 0
            total_views := jsOr s.total_views 0 })
      | _, _ => pure none)
    -- Skip if user stats not found
    (pure none)

/-- The loop `for (const email of friendEmails)` that fills `friendsStats`. -/
def collectFriendsStats {υ : Type} : List String → Act (World υ) (List LeaderboardEntry)
  | [] => pure []
  | email :: rest => do
    let entry ← friendEntry email
    let entries ← collectFriendsStats rest
    pure (match entry with
      | some e => e :: entries
      | none => entries)

/-- The comparator passed to `friendsStats.sort`. -/
def compareEntries (a b : LeaderboardEntry) : Int :=
  if b.level ≠ a.level then b.level - a.level
  else b.videos_posted - a.videos_posted

/-- Insertion of `x` into a sorted array, behind the elements that do not
have to come after it. -/
def insertSorted {α : Type} (compare : α → α → Int) (x : α) : List α → List α
  | [] => [x]
  | y :: ys => if compare y x > 0 then x :: y :: ys else y :: insertSorted compare x ys

/-- The method `Array.prototype.sort(compare)`, as a stable insertion sort:
the language fixes the result for a consistent comparator, not the algorithm. -/
def jsSort {α : Type} (compare : α → α → Int) (xs : List α) : List α :=
  xs.foldl (fun sorted x => insertSorted compare x sorted) []

/-- The function `loadLeaderboard` of `FriendsLeaderboard`; `user` is the
prop of the component. -/
def loadLeaderboard (user : Option User) : Act (World LeaderboardUi) Unit :=
  match user with
  | none => pure ()
  | some user =>
    Act.tryFinally
      (Act.tryCatch
        (do
          -- Get all conversations (friends)
          let conversations ← Conversation.filter (fun c => c.participants.contains user.email)
          -- Get user stats for each friend
          let friendsStats ← collectFriendsStats (friendEmails user conversations)
          -- Sort by level (descending), then by videos posted
          Act.modify (fun w =>
            { w with ui := { w.ui with leaderboard := jsSort compareEntries friendsStats } }))
        (pure ()))
      (Act.modify (fun w => { w with ui := { w.ui with isLoading := false } }))

/-! ## Search overlay (`feed.js`, component `SearchOverlay`) -/

/-- The state cell `results`. -/
structure SearchResults where
  videos : List Video
  users : List User
deriving DecidableEq, Repr

/-- The React state of `SearchOverlay`. -/
structure SearchUi where
  query : String
  results : SearchResults
deriving DecidableEq, Repr

/-- Modelled from the spec: the call `Video.filter(query)`. -/
def Video.filter {υ : Type} (query : Video → Bool) : Act (World υ) (List Video) := do
  request
  let w ← Act.get
  pure (w.db.videos.filter query)

/-- The callback `handleSearch` that the search effect hands to `setTimeout`;
`regexMatch q s` is the backend test that `s` matches `q` with the option
`i`. -/
def handleSearch (regexMatch : String → String → Bool) (query : String) :
    Act (World SearchUi) Unit := do
  let videoResults ← Video.filter (fun v => regexMatch query v.title)
  let userResults ← User.filter (fun u => match u.full_name with
    | some n => regexMatch query n
    | none => false)
  Act.modify (fun w =>
    { w with ui := { w.ui with results := { videos := videoResults, users := userResults } } })

/-- A timer set by `setTimeout`: its delay in milliseconds and its callback. -/
structure Timer where
  delay : Nat
  callback : Act (World SearchUi) Unit

/-- The effect of `SearchOverlay` that runs when `query` changes.  It sees
the page state only; every backend call of the component is in the callback
of the timer it returns.  The cleanup that clears the timer of the previous
run is left out. -/
def searchEffect (regexMatch : String → String → Bool) (ui : SearchUi) :
    SearchUi × Option Timer :=
  if jsLength ui.query > 2 then
    (ui, some { delay := 500, callback := handleSearch regexMatch ui.query })
  else
    ({ ui with results := { videos := [], users := [] } }, none)

/-! ## Chat page (`Chat.js`) -/

/-- The React state of `ChatPage`. -/
structure ChatUi where
  conversations : List Conversation
  activeConversation : Option Conversation
  messages : List Message
  newMessage : String
  user : Option User
  isSending : Bool
deriving DecidableEq, Repr

/-- The readings of the clock in one run of `handleSendMessage`:
`Date.now()`, the two `new Date().toISOString()` and the creation date the
backend stamps on the message. -/
structure SendClock where
  now : Nat
  tempDate : String
  storedDate : String
  updateDate : String
deriving DecidableEq, Repr

/-- A state setter of the chat page. -/
def setChat (f : ChatUi → ChatUi) : Act (World ChatUi) Unit :=
  Act.modify (fun w => { w with ui := f w.ui })

/-- The function `loadMessages` of `ChatPage`. -/
def loadMessages : Act (World ChatUi) Unit := do
  let w ← Act.get
  match w.ui.activeConversation with
  | some conv =>
    let msgs ← Message.filter (fun m => m.conversation_id == some conv.id)
    setChat (fun u => { u with messages := msgs })
  | none => pure ()

/-- The optimistic message `handleSendMessage` appends. -/
def tempMessage (clock : SendClock) (content : String) (user : User) : Message :=
  { id := toString clock.now, conversation_id := none, content := content,
    created_by := user.email, created_date := some clock.tempDate }

/-- The `try` block of `handleSendMessage`. -/
def sendToBackend (clock : SendClock) (conv : Conversation) (content : String) :
    Act (World ChatUi) Unit := do
  let _ ← Message.create conv.id content clock.storedDate
  Conversation.update conv.id (fun d =>
    { d with last_message := some content, last_message_date := some clock.updateDate })
  loadMessages

/-- The function `handleSendMessage` of `ChatPage`.  The page renders the
chat only for a signed-in user; without one `user.email` throws. -/
def handleSendMessage (clock : SendClock) : Act (World ChatUi) Unit := do
  let w ← Act.get
  match w.ui.activeConversation with
  | none => pure ()
  | some conv =>
    if jsTrim w.ui.newMessage = "" then pure ()
    else do
      setChat (fun u => { u with isSending := true })
      let tempId := toString clock.now
      let content := w.ui.newMessage
      match w.ui.user with
      | none => Act.throw
      | some user =>
        setChat (fun u => { u with messages := u.messages ++ [tempMessage clock content user] })
        setChat (fun u => { u with newMessage := "" })
        Act.tryFinally
          (Act.tryCatch
            (sendToBackend clock conv content)
            (setChat (fun u => { u with messages := u.messages.filter (fun m => m.id != tempId) })))
          (setChat (fun u => { u with isSending := false }))

/-- The page state when `handleSendMessage` enters its `try` block: the
button is disabled, the optimistic message is appended and the input is
cleared. -/
def optimisticSend (clock : SendClock) (user : User) (w : World ChatUi) : World ChatUi :=
  { w with ui :=
    { w.ui with
      isSending := true
      messages := w.ui.messages ++ [tempMessage clock w.ui.newMessage user]
      newMessage := "" } }

/-! ## Feed page (`feed.js`, component `Feed`) -/

/-- The method `Map.prototype.has` on a map kept as its entries in insertion
order. -/
def mapHas (m : List (String × String)) (key : String) : Bool :=
  m.any (fun e => e.1 == key)

/-- The method `Map.prototype.get`; `none` is `undefined`. -/
def mapGet (m : List (String × String)) (key : String) : Option String :=
  (m.find? (fun e => e.1 == key)).map (fun e => e.2)

/-- The method `Map.prototype.set`: the value of an existing key is replaced
in place, a new key is appended. -/
def mapSet (m : List (String × String)) (key value : String) : List (String × String) :=
  if mapHas m key then m.map (fun e => if e.1 == key then (key, value) else e)
  else m ++ [(key, value)]

/-- The method `Map.prototype.delete`. -/
def mapDelete (m : List (String × String)) (key : String) : List (String × String) :=
  m.filter (fun e => e.1 != key)

/-- The React state of `Feed`; `likedVideos` is the `Map<videoId, likeId>`. -/
structure FeedUi where
  videos : List Video
  currentVideoIndex : Nat
  user : Option User
  isPlaying : Bool
  isMuted : Bool
  likedVideos : List (String × String)
  showComments : Bool
  activeVideoForComment : Option Video
  showSearch : Bool
deriving DecidableEq, Repr

section FeedApi

variable {υ : Type}

/-- Modelled from the spec: the call `Video.list('-created_date', 50)`: the
fifty newest videos, newest first; the store keeps records in creation
order. -/
def Video.list : Act (World υ) (List Video) := do
  request
  let w ← Act.get
  pure (w.db.videos.reverse.take 50)

/-- Modelled from the spec: the call `Video.update(id, patch)`; it is
rejected when no record has the id. -/
def Video.update (id : String) (patch : VideoData → VideoData) : Act (World υ) Unit := do
  request
  let w ← Act.get
  if w.db.videos.any (fun r => r.id == id) then
    Act.modify (fun w =>
      let rs := w.db.videos.map
        (fun r => if r.id == id then { r with toVideoData := patch r.toVideoData } else r)
      { w with db := { w.db with videos := rs } })
  else Act.throw

/-- Modelled from the spec: the call `Like.filter(query)`. -/
def Like.filter (query : Like → Bool) : Act (World υ) (List Like) := do
  request
  let w ← Act.get
  pure (w.db.likes.filter query)

/-- Modelled from the spec: the call `Like.create(\x7b video_id \x7d)`. -/
def Like.create (video_id : String) : Act (World υ) Like := do
  request
  let u ← signedIn
  let i ← freshId
  let r : Like := { id := i, video_id := video_id, created_by := u.email }
  Act.modify (fun w => { w with db := { w.db with likes := w.db.likes ++ [r] } })
  pure r

/-- Modelled from the spec: the call `Like.delete(id)`; it is rejected when
no record has the id. -/
def Like.delete (id : String) : Act (World υ) Unit := do
  request
  let w ← Act.get
  if w.db.likes.any (fun r => r.id == id) then
    Act.modify (fun w =>
      { w with db := { w.db with likes := w.db.likes.filter (fun r => r.id != id) } })
  else Act.throw

/-- Modelled from the spec: the call `Comment.filter(query, "-created_date")`:
the matching comments, newest first. -/
def Comment.filter (query : Comment → Bool) : Act (World υ) (List Comment) := do
  request
  let w ← Act.get
  pure (w.db.comments.filter query).reverse

/-- Modelled from the spec: the call `Comment.create(data)`; a missing
`reply_to` is `none`. -/
def Comment.create (video_id content : String) (reply_to : Option String) :
    Act (World υ) Comment := do
  request
  let u ← signedIn
  let i ← freshId
  let r : Comment :=
    { id := i, video_id := video_id, content := content, reply_to := reply_to,
      created_by := u.email }
  Act.modify (fun w => { w with db := { w.db with comments := w.db.comments ++ [r] } })
  pure r

end FeedApi

/-- A state setter of the feed. -/
def setFeed (f : FeedUi → FeedUi) : Act (World FeedUi) Unit :=
  Act.modify (fun w => { w with ui := f w.ui })

/-- The map `likedMap` that `loadData` builds from the likes of the user. -/
def likedMapOf (userLikes : List Like) : List (String × String) :=
  userLikes.foldl (fun likedMap like => mapSet likedMap like.video_id like.id) []

/-- The function `loadData` of `Feed`. -/
def loadData : Act (World FeedUi) Unit := do
  let fetchedVideos ← Video.list
  setFeed (fun u => { u with videos := fetchedVideos })
  Act.tryCatch
    (do
      let currentUser ← User.me
      setFeed (fun u => { u with user := some currentUser })
      if fetchedVideos.length > 0 then
        let videoIds := fetchedVideos.map (fun v => v.id)
        let userLikes ← Like.filter
          (fun l => videoIds.contains l.video_id && l.created_by == currentUser.email)
        setFeed (fun u => { u with likedVideos := likedMapOf userLikes })
      else pure ())
    -- User not logged in
    (pure ())

/-- The updater `handleLike` passes to `setVideos`: the optimistic update of
the like counter. -/
def optimisticLike (isLiked : Bool) (video : Video) (prev : List Video) : List Video :=
  prev.map (fun v =>
    if v.id == video.id then
      { v with likes := some (if isLiked then jsOr v.likes 1 - 1 else jsOr v.likes 0 + 1) }
    else v)

/-- The function `handleLike` of `Feed`.  Without a user the page redirects
to the login and nothing else happens. -/
def handleLike (video : Video) : Act (World FeedUi) Unit := do
  let w ← Act.get
  match w.ui.user with
  | none => pure ()
  | some _ =>
    let isLiked := mapHas w.ui.likedVideos video.id
    let newLikedVideos := w.ui.likedVideos
    -- Optimistically update UI
    setFeed (fun u => { u with videos := optimisticLike isLiked video u.videos })
    if isLiked then
      match mapGet w.ui.likedVideos video.id with
      | some likeId =>
        Like.delete likeId
        setFeed (fun u => { u with likedVideos := mapDelete newLikedVideos video.id })
      | none => Act.throw
    else do
      let newLike ← Like.create video.id
      setFeed (fun u => { u with likedVideos := mapSet newLikedVideos video.id newLike.id })

/-- The text the feed shows for a stored hashtag. -/
def displayHashtag (tag : String) : String := "#" ++ tag

/-! ### A visit of the feed -/

/-- Presses of the like button one after another, each after the previous
call has finished. -/
def likeRuns : List Video → World FeedUi → World FeedUi
  | [], w => w
  | video :: rest, w => likeRuns rest (handleLike video w).2

/-- A visit of the feed: the page loads, then the like button of some videos
is pressed. -/
def feedSession (targets : List Video) (w : World FeedUi) : World FeedUi :=
  likeRuns targets (loadData w).2

/-! ## Comment sheet (`feed.js`, component `CommentSheet`) -/

/-- The props `video` and `user` and the React state of `CommentSheet`.  The
props are those `Feed` passed when the sheet was opened; no handler of the
sheet changes them. -/
structure CommentSheetUi where
  video : Option Video
  user : Option User
  comments : List Comment
  newComment : String
  isPosting : Bool
deriving DecidableEq, Repr

/-- A state setter of the comment sheet. -/
def setSheet (f : CommentSheetUi → CommentSheetUi) : Act (World CommentSheetUi) Unit :=
  Act.modify (fun w => { w with ui := f w.ui })

/-- The test `video?.id`: there is a video and its id is not empty. -/
def hasVideoId (video : Option Video) : Bool :=
  match video with
  | some v => v.id != ""
  | none => false

/-- The function `loadComments` of `CommentSheet`. -/
def loadComments : Act (World CommentSheetUi) Unit := do
  let w ← Act.get
  match w.ui.video with
  | some video =>
    if video.id != "" then
      -- Fetch all comments related to the video, including replies
      let fetchedComments ← Comment.filter (fun c => c.video_id == video.id)
      setSheet (fun u => { u with comments := fetchedComments })
    else pure ()
  | none => pure ()

/-- The statement `Video.update(video.id, \x7b comment_count: (video.comment_count || 0) + 1 \x7d)`
guarded by `video?.id`, on the prop `video`. -/
def bumpCommentCount (video : Video) : Act (World CommentSheetUi) Unit :=
  if video.id != "" then
    Video.update video.id
      (fun d => { d with comment_count := some (jsOr video.comment_count 0 + 1) })
  else pure ()

/-- The function `handlePostComment` of `CommentSheet`; reading `video.id`
of a missing video throws. -/
def handlePostComment : Act (World CommentSheetUi) Unit := do
  let w ← Act.get
  if jsTrim w.ui.newComment = "" ∨ w.ui.user = none then pure ()
  else do
    setSheet (fun u => { u with isPosting := true })
    Act.tryFinally
      (match w.ui.video with
        | none => Act.throw
        | some video => do
          let _ ← Comment.create video.id w.ui.newComment none
          setSheet (fun u => { u with newComment := "" })
          loadComments
          -- Update the comment count on the video object itself
          bumpCommentCount video)
      (setSheet (fun u => { u with isPosting := false }))

/-- The function `handleReply` of `CommentSheet`. -/
def handleReply (parentCommentId replyContent : String) : Act (World CommentSheetUi) Unit := do
  let w ← Act.get
  if w.ui.user = none ∨ jsTrim replyContent = "" then pure ()
  else
    Act.tryCatch
      (match w.ui.video with
        | none => Act.throw
        | some video => do
          let _ ← Comment.create video.id replyContent (some parentCommentId)
          -- Reload all comments to show the new reply
          loadComments
          bumpCommentCount video)
      -- Failed to post reply
      (pure ())

/-- The test `!comment.reply_to`: the field is missing or the empty string. -/
def noReplyTo (reply_to : Option String) : Bool :=
  match reply_to with
  | none => true
  | some parent => parent == ""

/-- The list `topLevelComments` of `CommentSheet`. -/
def topLevelComments (comments : List Comment) : List Comment :=
  comments.filter (fun comment => noReplyTo comment.reply_to)

/-! ### Posts through one open sheet -/

/-- A post through the comment sheet: a comment typed into the input, or a
reply to a comment. -/
inductive SheetPost where
  | comment (text : String)
  | reply (parentCommentId : String) (text : String)
deriving DecidableEq, Repr

/-- The text of a post. -/
def SheetPost.text : SheetPost → String
  | SheetPost.comment t => t
  | SheetPost.reply _ t => t

/-- One post: the input is typed and `handlePostComment` runs, or
`handleReply` runs. -/
def postRun (p : SheetPost) (w : World CommentSheetUi) : World CommentSheetUi :=
  match p with
  | SheetPost.comment t => (handlePostComment { w with ui := { w.ui with newComment := t } }).2
  | SheetPost.reply parent t => (handleReply parent t w).2

/-- Posts one after another through the same open sheet. -/
def postRuns : List SheetPost → World CommentSheetUi → World CommentSheetUi
  | [], w => w
  | p :: rest, w => postRuns rest (postRun p w)

/-! ## Achievements page: progress and counters (`acheivements.js`) -/

/-- The function `isAchievementUnlocked`; `unlockedAchievements` is the state
cell of the page. -/
def isAchievementUnlocked (unlockedAchievements : List Achievement)
    (achievement : PredefinedAchievement) : Bool :=
  unlockedAchievements.any (fun unlocked => unlocked.name == achievement.name)

/-- The expression `Math.min((stat / requirement) * 100, 100)` on doubles:
the quotient and the product are rounded to binary64. -/
def progressOf (stat requirement : Int) : ℚ :=
  min (fl (fl ((stat : ℚ) / (requirement : ℚ)) * 100)) 100

/-- The function `getProgress`; `userStats` is the state cell of the page,
`null` until the statistics are loaded. -/
def getProgress (userStats : Option UserStats) (achievement : PredefinedAchievement) : ℚ :=
  match userStats with
  | none => 0
  | some stats =>
    if achievement.category = "posting" then
      progressOf (jsOr stats.videos_posted 0) achievement.requirement
    else if achievement.category = "viral" then
      progressOf (jsOr stats.viral_videos 0) achievement.requirement
    else 0

/-- The number in the motivational message:
`predefinedAchievements.length - unlockedAchievements.length`. -/
def achievementsLeft (unlockedAchievements : List Achievement) : Int :=
  (predefinedAchievements.length : Int) - (unlockedAchievements.length : Int)

/-- The motivational message of the page. -/
def motivationalMessage (unlockedAchievements : List Achievement) : String :=
  if unlockedAchievements.length = 0 then
    "Post your first video to unlock your first achievement!"
  else toString (achievementsLeft unlockedAchievements) ++ " achievements left to unlock!"

/-! ## Notions used in the statements -/

/-- The statistics records of a user, as `UserStats.filter` selects them. -/
def statsOf {υ : Type} (w : World υ) (email : String) : List UserStats :=
  w.db.userStats.filter (fun r => r.created_by == email)

/-- The same page and store with another fault schedule. -/
def setFaults {υ : Type} (fs : List Bool) (w : World υ) : World υ :=
  { w with db := { w.db with faults := fs } }

/-- The store after `Achievement.create` has added the record `a`. -/
def addAchievement {υ : Type} (a : Achievement) (w : World υ) : World υ :=
  { w with db := { w.db with nextId := w.db.nextId + 1, achievements := w.db.achievements ++ [a] } }

/-- The record `checkAndUnlockAchievements` stores for a rule, as created for
the user `u` in the store of `w`. -/
def unlockedFor {υ : Type} (w : World υ) (u : User) (r : AchievementRule) (today : String) :
    Achievement :=
  { unlockedRecord r today with id := toString w.db.nextId, created_by := u.email }

/-- The query of `checkAndUnlockAchievements`: the records of a name and a
user. -/
def unlockedBy {υ : Type} (w : World υ) (name email : String) : List Achievement :=
  w.db.achievements.filter (fun a => a.name == name && a.created_by == email)

/-- Every run of `m` takes a state to one related to it by `R`, whether it
returns or throws. -/
def Act.Respects {σ α : Type} (R : σ → σ → Prop) (m : Act σ α) : Prop :=
  ∀ s, R s (m s).2

/-- The videos a run of a handler added: the store only grows by videos
that satisfy `P`. -/
def AddsVideos {υ : Type} (P : Video → Prop) (w w1 : World υ) : Prop :=
  ∃ created, w1.db.videos = w.db.videos ++ created ∧ ∀ v ∈ created, P v

/-- The store after `n` uploads of the user `u`, as the upload page sees it:
no statistics record yet, or one record that counts `n` posted videos, one in
ten of them viral. -/
def Counted {υ : Type} (w : World υ) (u : User) (n : Int) : Prop :=
  (statsOf w u.email = [] ∧ n = 0) ∨
  (∃ st, statsOf w u.email = [st] ∧ st.videos_posted = some n ∧
    st.viral_videos = some (n / 10) ∧ 0 ≤ n)

/-- A value `Math.random()` can return: a binary64 number in `[0, 1)`. -/
def IsRandomDraw (r : ℚ) : Prop := isBinary64 r ∧ 0 ≤ r ∧ r < 1

/-- The initial counters `handleUpload` gives a video: 1000 views and 50
likes when viral, views in `[10, 59]` and likes in `[0, 9]` otherwise. -/
def InitialCounters (v : Video) : Prop :=
  (v.is_viral = true → v.views = some 1000 ∧ v.likes = some 50) ∧
  (v.is_viral = false → ∃ a b : Int, v.views = some a ∧ 10 ≤ a ∧ a ≤ 59 ∧
    v.likes = some b ∧ 0 ≤ b ∧ b ≤ 9)

/-- The stored videos after `Video.update` has written the comment count
`bumpCommentCount` computes from the prop `video`. -/
def countWritten (video : Video) (stored : List Video) : List Video :=
  stored.map (fun r =>
    if r.id == video.id then
      { r with toVideoData :=
          { r.toVideoData with comment_count := some (jsOr video.comment_count 0 + 1) } }
    else r)

/-- The comment a post stores: `Comment.create` gives it the id `id` and the
email of the signed-in user. -/
def storedPost (id video_id created_by : String) (p : SheetPost) : Comment :=
  match p with
  | SheetPost.comment t =>
    { id := id, video_id := video_id, content := t, reply_to := none, created_by := created_by }
  | SheetPost.reply parent t =>
    { id := id, video_id := video_id, content := t, reply_to := some parent,
      created_by := created_by }

/-- The comments a series of posts stores, with ids counted from `n`. -/
def storedPosts (n : Nat) (video_id created_by : String) : List SheetPost → List Comment
  | [] => []
  | p :: rest =>
    storedPost (toString n) video_id created_by p :: storedPosts (n + 1) video_id created_by rest

/-- The liked map agrees with the store on the videos `ids` for the user
`email`: an id is mapped to `i` exactly when a like of the user for that
video with id `i` is stored. -/
def LikesAgree (ids : List String) (email : String) (likedVideos : List (String × String))
    (likes : List Like) : Prop :=
  ∀ vid ∈ ids, ∀ i, mapGet likedVideos vid = some i ↔
    ∃ l ∈ likes, l.created_by = email ∧ l.video_id = vid ∧ l.id = i

/-- The stored likes as the backend keeps them: record ids are distinct, the
id counter is ahead of them, and the user `email` has at most one like per
video. -/
def LikeStoreOk (email : String) (likes : List Like) (nextId : Nat) : Prop :=
  (likes.map (fun l => l.id)).Nodup ∧
  (∀ l ∈ likes, ∀ k, nextId ≤ k → l.id ≠ toString k) ∧
  (∀ l1 ∈ likes, ∀ l2 ∈ likes, l1.created_by = email → l2.created_by = email →
    l1.video_id = l2.video_id → l1.id = l2.id)

/-- The feed of the signed-in user `u` showing the videos `ids`, with a liked
map that agrees with a well-kept store on which no call fails. -/
def FeedInv (u : User) (ids : List String) (w : World FeedUi) : Prop :=
  w.db.faults = [] ∧ w.db.currentUser = some u ∧ (∃ x, w.ui.user = some x) ∧
  w.ui.videos.map (fun v => v.id) = ids ∧
  LikeStoreOk u.email w.db.likes w.db.nextId ∧
  LikesAgree ids u.email w.ui.likedVideos w.db.likes

/-- The stat the specification names for the category of an achievement:
`videos_posted` for `posting`, `viral_videos` for `viral`, a missing counter
counting as 0; no stat for another category. -/
def statOf (stats : UserStats) (achievement : PredefinedAchievement) : Option Int :=
  if achievement.category = "posting" then some (jsOr stats.videos_posted 0)
  else if achievement.category = "viral" then some (jsOr stats.viral_videos 0)
  else none

/-- The progress as the specification words it, in exact arithmetic:
`min(stat / requirement * 100, 100)`. -/
def exactProgress (stat requirement : Int) : ℚ :=
  min ((stat : ℚ) / (requirement : ℚ) * 100) 100

/-! ## Sample states -/

/-- A signed-in user. -/
def sampleUser : User := { id := "u1", email := "ana@example.org", full_name := some "Ana" }

/-- A store with one signed-in user, no records and no failing call. -/
def sampleBackend : Backend :=
  { currentUser := some sampleUser, users := [sampleUser], userStats := [], videos := [],
    achievements := [], conversations := [], messages := [], likes := [], comments := [],
    nextId := 0, faults := [] }

/-- The upload page before anything is typed. -/
def emptyForm : UploadUi :=
  { file := none, title := "", description := "", hashtags := "", isUploading := false,
    uploadProgress := 0, videoPreview := none, showSuccess := false, willGoViral := false }

/-- One filled upload form. -/
def sampleInput : UploadInput :=
  { file := { type := "video/mp4", url := "https://files.example.org/clip.mp4" },
    title := "My clip", description := "A clip", hashtags := "#fun #clip",
    rViews := 0, rLikes := 0, today := "2024-05-01" }

/-- The upload page on the sample store. -/
def sampleUploadWorld : World UploadUi := { ui := emptyForm, db := sampleBackend }

/-- The upload page on the sample store with the form filled. -/
def filledUploadWorld : World UploadUi :=
  { ui := fillForm sampleInput emptyForm, db := sampleBackend }

/-- A statistics record that counts nine posted videos. -/
def nineVideos : UserStats :=
  { initialStats with videos_posted := some 9, id := "s1", created_by := "ana@example.org" }

/-- The sample store when the user has posted nine videos. -/
def nineVideosWorld : World UploadUi :=
  { ui := emptyForm, db := { sampleBackend with userStats := [nineVideos] } }

/-- The filled upload page when the user has posted nine videos. -/
def nineVideosFilledWorld : World UploadUi :=
  { ui := fillForm sampleInput emptyForm, db := { sampleBackend with userStats := [nineVideos] } }

/-- A friend with statistics. -/
def bob : User := { id := "u2", email := "bob@example.org", full_name := some "Bob" }

/-- Another friend with statistics. -/
def cy : User := { id := "u3", email := "cy@example.org", full_name := none }

/-- A store in which the sample user has three conversations with two
friends. -/
def leaderboardBackend : Backend :=
  { sampleBackend with
    users := [sampleUser, bob, cy]
    userStats :=
      [ { initialStats with level := some 3, videos_posted := some 12, id := "s2",
                            created_by := "bob@example.org" },
        { initialStats with level := some 3, videos_posted := some 14, id := "s3",
                            created_by := "cy@example.org" } ]
    conversations :=
      [ { participants := ["ana@example.org", "bob@example.org"], participant_details := [],
          last_message := none, last_message_date := none, id := "c1" },
        { participants := ["cy@example.org", "ana@example.org"], participant_details := [],
          last_message := none, last_message_date := none, id := "c2" },
        { participants := ["bob@example.org", "ana@example.org"], participant_details := [],
          last_message := none, last_message_date := none, id := "c3" } ] }

/-- The leaderboard component before it has loaded. -/
def leaderboardWorld : World LeaderboardUi :=
  { ui := { leaderboard := [], isLoading := true }, db := leaderboardBackend }

/-- The search overlay with a query of two characters. -/
def shortQuery : SearchUi := { query := "ab", results := { videos := [], users := [] } }

/-- The chat page with an open conversation and a typed message, on a store
whose next call fails. -/
def failingChatWorld : World ChatUi :=
  { ui :=
      { conversations := leaderboardBackend.conversations
        activeConversation := leaderboardBackend.conversations.head?
        messages :=
          [ { id := "m1", conversation_id := some "c1", content := "hello",
              created_by := "bob@example.org", created_date := some "2024-05-01T10:00:00.000Z" } ]
        newMessage := "hi Bob"
        user := some sampleUser
        isSending := false }
    db := { leaderboardBackend with faults := [true] } }

/-- The clock readings of the sample send. -/
def sampleClock : SendClock :=
  { now := 1714557600000, tempDate := "2024-05-01T10:00:00.000Z",
    storedDate := "2024-05-01T10:00:00.100Z", updateDate := "2024-05-01T10:00:00.200Z" }

/-- An unlocked record of the first achievement, as a second tab of the same
account could store it a second time. -/
def duplicateRecord : Achievement :=
  { unlockedRecord { name := "First Video", requirement := 1, category := "posting" } "2024-05-01"
    with id := "a1", created_by := "ana@example.org" }

/-- A stored video of a friend, without likes and comments so far. -/
def clipOne : Video :=
  { title := "Skate tricks", description := "", video_url := "https://files.example.org/a.mp4",
    views := some 3, likes := none, is_viral := false, post_number := 1, hashtags := ["fun"],
    comment_count := none, id := "0", created_by := "bob@example.org" }

/-- A second stored video, liked by the friend and by the sample user. -/
def clipTwo : Video := { clipOne with title := "Cooking", likes := some 2, id := "1" }

/-- A store with two videos and two likes of the second video. -/
def feedBackend : Backend :=
  { sampleBackend with
    users := [sampleUser, bob]
    videos := [clipOne, clipTwo]
    likes :=
      [ { id := "2", video_id := "1", created_by := "bob@example.org" },
        { id := "3", video_id := "1", created_by := "ana@example.org" } ]
    nextId := 4 }

/-- The feed as it mounts. -/
def mountedFeed : FeedUi :=
  { videos := [], currentVideoIndex := 0, user := none, isPlaying := true, isMuted := true,
    likedVideos := [], showComments := false, activeVideoForComment := none,
    showSearch := false }

/-- The feed page on the store with two videos. -/
def feedWorld : World FeedUi := { ui := mountedFeed, db := feedBackend }

/-- The feed page when the session has expired: the second call fails. -/
def signedOutFeedWorld : World FeedUi :=
  { ui := mountedFeed, db := { feedBackend with faults := [false, true] } }

/-- The comment sheet opened on the first video by the sample user. -/
def sheetWorld : World CommentSheetUi :=
  { ui := { video := some clipOne, user := some sampleUser, comments := [], newComment := "",
            isPosting := false }
    db := feedBackend }

/-- The feed of the sample user after it has loaded: two videos, the second
one liked. -/
def loadedFeedWorld : World FeedUi :=
  { ui := { mountedFeed with videos := [clipTwo, clipOne], user := some sampleUser,
                             likedVideos := [("1", "3")] }
    db := feedBackend }

/-- A statistics record whose counter is beyond the safe integers. -/
def unsafeCounter : UserStats :=
  { initialStats with videos_posted := some 9007199254741000, id := "s9",
                      created_by := "ana@example.org" }

/-! ## Properties -/

section Lemmas

variable {σ α β : Type}

theorem Act.bind_eq (m : Act σ α) (f : α → Act σ β) (s : σ) :
    (m >>= f) s = match m s with
      | (some a, t) => f a t
      | (none, t) => (none, t) := rfl

theorem Act.bind_of_some {m : Act σ α} {f : α → Act σ β} {s t : σ} {a : α}
    (h : m s = (some a, t)) : (m >>= f) s = f a t := by
  rw [Act.bind_eq, h]

theorem Act.bind_of_none {m : Act σ α} {f : α → Act σ β} {s t : σ}
    (h : m s = (none, t)) : (m >>= f) s = (none, t) := by
  rw [Act.bind_eq, h]

theorem Act.pure_eq (a : α) (s : σ) : (pure a : Act σ α) s = (some a, s) := rfl

end Lemmas


theorem tmod_ten_eq_zero_iff (n : Int) : Int.tmod n 10 = 0 ↔ (10 : Int) ∣ n :=
  ⟨Int.dvd_of_tmod_eq_zero, Int.tmod_eq_zero_of_dvd⟩

section ApiLemmas

variable {υ : Type}

theorem request_ok {w : World υ} (hf : w.db.faults = []) : request w = (some (), w) := by
  unfold request; rw [hf]

theorem userMe_ok {w : World υ} {u : User} (hf : w.db.faults = [])
    (hu : w.db.currentUser = some u) : User.me w = (some u, w) := by
  unfold User.me
  rw [Act.bind_of_some (request_ok hf)]
  unfold signedIn; rw [hu]

theorem userStatsFilter_ok {w : World υ} (q : UserStats → Bool) (hf : w.db.faults = []) :
    UserStats.filter q w = (some (w.db.userStats.filter q), w) := by
  unfold UserStats.filter
  rw [Act.bind_of_some (request_ok hf)]; rfl

theorem userStatsCreate_ok {w : World υ} {u : User} (d : UserStatsData) (hf : w.db.faults = [])
    (hu : w.db.currentUser = some u) :
    UserStats.create d w =
      (some { d with id := toString w.db.nextId, created_by := u.email },
       { w with db := { w.db with nextId := w.db.nextId + 1, userStats :=
          w.db.userStats ++ [{ d with id := toString w.db.nextId, created_by := u.email }] } }) := by
  unfold UserStats.create
  rw [Act.bind_of_some (request_ok hf)]
  have : (signedIn : Act (World υ) User) w = (some u, w) := by unfold signedIn; rw [hu]
  rw [Act.bind_of_some this]; rfl

theorem userStatsUpdate_ok {w : World υ} (id : String) (p : UserStatsData → UserStatsData)
    (hf : w.db.faults = []) (hex : w.db.userStats.any (fun r => r.id == id) = true) :
    UserStats.update id p w =
      (some (), { w with db := { w.db with userStats := w.db.userStats.map (fun r =>
          if r.id == id then { r with toUserStatsData := p r.toUserStatsData } else r) } }) := by
  unfold UserStats.update
  rw [Act.bind_of_some (request_ok hf)]
  show (Act.get >>= _) w = _
  rw [Act.bind_of_some (show Act.get w = (some w, w) from rfl)]
  simp only [hex, if_true]; rfl

theorem videoCreate_ok {w : World υ} {u : User} (d : VideoData) (hf : w.db.faults = [])
    (hu : w.db.currentUser = some u) :
    Video.create d w =
      (some { d with id := toString w.db.nextId, created_by := u.email },
       { w with db := { w.db with nextId := w.db.nextId + 1, videos :=
          w.db.videos ++ [{ d with id := toString w.db.nextId, created_by := u.email }] } }) := by
  unfold Video.create
  rw [Act.bind_of_some (request_ok hf)]
  have : (signedIn : Act (World υ) User) w = (some u, w) := by unfold signedIn; rw [hu]
  rw [Act.bind_of_some this]; rfl

theorem UploadFile_ok {w : World υ} (f : File) (hf : w.db.faults = []) :
    UploadFile f w = (some f.url, w) := by
  unfold UploadFile
  rw [Act.bind_of_some (request_ok hf)]; rfl

theorem achievementFilter_ok {w : World υ} (q : Achievement → Bool) (hf : w.db.faults = []) :
    Achievement.filter q w = (some (w.db.achievements.filter q), w) := by
  unfold Achievement.filter
  rw [Act.bind_of_some (request_ok hf)]; rfl

theorem achievementCreate_ok {w : World υ} {u : User} (d : AchievementData) (hf : w.db.faults = [])
    (hu : w.db.currentUser = some u) :
    Achievement.create d w =
      (some { d with id := toString w.db.nextId, created_by := u.email },
       { w with db := { w.db with nextId := w.db.nextId + 1, achievements :=
          w.db.achievements ++ [{ d with id := toString w.db.nextId, created_by := u.email }] } }) := by
  unfold Achievement.create
  rw [Act.bind_of_some (request_ok hf)]
  have : (signedIn : Act (World υ) User) w = (some u, w) := by unfold signedIn; rw [hu]
  rw [Act.bind_of_some this]; rfl

end ApiLemmas


section UploadLemmas

variable {υ : Type}

theorem checkIfWillGoViral_fresh {w : World υ} {u : User} (hf : w.db.faults = [])
    (hu : w.db.currentUser = some u) (hs : statsOf w u.email = []) :
    checkIfWillGoViral w =
      (some false, { w with db := { w.db with nextId := w.db.nextId + 1, userStats :=
          w.db.userStats ++ [{ initialStats with id := toString w.db.nextId, created_by := u.email }] } }) := by
  unfold checkIfWillGoViral Act.tryCatch
  rw [Act.bind_of_some (userMe_ok hf hu), Act.bind_of_some (userStatsFilter_ok _ hf)]
  unfold statsOf at hs
  rw [hs]
  simp only []
  rw [Act.bind_of_some (userStatsCreate_ok initialStats hf hu)]

theorem checkIfWillGoViral_counted {w : World υ} {u : User} {st : UserStats} {rest : List UserStats}
    (hf : w.db.faults = []) (hu : w.db.currentUser = some u) (hs : statsOf w u.email = st :: rest) :
    checkIfWillGoViral w = (some (decide (Int.tmod (jsOr st.videos_posted 0 + 1) 10 = 0)), w) := by
  unfold checkIfWillGoViral Act.tryCatch
  rw [Act.bind_of_some (userMe_ok hf hu), Act.bind_of_some (userStatsFilter_ok _ hf)]
  unfold statsOf at hs
  rw [hs]

/-- What one turn of the loop does to the store when no call fails. -/
theorem checkAchievement_ok {w : World υ} {u : User} (p : Int) (v : Bool) (t : String)
    (r : AchievementRule) (hf : w.db.faults = []) (hu : w.db.currentUser = some u) :
    checkAchievement p v t r w =
      (some (),
        if qualifies p v r = true ∧
            w.db.achievements.filter (fun a => a.name == r.name && a.created_by == u.email) = [] then
          { w with db := { w.db with nextId := w.db.nextId + 1, achievements :=
              w.db.achievements ++
                [{ unlockedRecord r t with id := toString w.db.nextId, created_by := u.email }] } }
        else w) := by
  unfold checkAchievement
  by_cases hq : qualifies p v r = true
  · by_cases he : w.db.achievements.filter (fun a => a.name == r.name && a.created_by == u.email) = []
    · rw [if_pos (And.intro hq he), if_pos hq, Act.bind_of_some (userMe_ok hf hu),
        Act.bind_of_some (achievementFilter_ok _ hf), he]
      simp only [List.length_nil, if_true]
      rw [Act.bind_of_some (achievementCreate_ok _ hf hu)]
      rfl
    · rw [if_neg (show ¬(qualifies p v r = true ∧ _ = []) from fun h => he h.2), if_pos hq,
        Act.bind_of_some (userMe_ok hf hu), Act.bind_of_some (achievementFilter_ok _ hf),
        if_neg (show ¬(List.length _ = 0) from fun h => he (List.length_eq_zero.mp h))]
      rfl
  · rw [if_neg hq, if_neg (show ¬(qualifies p v r = true ∧ _ = []) from fun h => hq h.1)]
    rfl

end UploadLemmas


section FaultyApi

variable {υ : Type}

theorem setFaults_setFaults (fs gs : List Bool) (w : World υ) :
    setFaults fs (setFaults gs w) = setFaults fs w := rfl

theorem setFaults_self (w : World υ) : setFaults w.db.faults w = w := rfl

theorem request_spec (w : World υ) : ∃ fs, (request w).2 = setFaults fs w := by
  unfold request
  rcases h : w.db.faults with _ | ⟨b, rest⟩
  · exact ⟨w.db.faults, rfl⟩
  · cases b <;> exact ⟨rest, rfl⟩

theorem userMe_spec (w : World υ) :
    ∃ fs, (User.me w).2 = setFaults fs w ∧
      ∀ u, (User.me w).1 = some u → w.db.currentUser = some u := by
  obtain ⟨fs, hfs⟩ := request_spec w
  refine ⟨fs, ?_⟩
  unfold User.me
  rw [Act.bind_eq]
  rcases h : request w with ⟨_ | a, w1⟩
  · rw [h] at hfs; simp at hfs ⊢; exact hfs
  · rw [h] at hfs
    simp only at hfs ⊢
    subst hfs
    unfold signedIn
    show _ ∧ _
    rcases hc : w.db.currentUser with _ | u
    · have : (setFaults fs w).db.currentUser = none := hc
      rw [this]; simp
    · have : (setFaults fs w).db.currentUser = some u := hc
      rw [this]; simp

theorem achievementFilter_spec (q : Achievement → Bool) (w : World υ) :
    ∃ fs, (Achievement.filter q w).2 = setFaults fs w ∧
      ∀ l, (Achievement.filter q w).1 = some l → l = w.db.achievements.filter q := by
  obtain ⟨fs, hfs⟩ := request_spec w
  refine ⟨fs, ?_⟩
  unfold Achievement.filter
  rw [Act.bind_eq]
  rcases h : request w with ⟨_ | a, w1⟩
  · rw [h] at hfs; simp at hfs ⊢; exact hfs
  · rw [h] at hfs
    simp only at hfs ⊢
    subst hfs
    constructor
    · rfl
    · intro l hl
      exact (Option.some.inj hl).symm

theorem achievementCreate_spec (d : AchievementData) (w : World υ) :
    ∃ fs, ((Achievement.create d w).1 = none ∧ (Achievement.create d w).2 = setFaults fs w) ∨
      ∃ u, w.db.currentUser = some u ∧
        (Achievement.create d w).2 =
          setFaults fs (addAchievement { d with id := toString w.db.nextId, created_by := u.email } w) := by
  obtain ⟨fs, hfs⟩ := request_spec w
  refine ⟨fs, ?_⟩
  unfold Achievement.create
  rw [Act.bind_eq]
  rcases h : request w with ⟨_ | a, w1⟩
  · rw [h] at hfs; simp at hfs ⊢; exact Or.inl hfs
  · rw [h] at hfs
    simp only at hfs ⊢
    subst hfs
    rcases hc : w.db.currentUser with _ | u
    · left
      have : (signedIn : Act (World υ) User) (setFaults fs w) = (none, setFaults fs w) := by
        unfold signedIn
        have : (setFaults fs w).db.currentUser = none := hc
        rw [this]
      rw [Act.bind_of_none this]
      exact ⟨rfl, rfl⟩
    · right
      have : (signedIn : Act (World υ) User) (setFaults fs w) = (some u, setFaults fs w) := by
        unfold signedIn
        have : (setFaults fs w).db.currentUser = some u := hc
        rw [this]
      rw [Act.bind_of_some this]
      exact ⟨u, rfl, rfl⟩

end FaultyApi


section UnlockLemmas

variable {υ : Type}

/-- One turn of the loop under any fault schedule: either nothing is stored,
and a completed turn of a rule that qualifies found a record; or the record
of the rule is stored, and the user had none of that name. -/
theorem checkAchievement_spec (p : Int) (v : Bool) (t : String) (r : AchievementRule)
    (w : World υ) :
    ∃ fs,
      ((checkAchievement p v t r w).2 = setFaults fs w ∧
        ((checkAchievement p v t r w).1 = some () → qualifies p v r = true →
          ∃ u, w.db.currentUser = some u ∧ unlockedBy w r.name u.email ≠ [])) ∨
      (∃ u, w.db.currentUser = some u ∧ qualifies p v r = true ∧
        unlockedBy w r.name u.email = [] ∧
        (checkAchievement p v t r w).2 = setFaults fs (addAchievement (unlockedFor w u r t) w)) := by
  unfold checkAchievement
  by_cases hq : qualifies p v r = true
  swap
  · rw [if_neg hq]
    exact ⟨w.db.faults, Or.inl ⟨rfl, fun _ h => absurd h hq⟩⟩
  rw [if_pos hq, Act.bind_eq]
  obtain ⟨fs1, h1, hu1⟩ := userMe_spec w
  rcases hme : User.me w with ⟨_ | me, w1⟩
  · rw [hme] at h1
    exact ⟨fs1, Or.inl ⟨h1, fun h => by simp at h⟩⟩
  rw [hme] at h1 hu1
  simp only at h1 hu1 ⊢
  have hcu : w.db.currentUser = some me := hu1 me rfl
  subst h1
  rw [Act.bind_eq]
  obtain ⟨fs2, h2, hl2⟩ := achievementFilter_spec
    (fun a => a.name == r.name && a.created_by == me.email) (setFaults fs1 w)
  rcases hfl : Achievement.filter (fun a => a.name == r.name && a.created_by == me.email)
      (setFaults fs1 w) with ⟨_ | existing, w2⟩
  · rw [hfl] at h2
    exact ⟨fs2, Or.inl ⟨h2, fun h => by simp at h⟩⟩
  rw [hfl] at h2 hl2
  simp only at h2 hl2 ⊢
  have hex : existing = unlockedBy w r.name me.email := hl2 existing rfl
  subst h2
  by_cases hlen : existing.length = 0
  · rw [if_pos hlen, Act.bind_eq]
    have hnil : unlockedBy w r.name me.email = [] := by
      rw [← hex]; exact List.length_eq_zero.mp hlen
    obtain ⟨fs3, h3⟩ := achievementCreate_spec (unlockedRecord r t) (setFaults fs2 (setFaults fs1 w))
    rcases h3 with ⟨hn, hs⟩ | ⟨u, hu, hs⟩
    · refine ⟨fs3, Or.inl ⟨?_, ?_⟩⟩
      · rcases hc : Achievement.create (unlockedRecord r t) (setFaults fs2 (setFaults fs1 w))
          with ⟨_ | a, w3⟩
        · rw [hc] at hs; exact hs
        · rw [hc] at hn; simp at hn
      · rcases hc : Achievement.create (unlockedRecord r t) (setFaults fs2 (setFaults fs1 w))
          with ⟨_ | a, w3⟩
        · intro h; simp at h
        · rw [hc] at hn; simp at hn
    · have hume : u = me := by
        have : w.db.currentUser = some u := hu
        rw [hcu] at this
        exact (Option.some.inj this).symm
      subst hume
      refine ⟨fs3, Or.inr ⟨u, hcu, hq, hnil, ?_⟩⟩
      rcases hc : Achievement.create (unlockedRecord r t) (setFaults fs2 (setFaults fs1 w))
        with ⟨_ | a, w3⟩
      · rw [hc] at hs; exact hs
      · rw [hc] at hs; exact hs
  · rw [if_neg hlen]
    refine ⟨fs2, Or.inl ⟨rfl, fun _ _ => ⟨me, hcu, ?_⟩⟩⟩
    rw [← hex]
    exact fun h => hlen (by rw [h]; rfl)

end UnlockLemmas


section LoopLemmas

variable {υ : Type}

theorem checkAchievements_cons (p : Int) (v : Bool) (t : String) (r : AchievementRule)
    (rest : List AchievementRule) (w : World υ) :
    checkAchievements p v t (r :: rest) w =
      match checkAchievement p v t r w with
      | (some _, w1) => checkAchievements p v t rest w1
      | (none, w1) => (none, w1) := by
  show (checkAchievement p v t r >>= fun _ => checkAchievements p v t rest) w = _
  rw [Act.bind_eq]
  rcases checkAchievement p v t r w with ⟨_ | a, w1⟩ <;> rfl

theorem unlockedBy_append_eq_nil {w w1 : World υ} {extra : List Achievement} {n e : String}
    (h : w1.db.achievements = w.db.achievements ++ extra) (h1 : unlockedBy w1 n e = []) :
    unlockedBy w n e = [] ∧ ∀ a ∈ extra, ¬(a.name = n ∧ a.created_by = e) := by
  unfold unlockedBy at h1 ⊢
  rw [h, List.filter_append, List.append_eq_nil] at h1
  refine ⟨h1.1, fun a ha hc => ?_⟩
  have := List.filter_eq_nil_iff.mp h1.2 a ha
  simp [hc.1, hc.2] at this

/-- The loop only appends records, each of a rule of the list, for the
signed-in user, of a name the user had no record of, and no two of the same
name. -/
theorem checkAchievements_spec (p : Int) (v : Bool) (t : String) (rules : List AchievementRule) :
    ∀ w : World υ,
      (checkAchievements p v t rules w).2.db.currentUser = w.db.currentUser ∧
      ∃ created, (checkAchievements p v t rules w).2.db.achievements
          = w.db.achievements ++ created ∧
        (∀ a ∈ created, a.name ∈ rules.map (fun r => r.name) ∧
          ∃ u, w.db.currentUser = some u ∧ a.created_by = u.email ∧
            unlockedBy w a.name u.email = []) ∧
        (created.map (fun a => a.name)).Nodup := by
  induction rules with
  | nil =>
    intro w
    exact ⟨rfl, [], by simp [checkAchievements, Act.pure_eq], by simp, by simp⟩
  | cons r rest ih =>
    intro w
    rw [checkAchievements_cons]
    obtain ⟨fs, hA | ⟨u, hu, hq, hnil, hB⟩⟩ := checkAchievement_spec p v t r w
    · obtain ⟨h2, _⟩ := hA
      rcases hc : checkAchievement p v t r w with ⟨_ | a, w1⟩
      · rw [hc] at h2
        simp only at h2 ⊢
        subst h2
        exact ⟨rfl, [], by simp [setFaults], by simp, by simp⟩
      · rw [hc] at h2
        simp only at h2 ⊢
        subst h2
        obtain ⟨hcu, created, hcr, hall, hnd⟩ := ih (setFaults fs w)
        refine ⟨hcu, created, hcr, fun a ha => ?_, hnd⟩
        obtain ⟨hn, hrest⟩ := hall a ha
        exact ⟨by simp only [List.map_cons, List.mem_cons]; exact Or.inr hn, hrest⟩
    · rcases hc : checkAchievement p v t r w with ⟨_ | a, w1⟩
      · rw [hc] at hB
        simp only at hB ⊢
        subst hB
        refine ⟨rfl, [unlockedFor w u r t], rfl, fun a ha => ?_, by simp⟩
        rw [List.mem_singleton] at ha
        subst ha
        exact ⟨by simp [unlockedFor, unlockedRecord], u, hu, rfl, hnil⟩
      · rw [hc] at hB
        simp only at hB ⊢
        subst hB
        obtain ⟨hcu, created, hcr, hall, hnd⟩ :=
          ih (setFaults fs (addAchievement (unlockedFor w u r t) w))
        have hach : (setFaults fs (addAchievement (unlockedFor w u r t) w)).db.achievements
            = w.db.achievements ++ [unlockedFor w u r t] := rfl
        refine ⟨hcu, unlockedFor w u r t :: created, ?_, fun a ha => ?_, ?_⟩
        · rw [hcr, hach, List.append_assoc]; rfl
        · rw [List.mem_cons] at ha
          rcases ha with ha | ha
          · subst ha
            exact ⟨by simp [unlockedFor, unlockedRecord], u, hu, rfl, hnil⟩
          · obtain ⟨hn, u2, hu2, hby, hnone⟩ := hall a ha
            have hu2' : w.db.currentUser = some u2 := hu2
            refine ⟨by simp only [List.map_cons, List.mem_cons]; exact Or.inr hn, u2, hu2', hby, ?_⟩
            exact (unlockedBy_append_eq_nil hach hnone).1
        · rw [List.map_cons, List.nodup_cons]
          refine ⟨fun hmem => ?_, hnd⟩
          obtain ⟨a, ha, hname⟩ := List.mem_map.mp hmem
          obtain ⟨_, u2, hu2, hby, hnone⟩ := hall a ha
          have hu2' : w.db.currentUser = some u2 := hu2
          rw [hu] at hu2'
          have hu' : u = u2 := Option.some.inj hu2'
          subst hu'
          have := (unlockedBy_append_eq_nil hach hnone).2 (unlockedFor w u r t) (by simp)
          exact this ⟨hname.symm, rfl⟩

end LoopLemmas


section IdempotenceLemmas

variable {υ : Type}

theorem unlockedBy_append_ne_nil {w w1 : World υ} {extra : List Achievement} {n e : String}
    (h : w1.db.achievements = w.db.achievements ++ extra) (h1 : unlockedBy w n e ≠ []) :
    unlockedBy w1 n e ≠ [] := by
  unfold unlockedBy at h1 ⊢
  rw [h, List.filter_append]
  intro hnil
  exact h1 (List.append_eq_nil.mp hnil).1

/-- After a loop that ran to its end, every rule that qualifies has a record
for the signed-in user. -/
theorem checkAchievements_done (p : Int) (v : Bool) (t : String) (rules : List AchievementRule) :
    ∀ w : World υ, (checkAchievements p v t rules w).1 = some () →
      ∀ r ∈ rules, qualifies p v r = true →
        ∃ u, w.db.currentUser = some u ∧
          unlockedBy (checkAchievements p v t rules w).2 r.name u.email ≠ [] := by
  induction rules with
  | nil => intro w _ r hr; simp at hr
  | cons r0 rest ih =>
    intro w hdone r hr hq
    rw [checkAchievements_cons] at hdone ⊢
    obtain ⟨hcu1, created1, hcr1, _, _⟩ := checkAchievements_spec p v t [r0] w
    rw [checkAchievements_cons] at hcu1 hcr1
    obtain ⟨fs, hA | ⟨u, hu, hq0, hnil, hB⟩⟩ := checkAchievement_spec p v t r0 w
    · obtain ⟨h2, hfound⟩ := hA
      rcases hc : checkAchievement p v t r0 w with ⟨_ | a, w1⟩
      · rw [hc] at hdone; simp at hdone
      · rw [hc] at hdone h2 hfound
        simp only at hdone h2 hfound ⊢
        subst h2
        obtain ⟨_, created, hcr, _, _⟩ := checkAchievements_spec p v t rest (setFaults fs w)
        rw [List.mem_cons] at hr
        rcases hr with hr | hr
        · subst hr
          obtain ⟨u, hu, hne⟩ := hfound trivial hq
          exact ⟨u, hu, unlockedBy_append_ne_nil (w := setFaults fs w) hcr hne⟩
        · exact ih (setFaults fs w) hdone r hr hq
    · rcases hc : checkAchievement p v t r0 w with ⟨_ | a, w1⟩
      · rw [hc] at hdone; simp at hdone
      · rw [hc] at hdone hB
        simp only at hdone hB ⊢
        subst hB
        obtain ⟨_, created, hcr, _, _⟩ :=
          checkAchievements_spec p v t rest (setFaults fs (addAchievement (unlockedFor w u r0 t) w))
        rw [List.mem_cons] at hr
        rcases hr with hr | hr
        · subst hr
          refine ⟨u, hu, unlockedBy_append_ne_nil
            (w := setFaults fs (addAchievement (unlockedFor w u r t) w)) hcr ?_⟩
          have hmem : unlockedFor w u r t ∈
              unlockedBy (setFaults fs (addAchievement (unlockedFor w u r t) w)) r.name u.email := by
            unfold unlockedBy
            rw [List.mem_filter]
            refine ⟨?_, by simp [unlockedFor, unlockedRecord]⟩
            show unlockedFor w u r t ∈ w.db.achievements ++ [unlockedFor w u r t]
            simp
          exact List.ne_nil_of_mem hmem
        · exact ih _ hdone r hr hq

/-- A loop all of whose qualifying rules already have a record stores
nothing. -/
theorem checkAchievements_idle (p : Int) (v : Bool) (t : String) (rules : List AchievementRule) :
    ∀ w : World υ,
      (∀ r ∈ rules, qualifies p v r = true →
        ∃ u, w.db.currentUser = some u ∧ unlockedBy w r.name u.email ≠ []) →
      (checkAchievements p v t rules w).2.db.achievements = w.db.achievements := by
  induction rules with
  | nil => intro w _; rfl
  | cons r0 rest ih =>
    intro w hall
    rw [checkAchievements_cons]
    obtain ⟨fs, hA | ⟨u, hu, hq0, hnil, hB⟩⟩ := checkAchievement_spec p v t r0 w
    · obtain ⟨h2, _⟩ := hA
      rcases hc : checkAchievement p v t r0 w with ⟨_ | a, w1⟩
      · rw [hc] at h2
        simp only at h2 ⊢
        subst h2; rfl
      · rw [hc] at h2
        simp only at h2 ⊢
        subst h2
        exact ih (setFaults fs w) (fun r hr hq => hall r (List.mem_cons_of_mem _ hr) hq)
    · exfalso
      obtain ⟨u2, hu2, hne⟩ := hall r0 (List.mem_cons_self _ _) hq0
      rw [hu] at hu2
      have hu' : u = u2 := Option.some.inj hu2
      subst hu'
      exact hne hnil

end IdempotenceLemmas

/-- C8: `checkAndUnlockAchievements` only appends records, each for the
signed-in user and of a name of which that user had no record, no two of the
same name; so a store with at most one record per name for a user keeps at
most one; and after a call that ran to its end a second call with the same
arguments stores nothing. -/
theorem checkAndUnlockAchievements_no_duplicates {υ : Type} (w : World υ) (postNumber : Int)
    (isViral : Bool) (today : String) :
    (∃ created,
      (checkAndUnlockAchievements postNumber isViral today w).2.db.achievements
        = w.db.achievements ++ created ∧
      (∀ a ∈ created, ∃ u, w.db.currentUser = some u ∧ a.created_by = u.email ∧
        ∀ b ∈ w.db.achievements, ¬(b.name = a.name ∧ b.created_by = u.email)) ∧
      (created.map (fun a => a.name)).Nodup) ∧
    (∀ email,
      ((w.db.achievements.filter (fun a => a.created_by == email)).map (fun a => a.name)).Nodup →
      (((checkAndUnlockAchievements postNumber isViral today w).2.db.achievements.filter
        (fun a => a.created_by == email)).map (fun a => a.name)).Nodup) ∧
    ((checkAndUnlockAchievements postNumber isViral today w).1 = some () →
      (checkAndUnlockAchievements postNumber isViral today
        (checkAndUnlockAchievements postNumber isViral today w).2).2.db.achievements
      = (checkAndUnlockAchievements postNumber isViral today w).2.db.achievements) := by
  unfold checkAndUnlockAchievements
  obtain ⟨hcu, created, hcr, hall, hnd⟩ :=
    checkAchievements_spec postNumber isViral today achievementsToCheck w
  have hold : ∀ a ∈ created, ∃ u, w.db.currentUser = some u ∧ a.created_by = u.email ∧
      ∀ b ∈ w.db.achievements, ¬(b.name = a.name ∧ b.created_by = u.email) := by
    intro a ha
    obtain ⟨_, u, hu, hby, hnone⟩ := hall a ha
    refine ⟨u, hu, hby, fun b hb hc => ?_⟩
    have := List.filter_eq_nil_iff.mp hnone b hb
    simp [hc.1, hc.2] at this
  refine ⟨⟨created, hcr, hold, hnd⟩, ?_, ?_⟩
  · intro email hmine
    rw [hcr, List.filter_append, List.map_append, List.nodup_append]
    refine ⟨hmine, (hnd.sublist ((List.filter_sublist _).map _)), ?_⟩
    intro n hn1 hn2
    obtain ⟨b, hb, hbn⟩ := List.mem_map.mp hn1
    obtain ⟨a, ha, han⟩ := List.mem_map.mp hn2
    rw [List.mem_filter] at hb ha
    obtain ⟨u, _, hby, hno⟩ := hold a ha.1
    have hbe : b.created_by = email := by simpa using hb.2
    have hae : a.created_by = email := by simpa using ha.2
    exact hno b hb.1 ⟨by rw [hbn, han], by rw [hbe, ← hby, hae]⟩
  · intro hdone
    apply checkAchievements_idle
    intro r hr hq
    obtain ⟨u, hu, hne⟩ := checkAchievements_done postNumber isViral today achievementsToCheck w hdone r hr hq
    exact ⟨u, by rw [hcu]; exact hu, hne⟩


section Respects

variable {σ α β : Type} {R : σ → σ → Prop}

theorem Act.respects_pure (hr : ∀ s, R s s) (a : α) : Act.Respects R (pure a : Act σ α) :=
  fun s => hr s

theorem Act.respects_throw (hr : ∀ s, R s s) : Act.Respects R (Act.throw : Act σ α) :=
  fun s => hr s

theorem Act.respects_get (hr : ∀ s, R s s) : Act.Respects R (Act.get : Act σ σ) :=
  fun s => hr s

theorem Act.respects_modify {f : σ → σ} (h : ∀ s, R s (f s)) : Act.Respects R (Act.modify f) :=
  fun s => h s

theorem Act.respects_bind (ht : ∀ a b c, R a b → R b c → R a c) {m : Act σ α}
    {f : α → Act σ β} (hm : Act.Respects R m) (hf : ∀ a, Act.Respects R (f a)) :
    Act.Respects R (m >>= f) := by
  intro s
  rw [Act.bind_eq]
  have h1 := hm s
  rcases h : m s with ⟨_ | a, t⟩
  · rw [h] at h1; exact h1
  · rw [h] at h1; exact ht _ _ _ h1 (hf a t)

theorem Act.respects_tryCatch (ht : ∀ a b c, R a b → R b c → R a c) {m h : Act σ α}
    (hm : Act.Respects R m) (hh : Act.Respects R h) : Act.Respects R (Act.tryCatch m h) := by
  intro s
  unfold Act.tryCatch
  have h1 := hm s
  rcases hms : m s with ⟨_ | a, t⟩
  · rw [hms] at h1; exact ht _ _ _ h1 (hh t)
  · rw [hms] at h1; exact h1

end Respects

section VideoFrame

variable {υ : Type} {P : Video → Prop}

theorem addsVideos_refl (w : World υ) : AddsVideos P w w :=
  ⟨[], by simp, by simp⟩

theorem addsVideos_trans (a b c : World υ) (h1 : AddsVideos P a b) (h2 : AddsVideos P b c) :
    AddsVideos P a c := by
  obtain ⟨c1, e1, p1⟩ := h1
  obtain ⟨c2, e2, p2⟩ := h2
  refine ⟨c1 ++ c2, by rw [e2, e1, List.append_assoc], fun v hv => ?_⟩
  rcases List.mem_append.mp hv with h | h
  · exact p1 v h
  · exact p2 v h

theorem addsVideos_of_eq {w w1 : World υ} (h : w1.db.videos = w.db.videos) : AddsVideos P w w1 :=
  ⟨[], by simp [h], by simp⟩

theorem respects_request : Act.Respects (AddsVideos P) (request : Act (World υ) Unit) := by
  intro w
  obtain ⟨fs, h⟩ := request_spec w
  rw [h]
  exact addsVideos_of_eq rfl

theorem respects_signedIn : Act.Respects (AddsVideos P) (signedIn : Act (World υ) User) := by
  intro w
  unfold signedIn
  rcases w.db.currentUser with _ | u <;> exact addsVideos_refl w

theorem respects_freshId : Act.Respects (AddsVideos P) (freshId : Act (World υ) String) :=
  fun _ => addsVideos_of_eq rfl

theorem respects_me : Act.Respects (AddsVideos P) (User.me : Act (World υ) User) :=
  Act.respects_bind addsVideos_trans respects_request (fun _ => respects_signedIn)

theorem respects_statsFilter (q : UserStats → Bool) :
    Act.Respects (AddsVideos P) (UserStats.filter q : Act (World υ) _) :=
  Act.respects_bind addsVideos_trans respects_request (fun _ =>
    Act.respects_bind addsVideos_trans (Act.respects_get addsVideos_refl) (fun _ =>
      Act.respects_pure addsVideos_refl _))

theorem respects_statsCreate (d : UserStatsData) :
    Act.Respects (AddsVideos P) (UserStats.create d : Act (World υ) _) :=
  Act.respects_bind addsVideos_trans respects_request (fun _ =>
    Act.respects_bind addsVideos_trans respects_signedIn (fun _ =>
      Act.respects_bind addsVideos_trans respects_freshId (fun _ =>
        Act.respects_bind addsVideos_trans
          (Act.respects_modify (fun _ => addsVideos_of_eq rfl)) (fun _ =>
            Act.respects_pure addsVideos_refl _))))

theorem respects_statsUpdate (id : String) (p : UserStatsData → UserStatsData) :
    Act.Respects (AddsVideos P) (UserStats.update id p : Act (World υ) _) := by
  unfold UserStats.update
  refine Act.respects_bind addsVideos_trans respects_request (fun _ =>
    Act.respects_bind addsVideos_trans (Act.respects_get addsVideos_refl) (fun w => ?_))
  split
  · exact Act.respects_modify (fun _ => addsVideos_of_eq rfl)
  · exact Act.respects_throw addsVideos_refl

theorem respects_uploadFile (f : File) :
    Act.Respects (AddsVideos P) (UploadFile f : Act (World υ) _) :=
  Act.respects_bind addsVideos_trans respects_request (fun _ =>
    Act.respects_pure addsVideos_refl _)

theorem respects_videoCreate (d : VideoData) (hd : ∀ i e, P { d with id := i, created_by := e }) :
    Act.Respects (AddsVideos P) (Video.create d : Act (World υ) _) :=
  Act.respects_bind addsVideos_trans respects_request (fun _ =>
    Act.respects_bind addsVideos_trans respects_signedIn (fun u =>
      Act.respects_bind addsVideos_trans respects_freshId (fun i =>
        Act.respects_bind addsVideos_trans
          (Act.respects_modify (fun w =>
            ⟨[{ d with id := i, created_by := u.email }], rfl, by simpa using hd i u.email⟩))
          (fun _ => Act.respects_pure addsVideos_refl _))))

theorem respects_checkIfWillGoViral :
    Act.Respects (AddsVideos P) (checkIfWillGoViral : Act (World υ) Bool) := by
  unfold checkIfWillGoViral
  refine Act.respects_tryCatch addsVideos_trans ?_ (Act.respects_pure addsVideos_refl _)
  refine Act.respects_bind addsVideos_trans respects_me (fun user =>
    Act.respects_bind addsVideos_trans (respects_statsFilter _) (fun l => ?_))
  split
  · exact Act.respects_bind addsVideos_trans (respects_statsCreate _) (fun _ =>
      Act.respects_pure addsVideos_refl _)
  · exact Act.respects_pure addsVideos_refl _

theorem respects_checkAchievements (p : Int) (v : Bool) (t : String)
    (rules : List AchievementRule) :
    Act.Respects (AddsVideos P) (checkAchievements p v t rules : Act (World υ) Unit) := by
  intro w
  induction rules generalizing w with
  | nil => exact addsVideos_refl w
  | cons r rest ih =>
    rw [checkAchievements_cons]
    obtain ⟨fs, hA | ⟨u, _, _, _, hB⟩⟩ := checkAchievement_spec p v t r w
    · rcases hc : checkAchievement p v t r w with ⟨_ | a, w1⟩
      · rw [hc] at hA; simp only at hA ⊢; rw [hA.1]; exact addsVideos_of_eq rfl
      · rw [hc] at hA; simp only at hA ⊢
        exact addsVideos_trans _ _ _ (by rw [hA.1]; exact addsVideos_of_eq rfl) (ih w1)
    · rcases hc : checkAchievement p v t r w with ⟨_ | a, w1⟩
      · rw [hc] at hB; simp only at hB ⊢; rw [hB]; exact addsVideos_of_eq rfl
      · rw [hc] at hB; simp only at hB ⊢
        exact addsVideos_trans _ _ _ (by rw [hB]; exact addsVideos_of_eq rfl) (ih w1)

theorem respects_setUpload (f : UploadUi → UploadUi) :
    Act.Respects (AddsVideos P) (setUpload f) :=
  Act.respects_modify (fun _ => addsVideos_of_eq rfl)

/-- Whatever calls fail, `handleUpload` only appends videos built by
`videoDataOf` from the draws it was given. -/
theorem respects_handleUpload (rViews rLikes : ℚ) (today : String)
    (hP : ∀ ui url viral pn i e,
      P { videoDataOf ui url viral pn rViews rLikes with id := i, created_by := e }) :
    Act.Respects (AddsVideos P) (handleUpload rViews rLikes today) := by
  unfold handleUpload
  refine Act.respects_bind addsVideos_trans (Act.respects_get addsVideos_refl) (fun w => ?_)
  split
  · exact Act.respects_pure addsVideos_refl _
  split
  · exact Act.respects_pure addsVideos_refl _
  refine Act.respects_bind addsVideos_trans (respects_setUpload _) (fun _ =>
    Act.respects_bind addsVideos_trans (respects_setUpload _) (fun _ =>
      Act.respects_tryCatch addsVideos_trans ?_ ?_))
  · refine Act.respects_bind addsVideos_trans respects_me (fun user =>
      Act.respects_bind addsVideos_trans respects_checkIfWillGoViral (fun viral =>
      Act.respects_bind addsVideos_trans (respects_setUpload _) (fun _ =>
      Act.respects_bind addsVideos_trans (respects_setUpload _) (fun _ =>
      Act.respects_bind addsVideos_trans (respects_uploadFile _) (fun url =>
      Act.respects_bind addsVideos_trans (respects_setUpload _) (fun _ =>
      Act.respects_bind addsVideos_trans (respects_statsFilter _) (fun l =>
      Act.respects_bind addsVideos_trans ?_ (fun stats =>
      Act.respects_bind addsVideos_trans (respects_videoCreate _ (hP _ _ _ _)) (fun _ =>
      Act.respects_bind addsVideos_trans (respects_setUpload _) (fun _ =>
      Act.respects_bind addsVideos_trans (respects_statsUpdate _ _) (fun _ =>
      Act.respects_bind addsVideos_trans (respects_checkAchievements _ _ _ _) (fun _ =>
      Act.respects_bind addsVideos_trans (respects_setUpload _) (fun _ =>
        respects_setUpload _)))))))))))))
    split
    · exact Act.respects_pure addsVideos_refl _
    · exact respects_statsCreate _
  · exact Act.respects_bind addsVideos_trans (respects_setUpload _) (fun _ =>
      respects_setUpload _)

end VideoFrame

section Rounding

theorem roundHalfEven_le (x : ℚ) : (roundHalfEven x : ℚ) ≤ x + 1 / 2 := by
  have h1 := Int.floor_le x
  have h2 := Int.lt_floor_add_one x
  unfold roundHalfEven
  simp only
  split_ifs with a b c
  · linarith
  · push_cast; linarith
  · linarith
  · push_cast; linarith

theorem roundHalfEven_nonneg {x : ℚ} (hx : 0 ≤ x) : 0 ≤ roundHalfEven x := by
  have h0 : 0 ≤ Int.floor x := Int.floor_nonneg.mpr hx
  unfold roundHalfEven
  simp only
  split_ifs <;> omega

theorem ulpExp_le {x : ℚ} {k : ℤ} (hx : 0 < x) (hk : -1022 < k) (h : x < 2 ^ k) :
    ulpExp x ≤ k - 53 := by
  have hlog : Int.log 2 x < k := by
    have := (Int.lt_zpow_iff_log_lt (R := ℚ) (b := 2) (by norm_num) (x := k) hx).mp
      (by simpa using h)
    exact this
  unfold ulpExp
  have : max (Int.log 2 x) (-1022) ≤ k - 1 := max_le (by omega) (by omega)
  omega

theorem fl_nonneg {x : ℚ} (hx : 0 ≤ x) : 0 ≤ fl x := by
  unfold fl
  split_ifs with h0 hpos
  · exact le_refl 0
  · have hp : (0 : ℚ) < 2 ^ ulpExp x := zpow_pos (by norm_num) _
    have : 0 ≤ roundHalfEven (x / 2 ^ ulpExp x) := roundHalfEven_nonneg (div_nonneg hx hp.le)
    exact mul_nonneg (by exact_mod_cast this) hp.le
  · exact absurd (lt_of_le_of_ne hx (Ne.symm h0)) hpos

/-- Rounding moves a positive value up by at most half a unit in the last
place. -/
theorem fl_le {x : ℚ} (hx : 0 < x) : fl x ≤ x + 2 ^ ulpExp x / 2 := by
  unfold fl
  rw [if_neg hx.ne', if_pos hx]
  have hp : (0 : ℚ) < 2 ^ ulpExp x := zpow_pos (by norm_num) _
  have h := roundHalfEven_le (x / 2 ^ ulpExp x)
  calc (roundHalfEven (x / 2 ^ ulpExp x) : ℚ) * 2 ^ ulpExp x
      ≤ (x / 2 ^ ulpExp x + 1 / 2) * 2 ^ ulpExp x := mul_le_mul_of_nonneg_right h hp.le
    _ = x + 2 ^ ulpExp x / 2 := by field_simp; ring

/-- A binary64 value below 1 is at most the largest double below 1. -/
theorem binary64_lt_one {r : ℚ} (hb : isBinary64 r) (h1 : r < 1) :
    r ≤ 1 - 2 ^ (-53 : ℤ) := by
  have e53 : (2 : ℚ) ^ (-53 : ℤ) = 1 / 9007199254740992 := by norm_num
  rw [e53]
  by_cases hhalf : r < 1 / 2
  · linarith
  · have hpos : 0 < r := by linarith
    have hlo : (-1 : ℤ) ≤ Int.log 2 r :=
      (Int.zpow_le_iff_le_log (R := ℚ) (b := 2) (by norm_num) hpos).mp (by norm_num; linarith)
    have hhi : Int.log 2 r < 0 :=
      (Int.lt_zpow_iff_log_lt (R := ℚ) (b := 2) (by norm_num) hpos).mp (by simpa using h1)
    have hu : ulpExp r = -53 := by
      unfold ulpExp
      have : max (Int.log 2 r) (-1022) = -1 := by
        have : Int.log 2 r = -1 := by omega
        rw [this]; rfl
      omega
    unfold isBinary64 fl at hb
    rw [if_neg hpos.ne', if_pos hpos, hu] at hb
    set m : ℤ := roundHalfEven (r / 2 ^ (-53 : ℤ)) with hm
    have hmlt : (m : ℚ) < 9007199254740992 := by
      have : (m : ℚ) * 2 ^ (-53 : ℤ) < 1 := by rw [hb]; exact h1
      norm_num at this
      linarith
    have hmle : m ≤ 9007199254740991 := by
      have : m < 9007199254740992 := by exact_mod_cast hmlt
      omega
    have hmle' : (m : ℚ) ≤ 9007199254740991 := by exact_mod_cast hmle
    rw [← hb]
    norm_num
    linarith

theorem floor_fl_mul_lt {r : ℚ} (hb : isBinary64 r) (h0 : 0 ≤ r) (h1 : r < 1)
    (c : ℚ) (n : ℤ) (k : ℤ) (hc : 0 < c) (hcn : c = n) (hk : -1022 < k) (hck : c < 2 ^ k)
    (hround : c - c * 2 ^ (-53 : ℤ) + 2 ^ (k - 53) / 2 < c) :
    0 ≤ Int.floor (fl (r * c)) ∧ Int.floor (fl (r * c)) < n := by
  constructor
  · exact Int.floor_nonneg.mpr (fl_nonneg (mul_nonneg h0 hc.le))
  · rw [Int.floor_lt, ← hcn]
    rcases eq_or_lt_of_le h0 with hz | hpos
    · rw [← hz, zero_mul]
      have : fl 0 = 0 := by unfold fl; simp
      rw [this]; exact hc
    · have hx : 0 < r * c := mul_pos hpos hc
      have hxc : r * c < 2 ^ k := lt_of_le_of_lt (by nlinarith) hck
      have hu := ulpExp_le hx hk hxc
      have h2 : (2 : ℚ) ^ ulpExp (r * c) ≤ 2 ^ (k - 53) :=
        zpow_le_zpow_right₀ (by norm_num) hu
      have hr := binary64_lt_one hb h1
      have h3 := fl_le hx
      generalize (2 : ℚ) ^ (-53 : ℤ) = A at hr hround
      generalize (2 : ℚ) ^ (k - 53) = V at h2 hround
      generalize (2 : ℚ) ^ ulpExp (r * c) = U at h2 h3
      have h4 : r * c ≤ c - c * A := by nlinarith
      linarith

/-- The initial views of a video that is not viral lie in `[10, 59]`. -/
theorem randomViews_range {r : ℚ} (hb : isBinary64 r) (h0 : 0 ≤ r) (h1 : r < 1) :
    10 ≤ randomViews r ∧ randomViews r ≤ 59 := by
  have := floor_fl_mul_lt hb h0 h1 50 50 6 (by norm_num) (by norm_num) (by norm_num)
    (by norm_num) (by norm_num)
  unfold randomViews
  omega

/-- The initial likes of a video that is not viral lie in `[0, 9]`. -/
theorem randomLikes_range {r : ℚ} (hb : isBinary64 r) (h0 : 0 ≤ r) (h1 : r < 1) :
    0 ≤ randomLikes r ∧ randomLikes r ≤ 9 := by
  have := floor_fl_mul_lt hb h0 h1 10 10 4 (by norm_num) (by norm_num) (by norm_num)
    (by norm_num) (by norm_num)
  unfold randomLikes
  omega

theorem roundHalfEven_ge (x : ℚ) : x - 1 / 2 ≤ (roundHalfEven x : ℚ) := by
  have h1 := Int.floor_le x
  have h2 := Int.lt_floor_add_one x
  unfold roundHalfEven
  simp only
  split_ifs with a b c
  · linarith
  · push_cast; linarith
  · linarith
  · push_cast; linarith

theorem roundHalfEven_intCast (z : ℤ) : roundHalfEven (z : ℚ) = z := by
  unfold roundHalfEven
  simp

theorem fl_ge {x : ℚ} (hx : 0 < x) : x - 2 ^ ulpExp x / 2 ≤ fl x := by
  unfold fl
  rw [if_neg hx.ne', if_pos hx]
  have hp : (0 : ℚ) < 2 ^ ulpExp x := zpow_pos (by norm_num) _
  have h := roundHalfEven_ge (x / 2 ^ ulpExp x)
  calc x - 2 ^ ulpExp x / 2 = (x / 2 ^ ulpExp x - 1 / 2) * 2 ^ ulpExp x := by field_simp; ring
    _ ≤ (roundHalfEven (x / 2 ^ ulpExp x) : ℚ) * 2 ^ ulpExp x :=
        mul_le_mul_of_nonneg_right h hp.le

/-- The unit in the last place of a normal value is at most `2 ^ (-52)`
times the value. -/
theorem ulp_le_mul {x : ℚ} (hx : (2 : ℚ) ^ (-1022 : ℤ) ≤ x) :
    (2 : ℚ) ^ ulpExp x ≤ x * 2 ^ (-52 : ℤ) := by
  have hpos : 0 < x := lt_of_lt_of_le (zpow_pos (by norm_num) _) hx
  have hlog : (-1022 : ℤ) ≤ Int.log 2 x :=
    (Int.zpow_le_iff_le_log (R := ℚ) (b := 2) (by norm_num) hpos).mp (by simpa using hx)
  have hself : (2 : ℚ) ^ Int.log 2 x ≤ x := by
    have := Int.zpow_log_le_self (R := ℚ) (b := 2) (by norm_num) hpos
    simpa using this
  unfold ulpExp
  rw [max_eq_left hlog, sub_eq_add_neg, zpow_add₀ (by norm_num)]
  exact mul_le_mul_of_nonneg_right hself (zpow_pos (by norm_num) _).le

/-- An integer below `2 ^ 53` is a binary64 value. -/
theorem fl_intCast (q : ℤ) (h0 : 0 < q) (h1 : q < 2 ^ 53) : fl (q : ℚ) = q := by
  have hpos : (0 : ℚ) < q := by exact_mod_cast h0
  have hlt : (q : ℚ) < 2 ^ (53 : ℤ) := by
    have : (q : ℚ) < ((2 ^ 53 : ℤ) : ℚ) := by exact_mod_cast h1
    norm_num at this ⊢
    exact this
  have hu : ulpExp (q : ℚ) ≤ 0 := by
    have := ulpExp_le hpos (by norm_num) hlt
    omega
  obtain ⟨k, hk⟩ : ∃ k : ℕ, ulpExp (q : ℚ) = -(k : ℤ) := ⟨(-ulpExp (q : ℚ)).toNat, by omega⟩
  unfold fl
  rw [if_neg hpos.ne', if_pos hpos, hk]
  have h2 : (q : ℚ) / 2 ^ (-(k : ℤ)) = ((q * 2 ^ k : ℤ) : ℚ) := by
    rw [zpow_neg, zpow_natCast]
    push_cast
    field_simp
  rw [h2, roundHalfEven_intCast, zpow_neg, zpow_natCast]
  push_cast
  field_simp

/-- For a counter in the range of the safe integers the quotient by 10,
rounded to binary64, has the ceiling of the exact quotient: the doubles of
`getNextViralVideo` give the integer computed in the rationals. -/
theorem ceil_fl_tenth (m : ℤ) (h0 : 0 < m) (h1 : m < 2 ^ 53) :
    Int.ceil (fl ((m : ℚ) / 10)) = Int.ceil ((m : ℚ) / 10) := by
  have hm0 : (0 : ℚ) < m := by exact_mod_cast h0
  have hm1 : (m : ℚ) < 9007199254740992 := by
    have : (m : ℚ) < ((2 ^ 53 : ℤ) : ℚ) := by exact_mod_cast h1
    simpa using this
  have hx : (0 : ℚ) < (m : ℚ) / 10 := by positivity
  have hdiv : m = 10 * (m / 10) + m % 10 := (Int.ediv_add_emod m 10).symm
  have hr0 : 0 ≤ m % 10 := Int.emod_nonneg m (by norm_num)
  have hr1 : m % 10 < 10 := Int.emod_lt_of_pos m (by norm_num)
  by_cases hr : m % 10 = 0
  · have hq : (m : ℚ) / 10 = ((m / 10 : ℤ) : ℚ) := by
      have : (m : ℚ) = 10 * ((m / 10 : ℤ) : ℚ) := by
        have : m = 10 * (m / 10) := by omega
        exact_mod_cast this
      rw [this]; field_simp
    rw [hq, fl_intCast (m / 10) (by omega) (by omega)]
  · have hnormal : (2 : ℚ) ^ (-1022 : ℤ) ≤ (m : ℚ) / 10 := by
      have h1le : (1 : ℚ) ≤ m := by exact_mod_cast h0
      have : (2 : ℚ) ^ (-1022 : ℤ) ≤ 1 / 10 := by norm_num
      linarith
    have hu := ulp_le_mul hnormal
    have hup := fl_le hx
    have hlo := fl_ge hx
    have e52 : (2 : ℚ) ^ (-52 : ℤ) = 1 / 4503599627370496 := by norm_num
    rw [e52] at hu
    generalize (2 : ℚ) ^ ulpExp ((m : ℚ) / 10) = U at hu hup hlo
    have hqr : (m : ℚ) = 10 * ((m / 10 : ℤ) : ℚ) + ((m % 10 : ℤ) : ℚ) := by exact_mod_cast hdiv
    have hr1' : (1 : ℚ) ≤ ((m % 10 : ℤ) : ℚ) := by
      have : 1 ≤ m % 10 := by omega
      exact_mod_cast this
    have hr9' : ((m % 10 : ℤ) : ℚ) ≤ 9 := by
      have : m % 10 ≤ 9 := by omega
      exact_mod_cast this
    have hboth : ∀ y : ℚ, ((m / 10 : ℤ) : ℚ) < y → y < ((m / 10 : ℤ) : ℚ) + 1 →
        Int.ceil y = m / 10 + 1 := by
      intro y hy1 hy2
      rw [Int.ceil_eq_iff]
      push_cast
      constructor <;> linarith
    rw [hboth (fl ((m : ℚ) / 10)) (by linarith) (by linarith),
      hboth ((m : ℚ) / 10) (by linarith) (by linarith)]

end Rounding

section UploadRun

variable {υ : Type}

/-- The loop when no call fails: it returns, and only the achievement list
and the id counter change. -/
theorem checkAchievements_ok (p : Int) (v : Bool) (t : String) (rules : List AchievementRule)
    {u : User} :
    ∀ w : World υ, w.db.faults = [] → w.db.currentUser = some u →
      ∃ created n, checkAchievements p v t rules w =
          (some (), { w with db := { w.db with nextId := n, achievements :=
            w.db.achievements ++ created } }) ∧
        ∀ a ∈ created, a.name ∈ rules.map (fun r => r.name) := by
  induction rules with
  | nil =>
    intro w _ _
    refine ⟨[], w.db.nextId, ?_, by simp⟩
    simp [checkAchievements, Act.pure_eq]
  | cons r rest ih =>
    intro w hf hu
    rw [checkAchievements_cons, checkAchievement_ok p v t r hf hu]
    simp only
    split_ifs with hc
    · obtain ⟨created, n, hrun, hn⟩ := ih
        { w with db := { w.db with nextId := w.db.nextId + 1, achievements :=
          w.db.achievements ++
            [{ unlockedRecord r t with id := toString w.db.nextId, created_by := u.email }] } }
        hf hu
      refine ⟨{ unlockedRecord r t with id := toString w.db.nextId, created_by := u.email }
        :: created, n, ?_, ?_⟩
      · rw [hrun]; simp
      · intro a ha
        rw [List.mem_cons] at ha
        rcases ha with ha | ha
        · subst ha; simp [unlockedRecord]
        · simp only [List.map_cons, List.mem_cons]; exact Or.inr (hn a ha)
    · obtain ⟨created, n, hrun, hn⟩ := ih w hf hu
      refine ⟨created, n, hrun, fun a ha => ?_⟩
      simp only [List.map_cons, List.mem_cons]; exact Or.inr (hn a ha)

end UploadRun


section Literal

variable {υ : Type} (ui : υ) (u : User) (us : List User) (st : List UserStats) (vs : List Video)
  (ac : List Achievement) (cs : List Conversation) (ms : List Message) (ls : List Like)
  (cms : List Comment) (n : Nat)

theorem userMe_lit :
    User.me (⟨ui, ⟨some u, us, st, vs, ac, cs, ms, ls, cms, n, []⟩⟩ : World υ)
      = (some u, ⟨ui, ⟨some u, us, st, vs, ac, cs, ms, ls, cms, n, []⟩⟩) :=
  userMe_ok rfl rfl

theorem userStatsFilter_lit (q : UserStats → Bool) :
    UserStats.filter q (⟨ui, ⟨some u, us, st, vs, ac, cs, ms, ls, cms, n, []⟩⟩ : World υ)
      = (some (st.filter q), ⟨ui, ⟨some u, us, st, vs, ac, cs, ms, ls, cms, n, []⟩⟩) :=
  userStatsFilter_ok q rfl

theorem userStatsCreate_lit (d : UserStatsData) :
    UserStats.create d (⟨ui, ⟨some u, us, st, vs, ac, cs, ms, ls, cms, n, []⟩⟩ : World υ)
      = (some { d with id := toString n, created_by := u.email },
         ⟨ui, ⟨some u, us, st ++ [{ d with id := toString n, created_by := u.email }], vs, ac, cs,
           ms, ls, cms, n + 1, []⟩⟩) :=
  userStatsCreate_ok d rfl rfl

theorem userStatsUpdate_lit (id : String) (p : UserStatsData → UserStatsData)
    (hex : st.any (fun r => r.id == id) = true) :
    UserStats.update id p (⟨ui, ⟨some u, us, st, vs, ac, cs, ms, ls, cms, n, []⟩⟩ : World υ)
      = (some (), ⟨ui, ⟨some u, us,
          st.map (fun r => if r.id == id then { r with toUserStatsData := p r.toUserStatsData } else r),
          vs, ac, cs, ms, ls, cms, n, []⟩⟩) :=
  userStatsUpdate_ok id p rfl hex

theorem videoCreate_lit (d : VideoData) :
    Video.create d (⟨ui, ⟨some u, us, st, vs, ac, cs, ms, ls, cms, n, []⟩⟩ : World υ)
      = (some { d with id := toString n, created_by := u.email },
         ⟨ui, ⟨some u, us, st, vs ++ [{ d with id := toString n, created_by := u.email }], ac, cs,
           ms, ls, cms, n + 1, []⟩⟩) :=
  videoCreate_ok d rfl rfl

theorem UploadFile_lit (f : File) :
    UploadFile f (⟨ui, ⟨some u, us, st, vs, ac, cs, ms, ls, cms, n, []⟩⟩ : World υ)
      = (some f.url, ⟨ui, ⟨some u, us, st, vs, ac, cs, ms, ls, cms, n, []⟩⟩) :=
  UploadFile_ok f rfl

theorem checkIfWillGoViral_lit_fresh (hs : st.filter (fun r => r.created_by == u.email) = []) :
    checkIfWillGoViral (⟨ui, ⟨some u, us, st, vs, ac, cs, ms, ls, cms, n, []⟩⟩ : World υ)
      = (some false,
         ⟨ui, ⟨some u, us, st ++ [{ initialStats with id := toString n, created_by := u.email }],
           vs, ac, cs, ms, ls, cms, n + 1, []⟩⟩) :=
  checkIfWillGoViral_fresh rfl rfl hs

theorem checkIfWillGoViral_lit_counted (s0 : UserStats) (rest : List UserStats)
    (hs : st.filter (fun r => r.created_by == u.email) = s0 :: rest) :
    checkIfWillGoViral (⟨ui, ⟨some u, us, st, vs, ac, cs, ms, ls, cms, n, []⟩⟩ : World υ)
      = (some (decide (Int.tmod (jsOr s0.videos_posted 0 + 1) 10 = 0)),
         ⟨ui, ⟨some u, us, st, vs, ac, cs, ms, ls, cms, n, []⟩⟩) :=
  checkIfWillGoViral_counted rfl rfl hs

theorem checkAndUnlockAchievements_lit (p : Int) (v : Bool) (t : String) :
    ∃ created k,
      checkAndUnlockAchievements p v t
          (⟨ui, ⟨some u, us, st, vs, ac, cs, ms, ls, cms, n, []⟩⟩ : World υ)
        = (some (), ⟨ui, ⟨some u, us, st, vs, ac ++ created, cs, ms, ls, cms, k, []⟩⟩) ∧
      ∀ a ∈ created, a.name ∈ achievementsToCheck.map (fun r => r.name) :=
  checkAchievements_ok p v t achievementsToCheck
    (⟨ui, ⟨some u, us, st, vs, ac, cs, ms, ls, cms, n, []⟩⟩ : World υ) rfl rfl

end Literal

section Step

theorem statsOf_patch (l : List UserStats) (e : String) (f : UserStats → UserStats)
    (hf : ∀ r, (f r).created_by = r.created_by) :
    (l.map f).filter (fun r => r.created_by == e)
      = (l.filter (fun r => r.created_by == e)).map f := by
  rw [List.filter_map]
  congr 1
  apply List.filter_congr
  intro r _
  simp only [Function.comp, hf]

theorem counted_single {υ : Type} {w : World υ} {u : User} {n : Int} {s : UserStats}
    (h1 : statsOf w u.email = [s]) (h2 : s.videos_posted = some n)
    (h3 : s.viral_videos = some (n / 10)) (h4 : 0 ≤ n) : Counted w u n :=
  Or.inr ⟨s, h1, h2, h3, h4⟩

theorem jsOr_some_zero (n : Int) : jsOr (some n) 0 = n := by
  show (if n = 0 then 0 else n) = n
  split_ifs with h
  · exact h.symm
  · rfl

theorem viral_count_step (n : Int) (hn : 0 ≤ n) :
    (if decide (Int.tmod (n + 1) 10 = 0) = true then some (jsOr (some (n / 10)) 0 + 1)
      else some (n / 10)) = some ((n + 1) / 10) := by
  rw [jsOr_some_zero]
  have hiff : Int.tmod (n + 1) 10 = 0 ↔ (n + 1) % 10 = 0 := by
    rw [Int.tmod_eq_emod (by omega) (by omega)]
  by_cases h : Int.tmod (n + 1) 10 = 0
  · rw [if_pos (by simpa using h)]
    have := hiff.mp h
    congr 1; omega
  · rw [if_neg (by simpa using h)]
    have : ¬ (n + 1) % 10 = 0 := fun h2 => h (hiff.mpr h2)
    congr 1; omega

/-- A successful upload, step by step: with no failing call, a signed-in
user and a filled form, `handleUpload` returns, stores exactly one video with
the next post number, viral exactly on a multiple of ten, and counts it. -/
theorem handleUpload_step (ui : UploadUi) (db : Backend) (u : User) (file : File)
    (rViews rLikes : ℚ) (today : String) (n : Int)
    (hf : db.faults = []) (hu : db.currentUser = some u) (hfile : ui.file = some file)
    (ht : jsTrim ui.title ≠ "") (hc : Counted ⟨ui, db⟩ u n) :
    ∃ w1 : World UploadUi, handleUpload rViews rLikes today ⟨ui, db⟩ = (some (), w1) ∧
      w1.db.faults = [] ∧ w1.db.currentUser = some u ∧ Counted w1 u (n + 1) ∧
      (∃ i, w1.db.videos = db.videos ++
        [{ videoDataOf ui file.url (decide (Int.tmod (n + 1) 10 = 0)) (n + 1) rViews rLikes with
            id := i, created_by := u.email }]) ∧
      (∃ created, w1.db.achievements = db.achievements ++ created ∧
        ∀ a ∈ created, a.name ∈ achievementsToCheck.map (fun r => r.name)) := by
  obtain ⟨cu, us, st, vs, ac, cs, ms, ls, cms, k, fs⟩ := db
  simp only at hf hu
  subst hf hu
  unfold handleUpload
  rw [Act.bind_of_some (show Act.get _ = (some _, _) from rfl)]
  simp only [hfile, ht, if_false]
  rcases hc with ⟨hs, hn⟩ | ⟨s0, hs, hvp, hvv, hn0⟩
  · subst hn
    have hs' : st.filter (fun r => r.created_by == u.email) = [] := hs
    have hpn : jsOr initialStats.videos_posted 0 + 1 = 1 := by
      simp [initialStats, jsOr]
    simp only [setUpload, Act.modify, Act.bind_eq, Act.tryCatch, userMe_lit,
      checkIfWillGoViral_lit_fresh _ _ _ _ _ _ _ _ _ _ _ hs', UploadFile_lit, userStatsFilter_lit,
      List.filter_append, hs', List.nil_append, List.filter_cons, List.filter_nil,
      beq_self_eq_true, if_true, Act.pure_eq, videoCreate_lit, hpn]
    rw [userStatsUpdate_lit _ _ _ _ _ _ _ _ _ _ _ _ _ (by simp)]
    simp only
    obtain ⟨created, k2, hrun, hnames⟩ := checkAndUnlockAchievements_lit
      ({ ui with isUploading := true, uploadProgress := 90, willGoViral := false } : UploadUi)
      u us _ (vs ++ [{ videoDataOf ui file.url false 1 rViews rLikes with
            id := toString (k + 1), created_by := u.email }]) ac cs ms ls cms (k + 1 + 1)
      1 false today
    rw [hrun]
    simp only
    refine ⟨_, rfl, rfl, rfl, ?_, ⟨toString (k + 1), ?_⟩, ⟨created, rfl, hnames⟩⟩
    · apply counted_single
      case h1 =>
        unfold statsOf
        simp only
        rw [statsOf_patch _ _ _ (by intro r; split <;> rfl), List.filter_append, hs']
        simp only [List.nil_append, List.filter_cons, List.filter_nil, beq_self_eq_true, if_true,
          List.map_cons, List.map_nil]
        rfl
      case h2 => rfl
      case h3 => simp [initialStats]
      case h4 => norm_num
    · simp
      rw [show decide (Int.tmod (1 : Int) 10 = 0) = false from by decide]
  · have hs' : st.filter (fun r => r.created_by == u.email) = [s0] := hs
    have hmem : s0 ∈ st := by
      have : s0 ∈ st.filter (fun r => r.created_by == u.email) := by rw [hs']; simp
      exact (List.mem_filter.mp this).1
    have hpn : jsOr s0.videos_posted 0 + 1 = n + 1 := by rw [hvp, jsOr_some_zero]
    simp only [setUpload, Act.modify, Act.bind_eq, Act.tryCatch, userMe_lit,
      checkIfWillGoViral_lit_counted _ _ _ _ _ _ _ _ _ _ _ s0 [] hs', UploadFile_lit,
      userStatsFilter_lit, hs', Act.pure_eq, videoCreate_lit, hpn]
    rw [userStatsUpdate_lit _ _ _ _ _ _ _ _ _ _ _ _ _
      (List.any_eq_true.mpr ⟨s0, hmem, by simp⟩)]
    simp only
    obtain ⟨created, k2, hrun, hnames⟩ := checkAndUnlockAchievements_lit
      ({ ui with isUploading := true, uploadProgress := 90,
                 willGoViral := decide (Int.tmod (n + 1) 10 = 0) } : UploadUi)
      u us _ (vs ++ [{ videoDataOf ui file.url (decide (Int.tmod (n + 1) 10 = 0)) (n + 1)
            rViews rLikes with id := toString k, created_by := u.email }]) ac cs ms ls cms (k + 1)
      (n + 1) (decide (Int.tmod (n + 1) 10 = 0)) today
    rw [hrun]
    simp only
    refine ⟨_, rfl, rfl, rfl, ?_, ⟨toString k, rfl⟩, ⟨created, rfl, hnames⟩⟩
    apply counted_single
    case h1 =>
      unfold statsOf
      simp only
      rw [statsOf_patch _ _ _ (by intro r; split <;> rfl), hs']
      simp only [List.map_cons, List.map_nil, beq_self_eq_true, if_true]
      rfl
    case h2 => rfl
    case h3 =>
      dsimp only
      rw [hvv]
      exact viral_count_step n hn0
    case h4 => omega

end Step


section Runs

theorem uploadRun_step (w : World UploadUi) (u : User) (inp : UploadInput) (n : Int)
    (hf : w.db.faults = []) (hu : w.db.currentUser = some u)
    (ht : jsTrim inp.title ≠ "") (hc : Counted w u n) :
    (uploadRun inp w).db.faults = [] ∧ (uploadRun inp w).db.currentUser = some u ∧
      Counted (uploadRun inp w) u (n + 1) ∧
      (∃ v, (uploadRun inp w).db.videos = w.db.videos ++ [v] ∧ v.post_number = n + 1 ∧
        v.is_viral = decide (Int.tmod (n + 1) 10 = 0)) ∧
      (∃ unlocked, (uploadRun inp w).db.achievements = w.db.achievements ++ unlocked ∧
        ∀ a ∈ unlocked, a.name ∈ achievementsToCheck.map (fun r => r.name)) := by
  obtain ⟨w1, hrun, h1, h2, h3, ⟨i, h4⟩, h5⟩ :=
    handleUpload_step (fillForm inp (resetForm w.ui)) w.db u inp.file inp.rViews inp.rLikes
      inp.today n hf hu rfl ht hc
  unfold uploadRun
  rw [hrun]
  exact ⟨h1, h2, h3, ⟨_, h4, rfl, rfl⟩, h5⟩

/-- Uploads one after another from a store that counts `n` videos. -/
theorem uploadRuns_counted (u : User) (inputs : List UploadInput) :
    ∀ (w : World UploadUi) (n : Int), w.db.faults = [] → w.db.currentUser = some u →
      Counted w u n → (∀ inp ∈ inputs, jsTrim inp.title ≠ "") →
      Counted (uploadRuns inputs w) u (n + inputs.length) ∧
      (∃ created, (uploadRuns inputs w).db.videos = w.db.videos ++ created ∧
        created.map (fun v => (v.post_number, v.is_viral)) =
          (List.range inputs.length).map
            (fun (i : Nat) => (n + 1 + (i : Int), decide (Int.tmod (n + 1 + (i : Int)) 10 = 0)))) ∧
      (∃ unlocked, (uploadRuns inputs w).db.achievements = w.db.achievements ++ unlocked ∧
        ∀ a ∈ unlocked, a.name ∈ achievementsToCheck.map (fun r => r.name)) := by
  induction inputs with
  | nil =>
    intro w n _ _ hc _
    refine ⟨by simpa [uploadRuns] using hc, ⟨[], by simp [uploadRuns], by simp⟩,
      ⟨[], by simp [uploadRuns], by simp⟩⟩
  | cons inp rest ih =>
    intro w n hf hu hc hin
    obtain ⟨h1, h2, h3, ⟨v, hv, hpn, hvir⟩, ⟨un1, hun1, hnames1⟩⟩ :=
      uploadRun_step w u inp n hf hu (hin inp (List.mem_cons_self _ _)) hc
    obtain ⟨hc2, ⟨created, hcr, hmap⟩, ⟨un2, hun2, hnames2⟩⟩ :=
      ih (uploadRun inp w) (n + 1) h1 h2 h3 (fun i hi => hin i (List.mem_cons_of_mem _ hi))
    refine ⟨?_, ⟨v :: created, ?_, ?_⟩, ⟨un1 ++ un2, ?_, ?_⟩⟩
    · have : n + ((inp :: rest).length : Int) = n + 1 + (rest.length : Int) := by
        simp only [List.length_cons]; push_cast; ring
      rw [this]; exact hc2
    · show (uploadRuns rest (uploadRun inp w)).db.videos = _
      rw [hcr, hv, List.append_assoc]; rfl
    · rw [List.length_cons, List.range_succ_eq_map, List.map_cons, List.map_cons, hpn, hvir,
        List.map_map, hmap]
      simp only [Nat.cast_zero, add_zero, List.cons.injEq, true_and]
      apply List.map_congr_left
      intro i _
      simp only [Function.comp, Nat.succ_eq_add_one, Nat.cast_add, Nat.cast_one]
      have : n + 1 + 1 + (i : Int) = n + 1 + ((i : Int) + 1) := by ring
      rw [this]
    · show (uploadRuns rest (uploadRun inp w)).db.achievements = _
      rw [hun2, hun1, List.append_assoc]
    · intro a ha
      rcases List.mem_append.mp ha with h | h
      · exact hnames1 a h
      · exact hnames2 a h

end Runs

/-- C2: from a store without a `UserStats` record of the signed-in user, and
with no failing call, the `k`-th of a series of uploads stores a video with
`post_number = k` that is viral exactly when `k` is a multiple of 10. -/
theorem uploads_every_tenth_viral (w : World UploadUi) (u : User) (inputs : List UploadInput)
    (hf : w.db.faults = []) (hu : w.db.currentUser = some u)
    (hfresh : statsOf w u.email = [])
    (hin : ∀ inp ∈ inputs, jsTrim inp.title ≠ "") :
    ∃ created, (uploadRuns inputs w).db.videos = w.db.videos ++ created ∧
      created.length = inputs.length ∧
      ∀ (k : Nat) (v : Video), 1 ≤ k → created[k - 1]? = some v →
        v.post_number = (k : Int) ∧ (v.is_viral = true ↔ (10 : Int) ∣ (k : Int)) := by
  obtain ⟨_, ⟨created, hcr, hmap⟩, _⟩ :=
    uploadRuns_counted u inputs w 0 hf hu (Or.inl ⟨hfresh, rfl⟩) hin
  have hlen : created.length = inputs.length := by
    have := congrArg List.length hmap
    simpa using this
  refine ⟨created, hcr, hlen, fun k v hk hv => ?_⟩
  have hget : (created.map (fun v => (v.post_number, v.is_viral)))[k - 1]?
      = some (v.post_number, v.is_viral) := by
    rw [List.getElem?_map, hv]; rfl
  rw [hmap, List.getElem?_map] at hget
  have hklt : k - 1 < inputs.length := by
    rw [← hlen]
    exact (List.getElem?_eq_some_iff.mp hv).1
  rw [List.getElem?_range hklt] at hget
  simp only [Option.map_some', Option.some.injEq, Prod.mk.injEq] at hget
  have hcast : (0 : Int) + 1 + ((k - 1 : Nat) : Int) = (k : Int) := by omega
  rw [hcast] at hget
  refine ⟨hget.1.symm, ?_⟩
  rw [← hget.2, decide_eq_true_iff]
  exact ⟨Int.dvd_of_tmod_eq_zero, Int.tmod_eq_zero_of_dvd⟩

/-- C7: the table of `checkAndUnlockAchievements` lacks two of the predefined
achievements.  After fifty successful uploads from a fresh account the
statistics count 50 videos and 5 viral ones, which meets the requirements of
"Video Master" and "Viral King", and the user has no record of either. -/
theorem video_master_never_unlocked (w : World UploadUi) (u : User) (inputs : List UploadInput)
    (hf : w.db.faults = []) (hu : w.db.currentUser = some u)
    (hfresh : statsOf w u.email = [])
    (hnone : ∀ a ∈ w.db.achievements, a.created_by ≠ u.email)
    (hin : ∀ inp ∈ inputs, jsTrim inp.title ≠ "") (hlen : inputs.length = 50) :
    ∃ st, statsOf (uploadRuns inputs w) u.email = [st] ∧
      st.videos_posted = some 50 ∧ st.viral_videos = some 5 ∧
      ∃ p ∈ predefinedAchievements, ∃ q ∈ predefinedAchievements,
        p.name = "Video Master" ∧ p.category = "posting" ∧ p.requirement = 50 ∧
        q.name = "Viral King" ∧ q.category = "viral" ∧ q.requirement = 5 ∧
        ∀ a ∈ (uploadRuns inputs w).db.achievements,
          a.created_by = u.email → a.name ≠ p.name ∧ a.name ≠ q.name := by
  obtain ⟨hc, _, ⟨unlocked, hun, hnames⟩⟩ :=
    uploadRuns_counted u inputs w 0 hf hu (Or.inl ⟨hfresh, rfl⟩) hin
  rw [hlen] at hc
  rcases hc with ⟨_, h0⟩ | ⟨st, hst, hvp, hvv, _⟩
  · norm_num at h0
  · refine ⟨st, hst, by simpa using hvp, by simpa using hvv, ?_⟩
    refine ⟨⟨"Video Master", "Posted 50 videos", "medal", "posting", 50, 200⟩, by decide,
      ⟨"Viral King", "Had 5 viral videos", "zap", "viral", 5, 250⟩, by decide,
      rfl, rfl, rfl, rfl, rfl, rfl, ?_⟩
    intro a ha hby
    rw [hun] at ha
    rcases List.mem_append.mp ha with h | h
    · exact absurd hby (hnone a h)
    · have := hnames a h
      simp only [achievementsToCheck, List.map_cons, List.map_nil, List.mem_cons,
        List.mem_singleton, List.not_mem_nil, or_false] at this
      rcases this with h | h | h | h | h <;> rw [h] <;> decide


/-- Witness of C2: two uploads on the sample store. -/
theorem uploads_every_tenth_viral_witness :
    ∃ created, (uploadRuns [sampleInput, sampleInput] sampleUploadWorld).db.videos
        = sampleUploadWorld.db.videos ++ created ∧
      created.length = [sampleInput, sampleInput].length ∧
      ∀ (k : Nat) (v : Video), 1 ≤ k → created[k - 1]? = some v →
        v.post_number = (k : Int) ∧ (v.is_viral = true ↔ (10 : Int) ∣ (k : Int)) :=
  uploads_every_tenth_viral sampleUploadWorld sampleUser [sampleInput, sampleInput] rfl rfl rfl
    (by intro inp hinp; simp at hinp; subst hinp; decide)

theorem isRandomDraw_zero : IsRandomDraw 0 := by
  refine ⟨?_, le_refl 0, by norm_num⟩
  unfold isBinary64 fl
  simp

/-- Witness of C7: fifty uploads of the sample form on the sample store. -/
theorem video_master_never_unlocked_witness :
    ∃ st, statsOf (uploadRuns (List.replicate 50 sampleInput) sampleUploadWorld)
        sampleUser.email = [st] ∧
      st.videos_posted = some 50 ∧ st.viral_videos = some 5 ∧
      ∃ p ∈ predefinedAchievements, ∃ q ∈ predefinedAchievements,
        p.name = "Video Master" ∧ p.category = "posting" ∧ p.requirement = 50 ∧
        q.name = "Viral King" ∧ q.category = "viral" ∧ q.requirement = 5 ∧
        ∀ a ∈ (uploadRuns (List.replicate 50 sampleInput) sampleUploadWorld).db.achievements,
          a.created_by = sampleUser.email → a.name ≠ p.name ∧ a.name ≠ q.name :=
  video_master_never_unlocked sampleUploadWorld sampleUser (List.replicate 50 sampleInput)
    rfl rfl rfl (by intro a ha; simp [sampleUploadWorld, sampleBackend] at ha)
    (by intro inp hinp; rw [List.eq_of_mem_replicate hinp]; decide)
    (List.length_replicate 50 sampleInput)

/-- Witness of C8: on the sample store a second call after the tenth, viral
upload stores nothing. -/
theorem checkAndUnlockAchievements_no_duplicates_witness :
    (checkAndUnlockAchievements 10 true "2024-05-01"
        (checkAndUnlockAchievements 10 true "2024-05-01" sampleUploadWorld).2).2.db.achievements
      = (checkAndUnlockAchievements 10 true "2024-05-01" sampleUploadWorld).2.db.achievements :=
  (checkAndUnlockAchievements_no_duplicates sampleUploadWorld 10 true "2024-05-01").2.2
    (by decide)


section Sorting

variable {α : Type} (cmp : α → α → Int)

theorem insertSorted_perm (x : α) (l : List α) : (insertSorted cmp x l).Perm (x :: l) := by
  induction l with
  | nil => exact List.Perm.refl _
  | cons y ys ih =>
    unfold insertSorted
    split_ifs
    · exact List.Perm.refl _
    · exact (List.Perm.cons y ih).trans (List.Perm.swap x y ys)

theorem insertSorted_sorted (htotal : ∀ a b, cmp a b ≤ 0 ∨ cmp b a ≤ 0)
    (htrans : ∀ a b c, cmp a b ≤ 0 → cmp b c ≤ 0 → cmp a c ≤ 0) (x : α) (l : List α)
    (hl : l.Pairwise (fun a b => cmp a b ≤ 0)) :
    (insertSorted cmp x l).Pairwise (fun a b => cmp a b ≤ 0) := by
  induction l with
  | nil => simp [insertSorted]
  | cons y ys ih =>
    rw [List.pairwise_cons] at hl
    unfold insertSorted
    split_ifs with h
    · have hxy : cmp x y ≤ 0 := by
        rcases htotal x y with h1 | h1
        · exact h1
        · omega
      refine List.pairwise_cons.mpr ⟨fun z hz => ?_, List.pairwise_cons.mpr hl⟩
      rcases List.mem_cons.mp hz with hz | hz
      · rw [hz]; exact hxy
      · exact htrans x y z hxy (hl.1 z hz)
    · refine List.pairwise_cons.mpr ⟨fun z hz => ?_, ih hl.2⟩
      have := (insertSorted_perm cmp x ys).mem_iff.mp hz
      rcases List.mem_cons.mp this with hz | hz
      · rw [hz]; omega
      · exact hl.1 z hz

theorem foldl_insertSorted_perm (l acc : List α) :
    (l.foldl (fun sorted x => insertSorted cmp x sorted) acc).Perm (acc ++ l) := by
  induction l generalizing acc with
  | nil => simp
  | cons x xs ih =>
    rw [List.foldl_cons]
    refine (ih _).trans ?_
    refine ((insertSorted_perm cmp x acc).append_right xs).trans ?_
    exact List.perm_middle.symm

theorem foldl_insertSorted_sorted (htotal : ∀ a b, cmp a b ≤ 0 ∨ cmp b a ≤ 0)
    (htrans : ∀ a b c, cmp a b ≤ 0 → cmp b c ≤ 0 → cmp a c ≤ 0) (l acc : List α)
    (hacc : acc.Pairwise (fun a b => cmp a b ≤ 0)) :
    (l.foldl (fun sorted x => insertSorted cmp x sorted) acc).Pairwise
      (fun a b => cmp a b ≤ 0) := by
  induction l generalizing acc with
  | nil => exact hacc
  | cons x xs ih =>
    rw [List.foldl_cons]
    exact ih _ (insertSorted_sorted cmp htotal htrans x acc hacc)

theorem jsSort_perm (l : List α) : (jsSort cmp l).Perm l := by
  have := foldl_insertSorted_perm cmp l []
  simpa [jsSort] using this

theorem jsSort_sorted (htotal : ∀ a b, cmp a b ≤ 0 ∨ cmp b a ≤ 0)
    (htrans : ∀ a b c, cmp a b ≤ 0 → cmp b c ≤ 0 → cmp a c ≤ 0) (l : List α) :
    (jsSort cmp l).Pairwise (fun a b => cmp a b ≤ 0) :=
  foldl_insertSorted_sorted cmp htotal htrans l [] List.Pairwise.nil

end Sorting

section Leaderboard

theorem compareEntries_le_iff (a b : LeaderboardEntry) :
    compareEntries a b ≤ 0 ↔
      b.level < a.level ∨ (b.level = a.level ∧ b.videos_posted ≤ a.videos_posted) := by
  unfold compareEntries
  split_ifs with h
  · constructor
    · intro h1; left; omega
    · intro h1; omega
  · constructor
    · intro h1; right; exact ⟨not_not.mp h, by omega⟩
    · intro h1; omega

theorem compareEntries_total (a b : LeaderboardEntry) :
    compareEntries a b ≤ 0 ∨ compareEntries b a ≤ 0 := by
  rw [compareEntries_le_iff, compareEntries_le_iff]; omega

theorem compareEntries_trans (a b c : LeaderboardEntry) (h1 : compareEntries a b ≤ 0)
    (h2 : compareEntries b c ≤ 0) : compareEntries a c ≤ 0 := by
  rw [compareEntries_le_iff] at h1 h2 ⊢; omega

variable {υ : Type}

theorem friendEntry_spec (email : String) (w : World υ) :
    ∃ r w1, friendEntry email w = (some r, w1) ∧ ∀ x, r = some x → x.email = email := by
  unfold friendEntry Act.tryCatch
  rw [Act.bind_eq]
  rcases UserStats.filter (fun r => r.created_by == email) w with ⟨_ | userStats, w1⟩
  · exact ⟨none, w1, rfl, fun x h => by simp at h⟩
  simp only
  rw [Act.bind_eq]
  rcases User.filter (fun d => d.email == email) w1 with ⟨_ | userData, w2⟩
  · exact ⟨none, w2, rfl, fun x h => by simp at h⟩
  simp only
  rcases userStats with _ | ⟨s, ss⟩
  · exact ⟨none, w2, rfl, fun x h => by simp at h⟩
  rcases userData with _ | ⟨d, ds⟩
  · exact ⟨none, w2, rfl, fun x h => by simp at h⟩
  exact ⟨_, w2, rfl, fun x h => by rw [← Option.some.inj h]⟩

/-- The loop over the friend emails never throws, and its entries carry the
emails of a sublist of the set. -/
theorem collectFriendsStats_spec (emails : List String) :
    ∀ w : World υ, ∃ entries w1, collectFriendsStats emails w = (some entries, w1) ∧
      (entries.map (fun e => e.email)).Sublist emails := by
  induction emails with
  | nil => intro w; exact ⟨[], w, rfl, by simp⟩
  | cons email rest ih =>
    intro w
    obtain ⟨r, w1, hr, hemail⟩ := friendEntry_spec email w
    obtain ⟨entries, w2, he, hsub⟩ := ih w1
    unfold collectFriendsStats
    rw [Act.bind_of_some hr, Act.bind_of_some he]
    rcases r with _ | x
    · exact ⟨entries, w2, rfl, hsub.cons _⟩
    · refine ⟨x :: entries, w2, rfl, ?_⟩
      rw [List.map_cons, hemail x rfl]
      exact hsub.cons₂ _

theorem setAdd_nodup (set : List String) (email : String) (h : set.Nodup) :
    (setAdd set email).Nodup := by
  unfold setAdd
  split_ifs with hc
  · exact h
  · rw [List.nodup_append]
    refine ⟨h, by simp, ?_⟩
    intro a ha hb
    rw [List.mem_singleton] at hb
    subst hb
    exact hc (List.contains_iff_exists_mem_beq.mpr ⟨a, ha, by simp⟩)

theorem mem_setAdd {set : List String} {email e : String} (h : e ∈ setAdd set email) :
    e ∈ set ∨ e = email := by
  unfold setAdd at h
  split_ifs at h
  · exact Or.inl h
  · rcases List.mem_append.mp h with h | h
    · exact Or.inl h
    · exact Or.inr (List.mem_singleton.mp h)

/-- The set of friend emails has no repetition and leaves out the user. -/
theorem friendEmails_spec (user : User) (conversations : List Conversation) :
    (friendEmails user conversations).Nodup ∧
      ∀ e ∈ friendEmails user conversations, e ≠ user.email := by
  unfold friendEmails
  have inner : ∀ (ps : List String) (set : List String),
      (set.Nodup ∧ ∀ e ∈ set, e ≠ user.email) →
      ((ps.foldl (fun set email => if email != user.email then setAdd set email else set)
          set).Nodup ∧
        ∀ e ∈ ps.foldl (fun set email => if email != user.email then setAdd set email else set)
          set, e ≠ user.email) := by
    intro ps
    induction ps with
    | nil => intro set h; exact h
    | cons p ps ih =>
      intro set h
      rw [List.foldl_cons]
      apply ih
      split_ifs with hp
      · refine ⟨setAdd_nodup set p h.1, fun e he => ?_⟩
        rcases mem_setAdd he with he | he
        · exact h.2 e he
        · rw [he]; simpa using hp
      · exact h
  have outer : ∀ (cs : List Conversation) (set : List String),
      (set.Nodup ∧ ∀ e ∈ set, e ≠ user.email) →
      ((cs.foldl (fun set conv => conv.participants.foldl
          (fun set email => if email != user.email then setAdd set email else set) set)
          set).Nodup ∧
        ∀ e ∈ cs.foldl (fun set conv => conv.participants.foldl
          (fun set email => if email != user.email then setAdd set email else set) set)
          set, e ≠ user.email) := by
    intro cs
    induction cs with
    | nil => intro set h; exact h
    | cons c cs ih =>
      intro set h
      rw [List.foldl_cons]
      exact ih _ (inner c.participants set h)
  exact outer conversations [] ⟨List.nodup_nil, fun e he => by simp at he⟩

/-- When the conversations are fetched, the leaderboard is the sorted array
of the collected entries. -/
theorem loadLeaderboard_eq (user : User) (w w1 : World LeaderboardUi)
    (conversations : List Conversation)
    (hq : Conversation.filter (fun c => c.participants.contains user.email) w
      = (some conversations, w1)) :
    ∃ collected w2,
      collectFriendsStats (friendEmails user conversations) w1 = (some collected, w2) ∧
      (collected.map (fun e => e.email)).Sublist (friendEmails user conversations) ∧
      (loadLeaderboard (some user) w).2.ui.leaderboard = jsSort compareEntries collected := by
  obtain ⟨collected, w2, hc, hsub⟩ := collectFriendsStats_spec (friendEmails user conversations) w1
  refine ⟨collected, w2, hc, hsub, ?_⟩
  unfold loadLeaderboard
  simp only [Act.tryFinally, Act.tryCatch]
  rw [Act.bind_of_some hq, Act.bind_of_some hc]
  rfl

end Leaderboard

/-- C5: when the conversations are fetched, the leaderboard `loadLeaderboard`
stores is a permutation of the collected friend entries, every entry has a
level at least that of the next one, and of two adjacent entries of equal
level the first has at least as many posted videos. -/
theorem leaderboard_sorted (user : User) (w w1 : World LeaderboardUi)
    (conversations : List Conversation)
    (hq : Conversation.filter (fun c => c.participants.contains user.email) w
      = (some conversations, w1)) :
    ∃ collected w2,
      collectFriendsStats (friendEmails user conversations) w1 = (some collected, w2) ∧
      ((loadLeaderboard (some user) w).2.ui.leaderboard).Perm collected ∧
      ∀ (i : Nat) (a b : LeaderboardEntry),
        ((loadLeaderboard (some user) w).2.ui.leaderboard)[i]? = some a →
        ((loadLeaderboard (some user) w).2.ui.leaderboard)[i + 1]? = some b →
        a.level ≥ b.level ∧ (a.level = b.level → a.videos_posted ≥ b.videos_posted) := by
  obtain ⟨collected, w2, hc, _, hlb⟩ := loadLeaderboard_eq user w w1 conversations hq
  refine ⟨collected, w2, hc, ?_, ?_⟩
  · rw [hlb]; exact jsSort_perm compareEntries collected
  · intro i a b ha hb
    rw [hlb] at ha hb
    have hs := jsSort_sorted compareEntries compareEntries_total compareEntries_trans collected
    rw [List.pairwise_iff_getElem] at hs
    obtain ⟨hi, hai⟩ := List.getElem?_eq_some_iff.mp ha
    obtain ⟨hj, hbj⟩ := List.getElem?_eq_some_iff.mp hb
    have := hs i (i + 1) hi hj (Nat.lt_succ_self i)
    rw [hai, hbj, compareEntries_le_iff] at this
    omega

/-- C6: when the conversations are fetched, the entries of the leaderboard
have pairwise distinct emails and none is the email of the user. -/
theorem leaderboard_unique_friends (user : User) (w w1 : World LeaderboardUi)
    (conversations : List Conversation)
    (hq : Conversation.filter (fun c => c.participants.contains user.email) w
      = (some conversations, w1)) :
    (((loadLeaderboard (some user) w).2.ui.leaderboard).map (fun e => e.email)).Nodup ∧
      ∀ e ∈ (loadLeaderboard (some user) w).2.ui.leaderboard, e.email ≠ user.email := by
  obtain ⟨collected, w2, _, hsub, hlb⟩ := loadLeaderboard_eq user w w1 conversations hq
  obtain ⟨hnd, hne⟩ := friendEmails_spec user conversations
  have hperm := jsSort_perm compareEntries collected
  rw [hlb]
  constructor
  · exact ((hperm.map _).nodup_iff).mpr (hsub.nodup hnd)
  · intro e he
    have hmem : e ∈ collected := hperm.mem_iff.mp he
    exact hne e.email (hsub.subset (List.mem_map_of_mem _ hmem))


/-- Witness of C5: the sample user with two friends in three conversations. -/
theorem leaderboard_sorted_witness :
    ∃ collected w2,
      collectFriendsStats (friendEmails sampleUser leaderboardBackend.conversations)
        leaderboardWorld = (some collected, w2) ∧
      ((loadLeaderboard (some sampleUser) leaderboardWorld).2.ui.leaderboard).Perm collected ∧
      ∀ (i : Nat) (a b : LeaderboardEntry),
        ((loadLeaderboard (some sampleUser) leaderboardWorld).2.ui.leaderboard)[i]? = some a →
        ((loadLeaderboard (some sampleUser) leaderboardWorld).2.ui.leaderboard)[i + 1]? = some b →
        a.level ≥ b.level ∧ (a.level = b.level → a.videos_posted ≥ b.videos_posted) :=
  leaderboard_sorted sampleUser leaderboardWorld leaderboardWorld
    leaderboardBackend.conversations rfl

/-- Witness of C6: the friend met in two conversations is listed once. -/
theorem leaderboard_unique_friends_witness :
    (((loadLeaderboard (some sampleUser) leaderboardWorld).2.ui.leaderboard).map
        (fun e => e.email)).Nodup ∧
      ∀ e ∈ (loadLeaderboard (some sampleUser) leaderboardWorld).2.ui.leaderboard,
        e.email ≠ sampleUser.email :=
  leaderboard_unique_friends sampleUser leaderboardWorld leaderboardWorld
    leaderboardBackend.conversations rfl

/-- C9: for a query of at most two code units the search effect sets no
timer, so no backend search follows, and it empties the results; a timer is
set exactly when the query is longer than two, with a delay of 500 ms and
the backend search of that query as its callback, and the results are left
as they are. -/
theorem searchEffect_min_length (regexMatch : String → String → Bool) (ui : SearchUi) :
    (jsLength ui.query ≤ 2 →
      searchEffect regexMatch ui
        = ({ ui with results := { videos := [], users := [] } }, none)) ∧
    ((searchEffect regexMatch ui).2.isSome = true ↔ jsLength ui.query > 2) ∧
    (∀ t, (searchEffect regexMatch ui).2 = some t →
      jsLength ui.query > 2 ∧ t.delay = 500 ∧
      t.callback = handleSearch regexMatch ui.query ∧
      (searchEffect regexMatch ui).1 = ui) := by
  unfold searchEffect
  by_cases h : jsLength ui.query > 2
  · rw [if_pos h]
    refine ⟨fun h2 => by omega, by simp [h], ?_⟩
    intro t ht
    simp only [Option.some.injEq] at ht
    subst ht
    exact ⟨h, rfl, rfl, rfl⟩
  · rw [if_neg h]
    refine ⟨fun _ => rfl, by simp [h], ?_⟩
    intro t ht
    simp at ht

/-- Witness of C9: a query of two characters. -/
theorem searchEffect_min_length_witness :
    searchEffect (fun _ _ => true) shortQuery
      = ({ shortQuery with results := { videos := [], users := [] } }, none) :=
  (searchEffect_min_length (fun _ _ => true) shortQuery).1 (by decide)

section ChatFrame

theorem keepsUi_refl (w : World ChatUi) : (fun a b : World ChatUi => b.ui = a.ui) w w := rfl

theorem keepsUi_trans (a b c : World ChatUi) (h1 : b.ui = a.ui) (h2 : c.ui = b.ui) :
    c.ui = a.ui := h2.trans h1

theorem keepsUi_request :
    Act.Respects (fun a b : World ChatUi => b.ui = a.ui) (request : Act (World ChatUi) Unit) := by
  intro w
  obtain ⟨fs, h⟩ := request_spec w
  rw [h]; rfl

theorem keepsUi_signedIn :
    Act.Respects (fun a b : World ChatUi => b.ui = a.ui) (signedIn : Act (World ChatUi) User) := by
  intro w
  unfold signedIn
  rcases w.db.currentUser with _ | u <;> rfl

/-- The backend calls of the send leave the React state alone. -/
theorem keepsUi_messageCreate (c m d : String) :
    Act.Respects (fun a b : World ChatUi => b.ui = a.ui)
      (Message.create c m d : Act (World ChatUi) Message) :=
  Act.respects_bind keepsUi_trans keepsUi_request (fun _ =>
    Act.respects_bind keepsUi_trans keepsUi_signedIn (fun _ =>
      Act.respects_bind keepsUi_trans (fun _ => rfl) (fun _ =>
        Act.respects_bind keepsUi_trans (Act.respects_modify (fun _ => rfl)) (fun _ =>
          Act.respects_pure keepsUi_refl _))))

theorem keepsUi_conversationUpdate (id : String) (p : ConversationData → ConversationData) :
    Act.Respects (fun a b : World ChatUi => b.ui = a.ui)
      (Conversation.update id p : Act (World ChatUi) Unit) := by
  unfold Conversation.update
  refine Act.respects_bind keepsUi_trans keepsUi_request (fun _ =>
    Act.respects_bind keepsUi_trans (Act.respects_get keepsUi_refl) (fun w => ?_))
  split
  · exact Act.respects_modify (fun _ => rfl)
  · exact Act.respects_throw keepsUi_refl

theorem filter_temp_append (msgs : List Message) (t : Message) (tempId : String)
    (ht : t.id = tempId) (h : ∀ m ∈ msgs, m.id ≠ tempId) :
    (msgs ++ [t]).filter (fun m => m.id != tempId) = msgs := by
  rw [List.filter_append]
  have h1 : msgs.filter (fun m => m.id != tempId) = msgs :=
    List.filter_eq_self.mpr (fun m hm => by simpa using h m hm)
  have h2 : [t].filter (fun m => m.id != tempId) = [] := by
    simp [ht]
  rw [h1, h2, List.append_nil]

end ChatFrame

/-- C10: when `Message.create` or `Conversation.update` fails inside
`handleSendMessage`, and no message of the list has the temporary id, the
message list ends equal to the list before the send and `isSending` ends
false. -/
theorem handleSendMessage_rollback (clock : SendClock) (w : World ChatUi) (conv : Conversation)
    (user : User)
    (hconv : w.ui.activeConversation = some conv) (huser : w.ui.user = some user)
    (htyped : jsTrim w.ui.newMessage ≠ "")
    (hids : ∀ m ∈ w.ui.messages, m.id ≠ toString clock.now)
    (hfail :
      (Message.create conv.id w.ui.newMessage clock.storedDate (optimisticSend clock user w)).1
        = none ∨
      ∃ m w2,
        Message.create conv.id w.ui.newMessage clock.storedDate (optimisticSend clock user w)
          = (some m, w2) ∧
        (Conversation.update conv.id
          (fun d => { d with last_message := some w.ui.newMessage,
                             last_message_date := some clock.updateDate }) w2).1 = none) :
    (handleSendMessage clock w).2.ui.messages = w.ui.messages ∧
    (handleSendMessage clock w).2.ui.isSending = false := by
  have hsend : ∃ w3, sendToBackend clock conv w.ui.newMessage (optimisticSend clock user w)
      = (none, w3) ∧ w3.ui = (optimisticSend clock user w).ui := by
    unfold sendToBackend
    have hk1 := keepsUi_messageCreate conv.id w.ui.newMessage clock.storedDate
      (optimisticSend clock user w)
    rcases hfail with h | ⟨m, w2, hm, hu⟩
    · rcases hc : Message.create conv.id w.ui.newMessage clock.storedDate
        (optimisticSend clock user w) with ⟨_ | m, w2⟩
      · rw [hc] at hk1
        exact ⟨w2, Act.bind_of_none hc, hk1⟩
      · rw [hc] at h; simp at h
    · rw [hm] at hk1
      have hk2 := keepsUi_conversationUpdate conv.id
        (fun d => { d with last_message := some w.ui.newMessage,
                           last_message_date := some clock.updateDate }) w2
      rcases hc : Conversation.update conv.id
        (fun d => { d with last_message := some w.ui.newMessage,
                           last_message_date := some clock.updateDate }) w2 with ⟨_ | x, w3⟩
      · rw [hc] at hk2
        refine ⟨w3, ?_, hk2.trans hk1⟩
        rw [Act.bind_of_some hm, Act.bind_of_none hc]
      · rw [hc] at hu; simp at hu
  obtain ⟨w3, hrun, hui⟩ := hsend
  have hmsgs : w3.ui.messages = w.ui.messages ++ [tempMessage clock w.ui.newMessage user] := by
    rw [hui]; rfl
  have hstep : handleSendMessage clock w =
      Act.tryFinally
        (Act.tryCatch (sendToBackend clock conv w.ui.newMessage)
          (setChat (fun u =>
            { u with messages := u.messages.filter (fun m => m.id != toString clock.now) })))
        (setChat (fun u => { u with isSending := false })) (optimisticSend clock user w) := by
    unfold handleSendMessage
    rw [Act.bind_of_some (show Act.get w = (some w, w) from rfl)]
    simp only [hconv, huser, htyped, if_false]
    rfl
  rw [hstep]
  unfold Act.tryFinally Act.tryCatch
  rw [hrun]
  simp only [setChat, Act.modify]
  refine ⟨?_, ?_⟩
  · rw [hmsgs]; exact filter_temp_append _ _ _ rfl hids
  · trivial

/-- Witness of C10: the first backend call of the send fails. -/
theorem handleSendMessage_rollback_witness :
    (handleSendMessage sampleClock failingChatWorld).2.ui.messages = failingChatWorld.ui.messages ∧
    (handleSendMessage sampleClock failingChatWorld).2.ui.isSending = false :=
  handleSendMessage_rollback sampleClock failingChatWorld
    { participants := ["ana@example.org", "bob@example.org"], participant_details := [],
      last_message := none, last_message_date := none, id := "c1" }
    sampleUser rfl rfl (by decide) (by decide) (Or.inl rfl)

section FeedLoad

variable {υ : Type}

theorem toDigitsCore_val (fuel : Nat) : ∀ (n : Nat) (ds : List Char), n < fuel →
    ∃ D : List Char, Nat.toDigitsCore 10 fuel n ds = D ++ ds ∧
      D.foldl (fun acc c => acc * 10 + (c.toNat - 48)) 0 = n := by
  induction fuel with
  | zero => intro n ds h; omega
  | succ fuel ih =>
    intro n ds h
    have hd : ((Nat.digitChar (n % 10)).toNat - 48) = n % 10 := by
      have : n % 10 < 10 := Nat.mod_lt _ (by norm_num)
      interval_cases (n % 10) <;> rfl
    unfold Nat.toDigitsCore
    simp only
    split_ifs with h0
    · refine ⟨[Nat.digitChar (n % 10)], rfl, ?_⟩
      simp only [List.foldl_cons, List.foldl_nil, hd]
      omega
    · obtain ⟨D, hD, hval⟩ := ih (n / 10) (Nat.digitChar (n % 10) :: ds) (by omega)
      refine ⟨D ++ [Nat.digitChar (n % 10)], by rw [hD]; simp, ?_⟩
      rw [List.foldl_append, hval]
      simp only [List.foldl_cons, List.foldl_nil, hd]
      omega

/-- The decimal numerals the store uses as ids are distinct for distinct
counters. -/
theorem toString_nat_injective (a b : Nat) (h : toString a = toString b) : a = b := by
  obtain ⟨A, hA, hva⟩ := toDigitsCore_val (a + 1) a [] (by omega)
  obtain ⟨B, hB, hvb⟩ := toDigitsCore_val (b + 1) b [] (by omega)
  have h2 : Nat.toDigits 10 a = Nat.toDigits 10 b := by
    have : (Nat.toDigits 10 a).asString = (Nat.toDigits 10 b).asString := h
    exact congrArg String.data this
  unfold Nat.toDigits at h2
  rw [hA, hB] at h2
  simp only [List.append_nil] at h2
  rw [← hva, ← hvb, h2]

/-- The outcome of `User.me` does not depend on the React state. -/
theorem userMe_ui {υ1 : Type} (w : World υ) (x : υ1) :
    User.me (⟨x, w.db⟩ : World υ1) = ((User.me w).1, ⟨x, (User.me w).2.db⟩) := by
  obtain ⟨ui, db⟩ := w
  obtain ⟨cu, us, st, vs, ac, cs, ms, ls, cms, n, fs⟩ := db
  unfold User.me
  rw [Act.bind_eq, Act.bind_eq]
  unfold request signedIn
  rcases fs with _ | ⟨b, rest⟩
  · cases cu <;> rfl
  · cases b <;> cases cu <;> rfl

theorem videoList_spec (w : World υ) :
    ∃ fs, (Video.list w).2 = setFaults fs w ∧
      ∀ l, (Video.list w).1 = some l → l = w.db.videos.reverse.take 50 := by
  obtain ⟨fs, hfs⟩ := request_spec w
  refine ⟨fs, ?_⟩
  unfold Video.list
  rw [Act.bind_eq]
  rcases h : request w with ⟨_ | a, w1⟩
  · rw [h] at hfs; simp at hfs ⊢; exact hfs
  · rw [h] at hfs
    simp only at hfs ⊢
    subst hfs
    exact ⟨rfl, fun l hl => (Option.some.inj hl).symm⟩

end FeedLoad

/-- C11: in `loadData`, when the videos are fetched and `User.me` fails, the
call returns normally, `videos` is the fetched list, and `user` and
`likedVideos` are left as they were, `null` and the empty map on a page that
has just mounted. -/
theorem loadData_user_fetch_fails (w w1 : World FeedUi) (fetchedVideos : List Video)
    (hlist : Video.list w = (some fetchedVideos, w1))
    (hme : (User.me w1).1 = none) :
    (loadData w).1 = some () ∧
    (loadData w).2.ui.videos = fetchedVideos ∧
    (loadData w).2.ui.user = w.ui.user ∧
    (loadData w).2.ui.likedVideos = w.ui.likedVideos ∧
    (w.ui.user = none → w.ui.likedVideos = [] →
      (loadData w).2.ui.user = none ∧ (loadData w).2.ui.likedVideos = []) := by
  obtain ⟨fs, hfs, _⟩ := videoList_spec w
  rw [hlist] at hfs
  simp only at hfs
  have hfail : ∃ w2, User.me ({ w1 with ui := { w1.ui with videos := fetchedVideos } })
      = (none, w2) ∧ w2.ui = { w1.ui with videos := fetchedVideos } := by
    have h := userMe_ui w1 ({ w1.ui with videos := fetchedVideos } : FeedUi)
    refine ⟨⟨{ w1.ui with videos := fetchedVideos }, (User.me w1).2.db⟩, ?_, rfl⟩
    rw [show ({ w1 with ui := { w1.ui with videos := fetchedVideos } } : World FeedUi)
      = ⟨{ w1.ui with videos := fetchedVideos }, w1.db⟩ from rfl, h, hme]
  obtain ⟨w2, hrun, hui⟩ := hfail
  have hload : loadData w = (some (), w2) := by
    unfold loadData
    rw [Act.bind_of_some hlist]
    simp only [setFeed, Act.modify, Act.bind_eq, Act.tryCatch]
    rw [hrun]
    rfl
  rw [hload]
  have hw1 : w1.ui = w.ui := by rw [hfs]; rfl
  refine ⟨rfl, by rw [hui], by rw [hui]; simp only; rw [hw1], by rw [hui]; simp only; rw [hw1], ?_⟩
  intro hu hl
  refine ⟨by rw [hui]; simp only; rw [hw1, hu], by rw [hui]; simp only; rw [hw1, hl]⟩

/-- C12: `checkIfWillGoViral` always returns, and it returns false when
`User.me` fails, when `UserStats.filter` fails, and when `UserStats.create`
fails on a user without statistics. -/
theorem checkIfWillGoViral_never_fails {υ : Type} (w : World υ) :
    (∃ b, (checkIfWillGoViral w).1 = some b) ∧
    ((User.me w).1 = none → (checkIfWillGoViral w).1 = some false) ∧
    (∀ user w1, User.me w = (some user, w1) →
      (UserStats.filter (fun r => r.created_by == user.email) w1).1 = none →
      (checkIfWillGoViral w).1 = some false) ∧
    (∀ user w1 w2, User.me w = (some user, w1) →
      UserStats.filter (fun r => r.created_by == user.email) w1 = (some [], w2) →
      (UserStats.create initialStats w2).1 = none →
      (checkIfWillGoViral w).1 = some false) := by
  refine ⟨?_, ?_, ?_, ?_⟩
  · unfold checkIfWillGoViral Act.tryCatch
    split
    · exact ⟨_, rfl⟩
    · exact ⟨false, rfl⟩
  · intro hme
    unfold checkIfWillGoViral Act.tryCatch
    rcases h : User.me w with ⟨_ | user, w1⟩
    · rw [Act.bind_of_none h]; rfl
    · rw [h] at hme; simp at hme
  · intro user w1 hme hq
    unfold checkIfWillGoViral Act.tryCatch
    rw [Act.bind_of_some hme]
    rcases h : UserStats.filter (fun r => r.created_by == user.email) w1 with ⟨_ | l, w2⟩
    · rw [Act.bind_of_none h]; rfl
    · rw [h] at hq; simp at hq
  · intro user w1 w2 hme hq hc
    unfold checkIfWillGoViral Act.tryCatch
    rw [Act.bind_of_some hme, Act.bind_of_some hq]
    simp only
    rcases h : UserStats.create initialStats w2 with ⟨_ | r, w3⟩
    · rw [Act.bind_of_none h]; rfl
    · rw [h] at hc; simp at hc

/-- C18: `topLevelComments` is the sublist, in the order of the comment list,
of exactly the comments whose `reply_to` is missing or empty; a comment with
a non-empty `reply_to` is not in it. -/
theorem topLevelComments_spec (comments : List Comment) :
    topLevelComments comments
      = comments.filter (fun c => decide (c.reply_to = none ∨ c.reply_to = some "")) ∧
    (topLevelComments comments).Sublist comments ∧
    (∀ c, c ∈ topLevelComments comments ↔
      c ∈ comments ∧ (c.reply_to = none ∨ c.reply_to = some "")) ∧
    (∀ c parent, c.reply_to = some parent → parent ≠ "" → c ∉ topLevelComments comments) := by
  have hno : ∀ r : Option String, noReplyTo r = true ↔ (r = none ∨ r = some "") := by
    intro r
    cases r with
    | none => simp [noReplyTo]
    | some p => simp [noReplyTo]
  refine ⟨?_, List.filter_sublist _, fun c => ?_, fun c parent hr hp hmem => ?_⟩
  · unfold topLevelComments
    apply List.filter_congr
    intro c _
    rw [Bool.eq_iff_iff, hno]
    simp
  · unfold topLevelComments
    rw [List.mem_filter, hno]
  · unfold topLevelComments at hmem
    rw [List.mem_filter, hno, hr] at hmem
    rcases hmem.2 with h | h
    · simp at h
    · exact hp (Option.some.inj h)

section Hashtags

/-- The tokens of `split(' ')` joined by single spaces give the input back. -/
theorem intercalate_splitOnSpace (cs : List Char) :
    List.intercalate [' '] (splitOnSpace cs) = cs := by
  induction cs with
  | nil => rfl
  | cons c cs ih =>
    unfold splitOnSpace
    rcases h : splitOnSpace cs with _ | ⟨t, ts⟩
    · rw [h] at ih
      simp [List.intercalate] at ih
      subst ih
      rfl
    · rw [h] at ih
      simp only
      split_ifs with hc
      · subst hc
        rw [← ih]
        simp [List.intercalate, List.intersperse]
      · rw [← ih]
        cases ts <;> simp [List.intercalate, List.intersperse]

/-- No token of `split(' ')` contains a space. -/
theorem splitOnSpace_ne_nil (cs : List Char) : splitOnSpace cs ≠ [] := by
  cases cs with
  | nil => simp [splitOnSpace]
  | cons c cs =>
    unfold splitOnSpace
    split
    · simp
    · split_ifs <;> simp

theorem not_mem_splitOnSpace (cs : List Char) : ∀ t ∈ splitOnSpace cs, ' ' ∉ t := by
  induction cs with
  | nil => intro t ht; simp [splitOnSpace] at ht; subst ht; simp
  | cons c cs ih =>
    intro t ht
    unfold splitOnSpace at ht
    rcases h : splitOnSpace cs with _ | ⟨t0, ts⟩
    · rw [h] at ht
      exact absurd h (splitOnSpace_ne_nil cs)
    · rw [h] at ht ih
      simp only at ht
      split_ifs at ht with hc
      · rcases List.mem_cons.mp ht with ht | ht
        · subst ht; simp
        · exact ih t ht
      · rcases List.mem_cons.mp ht with ht | ht
        · subst ht
          intro hmem
          rcases List.mem_cons.mp hmem with hm | hm
          · exact hc hm.symm
          · exact ih t0 (List.mem_cons_self _ _) hm
        · exact ih t (List.mem_cons_of_mem _ ht)

theorem cons_drop_of_head {t : List Char} (h : t.head? = some '#') : '#' :: t.drop 1 = t := by
  cases t with
  | nil => simp at h
  | cons a as => simp at h; subst h; rfl

end Hashtags

/-- C17: the stored hashtags are, in input order, the tokens of
`hashtags.split(' ')` that start with `#`, each without its first character:
prefixing `#` to the stored tags gives those tokens back, a token that does
not start with `#` leaves no tag, and `"#hashtags #optional"` gives
`["hashtags", "optional"]`.  The tokens are the space-free pieces that,
joined by single spaces, make up the input. -/
theorem parseHashtags_spec (hashtags : String) :
    List.intercalate [' '] (splitOnSpace hashtags.data) = hashtags.data ∧
    (∀ t ∈ splitOnSpace hashtags.data, ' ' ∉ t) ∧
    (parseHashtags hashtags).map displayHashtag =
      ((splitOnSpace hashtags.data).filter (fun t => t.head? == some '#')).map String.mk ∧
    (parseHashtags hashtags).length =
      ((splitOnSpace hashtags.data).filter (fun t => t.head? == some '#')).length ∧
    (∀ tag ∈ parseHashtags hashtags,
      (displayHashtag tag).data ∈ splitOnSpace hashtags.data ∧
      (displayHashtag tag).data.head? = some '#' ∧
      (displayHashtag tag).data.drop 1 = tag.data) ∧
    (∀ (ui : UploadUi) (url : String) (viral : Bool) (n : Int) (rViews rLikes : ℚ),
      ui.hashtags = hashtags →
      (videoDataOf ui url viral n rViews rLikes).hashtags = parseHashtags hashtags) ∧
    parseHashtags "#hashtags #optional" = ["hashtags", "optional"] := by
  refine ⟨intercalate_splitOnSpace _, not_mem_splitOnSpace _, ?_, ?_, ?_, ?_, by decide⟩
  · unfold parseHashtags
    rw [List.map_map]
    apply List.map_congr_left
    intro t ht
    have hh : t.head? = some '#' := by simpa using (List.mem_filter.mp ht).2
    show displayHashtag (String.mk (t.drop 1)) = String.mk t
    unfold displayHashtag
    apply String.ext
    show '#' :: t.drop 1 = t
    exact cons_drop_of_head hh
  · unfold parseHashtags
    rw [List.length_map]
  · intro tag htag
    unfold parseHashtags at htag
    obtain ⟨t, ht, rfl⟩ := List.mem_map.mp htag
    have hh : t.head? = some '#' := by simpa using (List.mem_filter.mp ht).2
    have hd : (displayHashtag (String.mk (t.drop 1))).data = t := cons_drop_of_head hh
    rw [hd]
    exact ⟨(List.mem_filter.mp ht).1, hh, rfl⟩
  · intro ui url viral n rViews rLikes h
    rw [← h]; rfl

section LeftToUnlock

theorem countP_mem_of_nodup {α : Type} [DecidableEq α] (P U : List α) (hP : P.Nodup)
    (hU : U.Nodup) (hsub : ∀ a ∈ U, a ∈ P) : P.countP (fun p => decide (p ∈ U)) = U.length := by
  rw [List.countP_eq_length_filter]
  apply List.Perm.length_eq
  rw [List.perm_ext_iff_of_nodup (hP.filter _) hU]
  intro a
  rw [List.mem_filter]
  simp only [decide_eq_true_eq]
  exact ⟨fun h => h.2, fun h => ⟨hsub a h, h⟩⟩

end LeftToUnlock

/-- Counterexample to C16: with two unlocked records of the same name the
page shows 5, and six predefined achievements are locked. -/
theorem achievementsLeft_counterexample :
    ¬ (∀ unlocked : List Achievement, unlocked ≠ [] →
      achievementsLeft unlocked =
        ((predefinedAchievements.countP (fun p => !isAchievementUnlocked unlocked p) : Nat) : Int)) := by
  intro h
  have := h [duplicateRecord, duplicateRecord] (by simp)
  revert this
  decide

/-- C16, amended: for every non-empty list of unlocked records with pairwise
distinct names, all of them names of predefined achievements, the number
`predefinedAchievements.length - unlockedAchievements.length` is the count of
predefined achievements for which `isAchievementUnlocked` is false. -/
theorem achievementsLeft_locked_count (unlocked : List Achievement) (_hne : unlocked ≠ [])
    (hnd : (unlocked.map (fun a => a.name)).Nodup)
    (hsub : ∀ a ∈ unlocked, a.name ∈ predefinedAchievements.map (fun p => p.name)) :
    achievementsLeft unlocked =
      ((predefinedAchievements.countP (fun p => !isAchievementUnlocked unlocked p) : Nat) : Int) := by
  have hP : (predefinedAchievements.map (fun p => p.name)).Nodup := by decide
  have h1 := countP_mem_of_nodup (predefinedAchievements.map (fun p => p.name))
    (unlocked.map (fun a => a.name)) hP hnd
    (by intro n hn; obtain ⟨a, ha, rfl⟩ := List.mem_map.mp hn; exact hsub a ha)
  rw [List.countP_map, List.length_map] at h1
  have h2 : predefinedAchievements.countP (fun p => isAchievementUnlocked unlocked p)
      = unlocked.length := by
    rw [← h1]
    apply List.countP_congr
    intro p _
    simp only [Function.comp, isAchievementUnlocked, List.any_eq_true, beq_iff_eq,
      decide_eq_true_eq, List.mem_map]
  have h3 := List.length_eq_countP_add_countP (fun p => isAchievementUnlocked unlocked p)
    predefinedAchievements
  unfold achievementsLeft
  have h4 : predefinedAchievements.countP (fun p => !isAchievementUnlocked unlocked p)
      = predefinedAchievements.countP (fun p => ¬ isAchievementUnlocked unlocked p = true) := by
    apply List.countP_congr
    intro p _
    simp
  rw [h4]
  omega

section SheetLiteral

variable (u : User) (us : List User) (st : List UserStats) (vs : List Video)
  (ac : List Achievement) (cs : List Conversation) (ms : List Message) (ls : List Like)
  (cms : List Comment) (n : Nat)

theorem commentCreate_lit {υ : Type} (ui : υ) (vid content : String) (rt : Option String) :
    Comment.create vid content rt (⟨ui, ⟨some u, us, st, vs, ac, cs, ms, ls, cms, n, []⟩⟩ : World υ)
      = (some ⟨toString n, vid, content, rt, u.email⟩,
         ⟨ui, ⟨some u, us, st, vs, ac, cs, ms, ls,
           cms ++ [⟨toString n, vid, content, rt, u.email⟩], n + 1, []⟩⟩) := rfl

theorem commentFilter_lit {υ : Type} (ui : υ) (q : Comment → Bool) :
    Comment.filter q (⟨ui, ⟨some u, us, st, vs, ac, cs, ms, ls, cms, n, []⟩⟩ : World υ)
      = (some (cms.filter q).reverse, ⟨ui, ⟨some u, us, st, vs, ac, cs, ms, ls, cms, n, []⟩⟩) := rfl

theorem videoUpdate_lit {υ : Type} (ui : υ) (id : String) (p : VideoData → VideoData)
    (hex : vs.any (fun r => r.id == id) = true) :
    Video.update id p (⟨ui, ⟨some u, us, st, vs, ac, cs, ms, ls, cms, n, []⟩⟩ : World υ)
      = (some (), ⟨ui, ⟨some u, us, st,
          vs.map (fun r => if r.id == id then { r with toVideoData := p r.toVideoData } else r),
          ac, cs, ms, ls, cms, n, []⟩⟩) := by
  unfold Video.update
  simp only [Act.bind_eq, request, Act.get, hex, if_true, Act.modify]

/-- One post through the sheet on a store without failures: the comment is
stored and the count computed from the prop is written; the props stay. -/
theorem postRun_lit (x : User) (video : Video) (comments : List Comment) (t0 : String)
    (b : Bool) (p : SheetPost) (ht : jsTrim p.text ≠ "") (hid : video.id ≠ "")
    (hex : vs.any (fun r => r.id == video.id) = true) :
    (postRun p (⟨⟨some video, some x, comments, t0, b⟩,
        ⟨some u, us, st, vs, ac, cs, ms, ls, cms, n, []⟩⟩ : World CommentSheetUi)).db
      = ⟨some u, us, st, countWritten video vs, ac, cs, ms, ls,
          cms ++ [storedPost (toString n) video.id u.email p], n + 1, []⟩ ∧
    (postRun p (⟨⟨some video, some x, comments, t0, b⟩,
        ⟨some u, us, st, vs, ac, cs, ms, ls, cms, n, []⟩⟩ : World CommentSheetUi)).ui.video
      = some video ∧
    (postRun p (⟨⟨some video, some x, comments, t0, b⟩,
        ⟨some u, us, st, vs, ac, cs, ms, ls, cms, n, []⟩⟩ : World CommentSheetUi)).ui.user
      = some x := by
  have hid2 : (video.id != "") = true := by simpa using hid
  cases p with
  | comment t =>
    have ht2 : ¬ jsTrim t = "" := ht
    unfold postRun handlePostComment
    simp only [Act.bind_eq, Act.andThen, Act.get, ht2, false_or, reduceCtorEq, if_false, setSheet, Act.modify,
      Act.tryFinally, commentCreate_lit, loadComments, hid2, if_true, commentFilter_lit,
      bumpCommentCount, videoUpdate_lit _ _ _ _ _ _ _ _ _ _ _ _ _ hex]
    exact ⟨rfl, trivial, trivial⟩
  | reply parent t =>
    have ht2 : ¬ jsTrim t = "" := ht
    unfold postRun handleReply
    simp only [Act.bind_eq, Act.andThen, Act.get, ht2, or_false, reduceCtorEq, if_false, setSheet, Act.modify,
      Act.tryCatch, commentCreate_lit, loadComments, hid2, if_true, commentFilter_lit,
      bumpCommentCount, videoUpdate_lit _ _ _ _ _ _ _ _ _ _ _ _ _ hex]
    exact ⟨rfl, trivial, trivial⟩

theorem countWritten_idem (video : Video) :
    countWritten video (countWritten video vs) = countWritten video vs := by
  unfold countWritten
  rw [List.map_map]
  apply List.map_congr_left
  intro r _
  simp only [Function.comp]
  by_cases h : (r.id == video.id) = true
  · simp [h]
  · simp [h]

theorem any_countWritten (video : Video) :
    (countWritten video vs).any (fun r => r.id == video.id) = vs.any (fun r => r.id == video.id) := by
  unfold countWritten
  rw [List.any_map]
  congr 1
  funext r
  simp only [Function.comp]
  split <;> rfl

theorem mem_countWritten (video : Video) (r : Video) (hr : r ∈ countWritten video vs)
    (hid : r.id = video.id) : r.comment_count = some (jsOr video.comment_count 0 + 1) := by
  unfold countWritten at hr
  obtain ⟨r0, _, rfl⟩ := List.mem_map.mp hr
  by_cases h : (r0.id == video.id) = true
  · simp [h]
  · rw [if_neg h] at hid
    exact absurd (by simpa using hid) h

/-- A series of posts through one sheet on a store without failures. -/
theorem postRuns_lit (x : User) (video : Video) (posts : List SheetPost)
    (ht : ∀ p ∈ posts, jsTrim p.text ≠ "") (hid : video.id ≠ "") (hne : posts ≠ []) :
    ∀ (vs : List Video) (cms : List Comment) (n : Nat) (comments : List Comment) (t0 : String)
      (b : Bool), vs.any (fun r => r.id == video.id) = true →
    (postRuns posts (⟨⟨some video, some x, comments, t0, b⟩,
        ⟨some u, us, st, vs, ac, cs, ms, ls, cms, n, []⟩⟩ : World CommentSheetUi)).db
      = ⟨some u, us, st, countWritten video vs, ac, cs, ms, ls,
          cms ++ storedPosts n video.id u.email posts, n + posts.length, []⟩ := by
  induction posts with
  | nil => exact absurd rfl hne
  | cons p rest ih =>
    intro vs cms n comments t0 b hex
    have hp := postRun_lit u us st vs ac cs ms ls cms n x video comments t0 b p
      (ht p (List.mem_cons_self _ _)) hid hex
    obtain ⟨hdb, hv, hx⟩ := hp
    rcases hw : postRun p (⟨⟨some video, some x, comments, t0, b⟩,
        ⟨some u, us, st, vs, ac, cs, ms, ls, cms, n, []⟩⟩ : World CommentSheetUi)
      with ⟨⟨v1, x1, comments1, t1, b1⟩, db1⟩
    rw [hw] at hdb hv hx
    simp only at hdb hv hx
    subst hdb hv hx
    show (postRuns rest (postRun p _)).db = _
    rw [hw]
    rcases rest with _ | ⟨q, rest⟩
    · simp [postRuns, storedPosts]
    · rw [ih (fun p hp => ht p (List.mem_cons_of_mem _ hp)) (by simp) _ _ _ _ _ _
        (by rw [any_countWritten]; exact hex), countWritten_idem]
      simp [storedPosts]
      omega

end SheetLiteral

/-- C13: two or more posts through one open comment sheet leave the stored
`comment_count` at the count of the prop `video` plus one.  On a store where
no call fails, with a signed-in user and a sheet opened on a stored video
whose stored count is that of the prop, every post of a series of `k` posts
with non-blank texts stores its comment, and after the series the stored
count is `(video.comment_count || 0) + 1`, which differs from the original
count plus `k` as soon as `k` is at least two. -/
theorem postRuns_comment_count (w : World CommentSheetUi) (u x : User) (video : Video)
    (posts : List SheetPost)
    (hf : w.db.faults = []) (hu : w.db.currentUser = some u) (hx : w.ui.user = some x)
    (hv : w.ui.video = some video) (hid : video.id ≠ "")
    (hex : ∃ r ∈ w.db.videos, r.id = video.id)
    (_hcount : ∀ r ∈ w.db.videos, r.id = video.id → r.comment_count = video.comment_count)
    (ht : ∀ p ∈ posts, jsTrim p.text ≠ "") (hne : posts ≠ []) :
    (postRuns posts w).db.comments
      = w.db.comments ++ storedPosts w.db.nextId video.id u.email posts ∧
    (postRuns posts w).db.videos = countWritten video w.db.videos ∧
    (∃ r ∈ (postRuns posts w).db.videos, r.id = video.id) ∧
    (∀ r ∈ (postRuns posts w).db.videos, r.id = video.id →
      r.comment_count = some (jsOr video.comment_count 0 + 1)) ∧
    (2 ≤ posts.length → ∀ r ∈ (postRuns posts w).db.videos, r.id = video.id →
      r.comment_count ≠ some (jsOr video.comment_count 0 + (posts.length : Int))) := by
  obtain ⟨⟨v0, x0, comments, t0, b⟩, ⟨cu, us, st, vs, ac, cs, ms, ls, cms, n, fs⟩⟩ := w
  simp only at hf hu hx hv hex
  subst hf hu hx hv
  have hany : vs.any (fun r => r.id == video.id) = true := by
    obtain ⟨r, hr, hrid⟩ := hex
    exact List.any_eq_true.mpr ⟨r, hr, by simpa using hrid⟩
  have hdb := postRuns_lit u us st ac cs ms ls x video posts ht hid hne vs cms n comments t0 b hany
  have hall : ∀ r ∈ (postRuns posts (⟨⟨some video, some x, comments, t0, b⟩,
        ⟨some u, us, st, vs, ac, cs, ms, ls, cms, n, []⟩⟩ : World CommentSheetUi)).db.videos,
      r.id = video.id → r.comment_count = some (jsOr video.comment_count 0 + 1) := by
    intro r hr hrid
    rw [hdb] at hr
    exact mem_countWritten vs video r hr hrid
  refine ⟨by rw [hdb], by rw [hdb], ?_, hall, ?_⟩
  · rw [hdb]
    have := any_countWritten vs video
    rw [hany] at this
    obtain ⟨r, hr, hrid⟩ := List.any_eq_true.mp this
    exact ⟨r, hr, by simpa using hrid⟩
  · intro h2 r hr hrid hc
    rw [hall r hr hrid] at hc
    have := Option.some.inj hc
    omega

section LikedMap

theorem mapGet_nil (k : String) : mapGet [] k = none := rfl

theorem mapGet_cons (e : String × String) (m : List (String × String)) (k : String) :
    mapGet (e :: m) k = if e.1 = k then some e.2 else mapGet m k := by
  unfold mapGet
  by_cases h : e.1 = k
  · simp [List.find?, h]
  · have hb : (e.1 == k) = false := by simpa using h
    simp [List.find?, hb, h]

theorem mapHas_iff (m : List (String × String)) (k : String) :
    mapHas m k = true ↔ ∃ i, mapGet m k = some i := by
  induction m with
  | nil => simp [mapHas, mapGet_nil]
  | cons e m ih =>
    rw [mapGet_cons]
    unfold mapHas at ih ⊢
    rw [List.any_cons, Bool.or_eq_true, ih]
    by_cases h : e.1 = k
    · simp [h]
    · simp [h]

theorem mapHas_false_iff (m : List (String × String)) (k : String) :
    mapHas m k = false ↔ mapGet m k = none := by
  rw [← Bool.not_eq_true, mapHas_iff]
  constructor
  · intro h
    cases hg : mapGet m k with
    | none => rfl
    | some i => exact absurd ⟨i, hg⟩ h
  · rintro h ⟨i, hi⟩
    rw [h] at hi
    exact Option.noConfusion hi

theorem mapGet_map_replace (m : List (String × String)) (k v k1 : String) :
    mapGet (m.map (fun e => if e.1 == k then (k, v) else e)) k1
      = if k1 = k then (if mapHas m k = true then some v else none) else mapGet m k1 := by
  induction m with
  | nil => simp [mapGet_nil, mapHas]
  | cons e m ih =>
    rw [List.map_cons, mapGet_cons, ih, mapGet_cons]
    unfold mapHas
    rw [List.any_cons]
    by_cases hk : k1 = k
    · subst hk
      by_cases he : e.1 = k1
      · simp [he]
      · have hb : (e.1 == k1) = false := by simpa using he
        simp [he]
        rw [hb, Bool.false_or]
    · have hk2 : ¬ k = k1 := fun h => hk h.symm
      by_cases he : e.1 = k
      · have he1 : ¬ e.1 = k1 := fun h => hk (h.symm.trans he)
        simp [he, hk, hk2, he1]
      · simp [he, hk]

theorem mapGet_append_one (m : List (String × String)) (k v k1 : String) :
    mapGet (m ++ [(k, v)]) k1
      = match mapGet m k1 with
        | some i => some i
        | none => if k1 = k then some v else none := by
  induction m with
  | nil =>
    rw [List.nil_append, mapGet_cons, mapGet_nil]
    by_cases hk : k = k1
    · simp [hk]
    · have hk2 : ¬ k1 = k := fun h => hk h.symm
      simp [hk, hk2]
  | cons e m ih =>
    rw [List.cons_append, mapGet_cons, mapGet_cons, ih]
    by_cases he : e.1 = k1
    · simp [he]
    · simp [he]

theorem mapGet_mapSet (m : List (String × String)) (k v k1 : String) :
    mapGet (mapSet m k v) k1 = if k1 = k then some v else mapGet m k1 := by
  unfold mapSet
  by_cases h : mapHas m k = true
  · rw [if_pos h, mapGet_map_replace, if_pos h]
  · rw [if_neg h, mapGet_append_one]
    have hn : mapGet m k = none := (mapHas_false_iff m k).mp (by simpa using h)
    by_cases hk : k1 = k
    · subst hk
      rw [hn, if_pos rfl]
    · rw [if_neg hk]
      cases mapGet m k1 <;> simp [hk]

theorem mapGet_mapDelete (m : List (String × String)) (k k1 : String) :
    mapGet (mapDelete m k) k1 = if k1 = k then none else mapGet m k1 := by
  induction m with
  | nil => simp [mapDelete, mapGet_nil]
  | cons e m ih =>
    unfold mapDelete at ih ⊢
    rw [List.filter_cons]
    by_cases he : e.1 = k
    · have : (e.1 != k) = false := by simp [he]
      rw [this]
      simp only [Bool.false_eq_true, if_false]
      rw [ih, mapGet_cons]
      by_cases hk : k1 = k
      · simp [hk]
      · have he1 : ¬ e.1 = k1 := fun h => hk (h.symm.trans he)
        simp [hk, he1]
    · have : (e.1 != k) = true := by simp [he]
      rw [this]
      simp only [if_true]
      rw [mapGet_cons, ih, mapGet_cons]
      by_cases hk : k1 = k
      · have he1 : ¬ e.1 = k1 := fun h => he (h.trans hk)
        simp [hk, he1]
        exact he
      · simp [hk]

end LikedMap

section FeedLiteral

variable (u : User) (us : List User) (st : List UserStats) (vs : List Video)
  (ac : List Achievement) (cs : List Conversation) (ms : List Message) (ls : List Like)
  (cms : List Comment) (n : Nat)

theorem videoList_lit {υ : Type} (ui : υ) :
    Video.list (⟨ui, ⟨some u, us, st, vs, ac, cs, ms, ls, cms, n, []⟩⟩ : World υ)
      = (some (vs.reverse.take 50), ⟨ui, ⟨some u, us, st, vs, ac, cs, ms, ls, cms, n, []⟩⟩) := rfl

theorem likeFilter_lit {υ : Type} (ui : υ) (q : Like → Bool) :
    Like.filter q (⟨ui, ⟨some u, us, st, vs, ac, cs, ms, ls, cms, n, []⟩⟩ : World υ)
      = (some (ls.filter q), ⟨ui, ⟨some u, us, st, vs, ac, cs, ms, ls, cms, n, []⟩⟩) := rfl

theorem likeCreate_lit {υ : Type} (ui : υ) (vid : String) :
    Like.create vid (⟨ui, ⟨some u, us, st, vs, ac, cs, ms, ls, cms, n, []⟩⟩ : World υ)
      = (some ⟨toString n, vid, u.email⟩,
         ⟨ui, ⟨some u, us, st, vs, ac, cs, ms, ls ++ [⟨toString n, vid, u.email⟩], cms, n + 1,
           []⟩⟩) := rfl

theorem likeDelete_lit {υ : Type} (ui : υ) (id : String)
    (hex : ls.any (fun r => r.id == id) = true) :
    Like.delete id (⟨ui, ⟨some u, us, st, vs, ac, cs, ms, ls, cms, n, []⟩⟩ : World υ)
      = (some (), ⟨ui, ⟨some u, us, st, vs, ac, cs, ms, ls.filter (fun r => r.id != id), cms, n,
          []⟩⟩) := by
  unfold Like.delete
  simp only [Act.bind_eq, request, Act.get, hex, if_true, Act.modify]

/-- The page after `loadData` on a store without failures. -/
theorem loadData_lit (ui : FeedUi) :
    loadData (⟨ui, ⟨some u, us, st, vs, ac, cs, ms, ls, cms, n, []⟩⟩ : World FeedUi)
      = (some (), ⟨{ ui with
            videos := vs.reverse.take 50
            user := some u
            likedVideos :=
              if (vs.reverse.take 50).length > 0 then
                likedMapOf (ls.filter (fun l =>
                  ((vs.reverse.take 50).map (fun v => v.id)).contains l.video_id
                    && l.created_by == u.email))
              else ui.likedVideos },
          ⟨some u, us, st, vs, ac, cs, ms, ls, cms, n, []⟩⟩) := by
  unfold loadData
  simp only [Act.bind_eq, Act.andThen, videoList_lit, setFeed, Act.modify, Act.tryCatch,
    userMe_lit]
  by_cases h : (vs.reverse.take 50).length > 0
  · simp only [h, if_true, Act.bind_eq, likeFilter_lit, Act.modify]
  · simp only [h, if_false, Act.pure_eq]

/-- The handler `handleLike` on a video that is not in the liked map. -/
theorem handleLike_lit_like (videos : List Video) (idx : Nat) (x : User) (pl mu : Bool)
    (m : List (String × String)) (sc : Bool) (av : Option Video) (ss : Bool) (t : Video)
    (hm : mapGet m t.id = none) :
    handleLike t (⟨⟨videos, idx, some x, pl, mu, m, sc, av, ss⟩,
        ⟨some u, us, st, vs, ac, cs, ms, ls, cms, n, []⟩⟩ : World FeedUi)
      = (some (), ⟨⟨optimisticLike false t videos, idx, some x, pl, mu,
            mapSet m t.id (toString n), sc, av, ss⟩,
          ⟨some u, us, st, vs, ac, cs, ms, ls ++ [⟨toString n, t.id, u.email⟩], cms, n + 1,
            []⟩⟩) := by
  have hh : mapHas m t.id = false := (mapHas_false_iff m t.id).mpr hm
  unfold handleLike
  simp only [Act.bind_eq, Act.andThen, Act.get, setFeed, Act.modify, hh, Bool.false_eq_true,
    if_false, likeCreate_lit]

/-- The handler `handleLike` on a video that is in the liked map. -/
theorem handleLike_lit_unlike (videos : List Video) (idx : Nat) (x : User) (pl mu : Bool)
    (m : List (String × String)) (sc : Bool) (av : Option Video) (ss : Bool) (t : Video)
    (i : String) (hm : mapGet m t.id = some i) (hex : ls.any (fun r => r.id == i) = true) :
    handleLike t (⟨⟨videos, idx, some x, pl, mu, m, sc, av, ss⟩,
        ⟨some u, us, st, vs, ac, cs, ms, ls, cms, n, []⟩⟩ : World FeedUi)
      = (some (), ⟨⟨optimisticLike true t videos, idx, some x, pl, mu,
            mapDelete m t.id, sc, av, ss⟩,
          ⟨some u, us, st, vs, ac, cs, ms, ls.filter (fun r => r.id != i), cms, n, []⟩⟩) := by
  have hh : mapHas m t.id = true := (mapHas_iff m t.id).mpr ⟨i, hm⟩
  unfold handleLike
  simp only [Act.bind_eq, Act.andThen, Act.get, setFeed, Act.modify, hh, if_true, hm,
    likeDelete_lit _ _ _ _ _ _ _ _ _ _ _ _ hex]

end FeedLiteral

section FeedInvariant

theorem optimisticLike_ids (isLiked : Bool) (video : Video) (prev : List Video) :
    (optimisticLike isLiked video prev).map (fun v => v.id) = prev.map (fun v => v.id) := by
  unfold optimisticLike
  rw [List.map_map]
  apply List.map_congr_left
  intro v _
  simp only [Function.comp]
  split <;> rfl

/-- The map `loadData` builds sends a video id to the id of the like of that
video, when the likes have at most one like per video. -/
theorem mapGet_foldl_mapSet (userLikes : List Like) :
    ∀ (m : List (String × String)) (vid i : String),
      (∀ l1 ∈ userLikes, ∀ l2 ∈ userLikes, l1.video_id = l2.video_id → l1.id = l2.id) →
      (mapGet (userLikes.foldl (fun likedMap like => mapSet likedMap like.video_id like.id) m) vid
          = some i ↔
        (∃ l ∈ userLikes, l.video_id = vid ∧ l.id = i) ∨
          ((∀ l ∈ userLikes, l.video_id ≠ vid) ∧ mapGet m vid = some i)) := by
  induction userLikes with
  | nil => intro m vid i _; simp
  | cons l rest ih =>
    intro m vid i huniq
    rw [List.foldl_cons, ih (mapSet m l.video_id l.id) vid i
      (fun a ha b hb => huniq a (List.mem_cons_of_mem _ ha) b (List.mem_cons_of_mem _ hb)),
      mapGet_mapSet]
    constructor
    · rintro (⟨l1, hl1, hv, hi⟩ | ⟨hall, hg⟩)
      · exact Or.inl ⟨l1, List.mem_cons_of_mem _ hl1, hv, hi⟩
      · by_cases hk : vid = l.video_id
        · rw [if_pos hk] at hg
          exact Or.inl ⟨l, List.mem_cons_self _ _, hk.symm, Option.some.inj hg⟩
        · rw [if_neg hk] at hg
          refine Or.inr ⟨fun a ha => ?_, hg⟩
          rcases List.mem_cons.mp ha with rfl | ha
          · exact fun h => hk h.symm
          · exact hall a ha
    · rintro (⟨l1, hl1, hv, hi⟩ | ⟨hall, hg⟩)
      · rcases List.mem_cons.mp hl1 with rfl | hl1
        · by_cases hex : ∃ l2 ∈ rest, l2.video_id = vid
          · obtain ⟨l2, hl2, hv2⟩ := hex
            refine Or.inl ⟨l2, hl2, hv2, ?_⟩
            rw [← hi]
            exact huniq l2 (List.mem_cons_of_mem _ hl2) l1 (List.mem_cons_self _ _)
              (hv2.trans hv.symm)
          · refine Or.inr ⟨fun a ha h => hex ⟨a, ha, h⟩, ?_⟩
            rw [if_pos hv.symm, hi]
        · exact Or.inl ⟨l1, hl1, hv, hi⟩
      · have hk : ¬ vid = l.video_id := fun h => hall l (List.mem_cons_self _ _) h.symm
        refine Or.inr ⟨fun a ha => hall a (List.mem_cons_of_mem _ ha), ?_⟩
        rw [if_neg hk]
        exact hg

theorem mapGet_likedMapOf (userLikes : List Like) (vid i : String)
    (huniq : ∀ l1 ∈ userLikes, ∀ l2 ∈ userLikes, l1.video_id = l2.video_id → l1.id = l2.id) :
    mapGet (likedMapOf userLikes) vid = some i ↔
      ∃ l ∈ userLikes, l.video_id = vid ∧ l.id = i := by
  unfold likedMapOf
  rw [mapGet_foldl_mapSet userLikes [] vid i huniq]
  constructor
  · rintro (h | ⟨_, hg⟩)
    · exact h
    · rw [mapGet_nil] at hg
      exact Option.noConfusion hg
  · exact Or.inl

/-- After `loadData` the liked map agrees with the store. -/
theorem loadData_inv (w : World FeedUi) (u : User) (hf : w.db.faults = [])
    (hu : w.db.currentUser = some u) (hok : LikeStoreOk u.email w.db.likes w.db.nextId) :
    (loadData w).1 = some () ∧
    FeedInv u ((w.db.videos.reverse.take 50).map (fun v => v.id)) (loadData w).2 := by
  obtain ⟨ui, ⟨cu, us, st, vs, ac, cs, ms, ls, cms, n, fs⟩⟩ := w
  simp only at hf hu hok
  subst hf hu
  rw [loadData_lit]
  refine ⟨rfl, rfl, rfl, ⟨u, rfl⟩, rfl, hok, ?_⟩
  intro vid hvid i
  simp only
  have hpos : (vs.reverse.take 50).length > 0 := by
    rcases hl : vs.reverse.take 50 with _ | ⟨a, as⟩
    · rw [hl] at hvid; simp at hvid
    · simp
  rw [if_pos hpos, mapGet_likedMapOf]
  · constructor
    · rintro ⟨l, hl, hv, hi⟩
      rw [List.mem_filter] at hl
      obtain ⟨hl, hq⟩ := hl
      simp only [Bool.and_eq_true, beq_iff_eq] at hq
      exact ⟨l, hl, hq.2, hv, hi⟩
    · rintro ⟨l, hl, he, hv, hi⟩
      refine ⟨l, ?_, hv, hi⟩
      rw [List.mem_filter]
      refine ⟨hl, ?_⟩
      simp only [Bool.and_eq_true, beq_iff_eq]
      refine ⟨?_, he⟩
      rw [hv]
      exact List.elem_eq_true_of_mem hvid
  · intro l1 hl1 l2 hl2 hv
    rw [List.mem_filter] at hl1 hl2
    simp only [Bool.and_eq_true, beq_iff_eq] at hl1 hl2
    exact hok.2.2 l1 hl1.1 l2 hl2.1 hl1.2.2 hl2.2.2 hv

/-- A press of the like button on a shown video returns normally and keeps
the liked map in agreement with the store. -/
theorem handleLike_inv (u : User) (ids : List String) (w : World FeedUi) (t : Video)
    (hinv : FeedInv u ids w) (ht : t.id ∈ ids) :
    (handleLike t w).1 = some () ∧ FeedInv u ids (handleLike t w).2 := by
  obtain ⟨⟨videos, idx, ux, pl, mu, m, sc, av, ss⟩, ⟨cu, us, st, vs, ac, cs, ms, ls, cms, n, fs⟩⟩ := w
  obtain ⟨hf, hu, ⟨x, hx⟩, hvid, ⟨hnd, hfresh, hone⟩, hag⟩ := hinv
  simp only at hf hu hx hvid hnd hfresh hone hag
  subst hf hu hx
  rcases hm : mapGet m t.id with _ | i
  · rw [handleLike_lit_like _ _ _ _ _ _ _ _ _ _ _ _ _ _ _ _ _ _ _ _ hm]
    have hnone : ∀ l ∈ ls, l.created_by = u.email → l.video_id = t.id → False := by
      intro l hl he hv
      have := (hag t.id ht l.id).mpr ⟨l, hl, he, hv, rfl⟩
      rw [hm] at this
      exact Option.noConfusion this
    refine ⟨rfl, rfl, rfl, ⟨x, rfl⟩, ?_, ⟨?_, ?_, ?_⟩, ?_⟩
    · show (optimisticLike false t videos).map (fun v => v.id) = ids
      rw [optimisticLike_ids, hvid]
    · show ((ls ++ [(⟨toString n, t.id, u.email⟩ : Like)]).map (fun l => l.id)).Nodup
      rw [List.map_append, List.nodup_append]
      refine ⟨hnd, by simp, ?_⟩
      intro a ha hb
      simp only [List.map_cons, List.map_nil, List.mem_singleton] at hb
      obtain ⟨l, hl, rfl⟩ := List.mem_map.mp ha
      exact hfresh l hl n (le_refl _) hb
    · intro l hl k hk
      show l.id ≠ toString k
      rcases List.mem_append.mp hl with hl | hl
      · exact hfresh l hl k (by have : n + 1 ≤ k := hk; omega)
      · simp only [List.mem_singleton] at hl
        subst hl
        intro h
        have := toString_nat_injective n k h
        have : n + 1 ≤ k := hk
        omega
    · intro l1 hl1 l2 hl2 h1 h2 hv
      rcases List.mem_append.mp hl1 with hl1 | hl1
      · rcases List.mem_append.mp hl2 with hl2 | hl2
        · exact hone l1 hl1 l2 hl2 h1 h2 hv
        · simp only [List.mem_singleton] at hl2
          subst hl2
          exact absurd (hnone l1 hl1 h1 hv) id
      · simp only [List.mem_singleton] at hl1
        subst hl1
        rcases List.mem_append.mp hl2 with hl2 | hl2
        · exact absurd (hnone l2 hl2 h2 hv.symm) id
        · simp only [List.mem_singleton] at hl2
          subst hl2
          rfl
    · intro vid hv i
      show mapGet (mapSet m t.id (toString n)) vid = some i ↔
        ∃ l ∈ ls ++ [(⟨toString n, t.id, u.email⟩ : Like)], l.created_by = u.email ∧ l.video_id = vid ∧ l.id = i
      rw [mapGet_mapSet]
      by_cases hk : vid = t.id
      · subst hk
        rw [if_pos rfl]
        constructor
        · intro h
          exact ⟨⟨toString n, t.id, u.email⟩, List.mem_append_right _ (List.mem_singleton.mpr rfl),
            rfl, rfl, Option.some.inj h⟩
        · rintro ⟨l, hl, he, hlv, hi⟩
          rcases List.mem_append.mp hl with hl | hl
          · exact absurd (hnone l hl he hlv) id
          · simp only [List.mem_singleton] at hl
            subst hl
            rw [← hi]
      · rw [if_neg hk, hag vid hv i]
        constructor
        · rintro ⟨l, hl, h⟩
          exact ⟨l, List.mem_append_left _ hl, h⟩
        · rintro ⟨l, hl, he, hlv, hi⟩
          rcases List.mem_append.mp hl with hl | hl
          · exact ⟨l, hl, he, hlv, hi⟩
          · simp only [List.mem_singleton] at hl
            subst hl
            exact absurd hlv.symm hk
  · obtain ⟨l0, hl0, he0, hv0, hi0⟩ := (hag t.id ht i).mp hm
    have hex : ls.any (fun r => r.id == i) = true :=
      List.any_eq_true.mpr ⟨l0, hl0, by simpa using hi0⟩
    rw [handleLike_lit_unlike _ _ _ _ _ _ _ _ _ _ _ _ _ _ _ _ _ _ _ _ i hm hex]
    have hmem : ∀ l, l ∈ ls.filter (fun r => r.id != i) ↔ l ∈ ls ∧ l.id ≠ i := by
      intro l
      rw [List.mem_filter]
      simp
    refine ⟨rfl, rfl, rfl, ⟨x, rfl⟩, ?_, ⟨?_, ?_, ?_⟩, ?_⟩
    · show (optimisticLike true t videos).map (fun v => v.id) = ids
      rw [optimisticLike_ids, hvid]
    · show ((ls.filter (fun r => r.id != i)).map (fun l => l.id)).Nodup
      exact List.Nodup.sublist (List.Sublist.map _ (List.filter_sublist _)) hnd
    · intro l hl k hk
      exact hfresh l ((hmem l).mp hl).1 k hk
    · intro l1 hl1 l2 hl2 h1 h2 hv
      exact hone l1 ((hmem l1).mp hl1).1 l2 ((hmem l2).mp hl2).1 h1 h2 hv
    · intro vid hv j
      show mapGet (mapDelete m t.id) vid = some j ↔
        ∃ l ∈ ls.filter (fun r => r.id != i), l.created_by = u.email ∧ l.video_id = vid ∧ l.id = j
      rw [mapGet_mapDelete]
      by_cases hk : vid = t.id
      · subst hk
        rw [if_pos rfl]
        constructor
        · intro h; exact Option.noConfusion h
        · rintro ⟨l, hl, he, hlv, _⟩
          obtain ⟨hl, hne⟩ := (hmem l).mp hl
          exact absurd ((hone l hl l0 hl0 he he0 (hlv.trans hv0.symm)).trans hi0) hne
      · rw [if_neg hk, hag vid hv j]
        constructor
        · rintro ⟨l, hl, he, hlv, hi⟩
          refine ⟨l, (hmem l).mpr ⟨hl, fun hli => ?_⟩, he, hlv, hi⟩
          have hsame : l = l0 :=
            List.inj_on_of_nodup_map hnd hl hl0 (hli.trans hi0.symm)
          exact hk (by rw [← hlv, hsame, hv0])
        · rintro ⟨l, hl, h⟩
          exact ⟨l, ((hmem l).mp hl).1, h⟩

theorem likeRuns_append (pre rest : List Video) :
    ∀ w : World FeedUi, likeRuns (pre ++ rest) w = likeRuns rest (likeRuns pre w) := by
  induction pre with
  | nil => intro w; rfl
  | cons t pre ih => intro w; exact ih _

theorem likeRuns_inv (u : User) (ids : List String) (targets : List Video) :
    ∀ w : World FeedUi, FeedInv u ids w → (∀ t ∈ targets, t.id ∈ ids) →
      FeedInv u ids (likeRuns targets w) := by
  induction targets with
  | nil => intro w h _; exact h
  | cons t rest ih =>
    intro w h ht
    exact ih _ (handleLike_inv u ids w t h (ht t (List.mem_cons_self _ _))).2
      (fun a ha => ht a (List.mem_cons_of_mem _ ha))

end FeedInvariant

/-- C14: on a store where no call fails and the likes are well kept (distinct
record ids below the id counter, at most one like of the signed-in user per
video), after `loadData` and any series of presses of the like button on
shown videos, every call has returned normally, and for every shown video the
id is a key of `likedVideos` exactly when the store holds a like of the user
for the video, and the mapped value is the id of that like. -/
theorem feedSession_likedVideos (w : World FeedUi) (u : User) (targets : List Video)
    (hf : w.db.faults = []) (hu : w.db.currentUser = some u)
    (hids : (w.db.likes.map (fun l => l.id)).Nodup)
    (hfresh : ∀ l ∈ w.db.likes, ∀ k, w.db.nextId ≤ k → l.id ≠ toString k)
    (hone : ∀ l1 ∈ w.db.likes, ∀ l2 ∈ w.db.likes, l1.created_by = u.email →
      l2.created_by = u.email → l1.video_id = l2.video_id → l1.id = l2.id)
    (ht : ∀ t ∈ targets, ∃ v ∈ (loadData w).2.ui.videos, v.id = t.id) :
    (loadData w).1 = some () ∧
    (∀ pre t post, targets = pre ++ t :: post →
      (handleLike t (feedSession pre w)).1 = some ()) ∧
    (∀ v ∈ (feedSession targets w).ui.videos,
      (mapHas (feedSession targets w).ui.likedVideos v.id = true ↔
        ∃ l ∈ (feedSession targets w).db.likes, l.created_by = u.email ∧ l.video_id = v.id) ∧
      (∀ l ∈ (feedSession targets w).db.likes, l.created_by = u.email → l.video_id = v.id →
        mapGet (feedSession targets w).ui.likedVideos v.id = some l.id) ∧
      (∀ i, mapGet (feedSession targets w).ui.likedVideos v.id = some i →
        ∃ l ∈ (feedSession targets w).db.likes,
          l.created_by = u.email ∧ l.video_id = v.id ∧ l.id = i)) := by
  obtain ⟨hret, hinv⟩ := loadData_inv w u hf hu ⟨hids, hfresh, hone⟩
  have hids0 : (loadData w).2.ui.videos.map (fun v => v.id)
      = (w.db.videos.reverse.take 50).map (fun v => v.id) := hinv.2.2.2.1
  have htid : ∀ t ∈ targets, t.id ∈ (w.db.videos.reverse.take 50).map (fun v => v.id) := by
    intro t htm
    obtain ⟨v, hv, hvid⟩ := ht t htm
    rw [← hids0, ← hvid]
    exact List.mem_map.mpr ⟨v, hv, rfl⟩
  refine ⟨hret, ?_, ?_⟩
  · intro pre t post hsplit
    have hpre : FeedInv u _ (feedSession pre w) :=
      likeRuns_inv u _ pre _ hinv
        (fun a ha => htid a (by rw [hsplit]; exact List.mem_append_left _ ha))
    exact (handleLike_inv u _ _ t hpre
      (htid t (by rw [hsplit]; exact List.mem_append_right _ (List.mem_cons_self _ _)))).1
  · have hfin : FeedInv u _ (feedSession targets w) := likeRuns_inv u _ targets _ hinv htid
    obtain ⟨_, _, _, hvids, _, hag⟩ := hfin
    intro v hv
    have hvin : v.id ∈ (w.db.videos.reverse.take 50).map (fun v => v.id) := by
      rw [← hvids]
      exact List.mem_map.mpr ⟨v, hv, rfl⟩
    refine ⟨?_, ?_, ?_⟩
    · rw [mapHas_iff]
      constructor
      · rintro ⟨i, hi⟩
        obtain ⟨l, hl, he, hlv, _⟩ := (hag v.id hvin i).mp hi
        exact ⟨l, hl, he, hlv⟩
      · rintro ⟨l, hl, he, hlv⟩
        exact ⟨l.id, (hag v.id hvin l.id).mpr ⟨l, hl, he, hlv, rfl⟩⟩
    · intro l hl he hlv
      exact (hag v.id hvin l.id).mpr ⟨l, hl, he, hlv, rfl⟩
    · intro i hi
      exact (hag v.id hvin i).mp hi

section Progress

theorem floor_le_roundHalfEven (x : ℚ) : Int.floor x ≤ roundHalfEven x := by
  unfold roundHalfEven
  simp only
  split_ifs <;> omega

theorem roundHalfEven_le_floor_add_one (x : ℚ) : roundHalfEven x ≤ Int.floor x + 1 := by
  unfold roundHalfEven
  simp only
  split_ifs <;> omega

/-- Rounding to the nearest integer is monotone. -/
theorem roundHalfEven_mono {x y : ℚ} (h : x ≤ y) : roundHalfEven x ≤ roundHalfEven y := by
  have hf : Int.floor x ≤ Int.floor y := Int.floor_mono h
  rcases lt_or_eq_of_le hf with hlt | heq
  · have h1 := roundHalfEven_le_floor_add_one x
    have h2 := floor_le_roundHalfEven y
    omega
  · have hd : x - (Int.floor x : ℚ) ≤ y - (Int.floor x : ℚ) := by linarith
    unfold roundHalfEven
    simp only
    rw [← heq]
    split_ifs <;> first | omega | (exfalso; linarith)

theorem fl_zero : fl 0 = 0 := by
  unfold fl
  simp

theorem ulpExp_mono {x y : ℚ} (hx : 0 < x) (h : x ≤ y) : ulpExp x ≤ ulpExp y := by
  unfold ulpExp
  have := Int.log_mono_right (b := 2) hx h
  have : max (Int.log 2 x) (-1022) ≤ max (Int.log 2 y) (-1022) := max_le_max this (le_refl _)
  omega

theorem lt_zpow_ulpExp {x : ℚ} (_hx : 0 < x) : x < 2 ^ (ulpExp x + 53) := by
  have h1 : x < (2 : ℚ) ^ (Int.log 2 x + 1) := by
    have := Int.lt_zpow_succ_log_self (R := ℚ) (b := 2) (by norm_num) x
    simpa using this
  have h2 : Int.log 2 x + 1 ≤ ulpExp x + 53 := by
    unfold ulpExp
    have := le_max_left (Int.log 2 x) (-1022)
    omega
  exact lt_of_lt_of_le h1 (zpow_le_zpow_right₀ (by norm_num) h2)

/-- A positive value rounds to at most the upper end of its binade. -/
theorem fl_le_zpow {x : ℚ} (hx : 0 < x) : fl x ≤ 2 ^ (ulpExp x + 53) := by
  have hp : (0 : ℚ) < 2 ^ ulpExp x := zpow_pos (by norm_num) _
  have h1 : x / 2 ^ ulpExp x ≤ ((2 ^ 53 : ℤ) : ℚ) := by
    rw [div_le_iff₀ hp]
    have := lt_zpow_ulpExp hx
    rw [zpow_add₀ (by norm_num : (2 : ℚ) ≠ 0)] at this
    have e : ((2 ^ 53 : ℤ) : ℚ) = (2 : ℚ) ^ (53 : ℤ) := by norm_num
    rw [e, mul_comm]
    exact this.le
  have h2 := roundHalfEven_mono h1
  rw [roundHalfEven_intCast] at h2
  unfold fl
  rw [if_neg hx.ne', if_pos hx, zpow_add₀ (by norm_num : (2 : ℚ) ≠ 0), mul_comm ((2 : ℚ) ^ ulpExp x)]
  have h3 : ((roundHalfEven (x / 2 ^ ulpExp x) : ℤ) : ℚ) ≤ (2 : ℚ) ^ (53 : ℤ) := by
    have : ((roundHalfEven (x / 2 ^ ulpExp x) : ℤ) : ℚ) ≤ ((2 ^ 53 : ℤ) : ℚ) := by exact_mod_cast h2
    norm_num at this ⊢
    exact this
  exact mul_le_mul_of_nonneg_right h3 hp.le

/-- A normal value rounds to at least the lower end of its binade. -/
theorem zpow_le_fl {x : ℚ} (hx : 0 < x) (hn : -1022 ≤ Int.log 2 x) :
    (2 : ℚ) ^ (ulpExp x + 52) ≤ fl x := by
  have hp : (0 : ℚ) < 2 ^ ulpExp x := zpow_pos (by norm_num) _
  have hu : ulpExp x + 52 = Int.log 2 x := by
    unfold ulpExp
    rw [max_eq_left hn]
    omega
  have h0 : (2 : ℚ) ^ (ulpExp x + 52) ≤ x := by
    rw [hu]
    have := Int.zpow_log_le_self (R := ℚ) (b := 2) (by norm_num) hx
    simpa using this
  have h1 : ((2 ^ 52 : ℤ) : ℚ) ≤ x / 2 ^ ulpExp x := by
    rw [le_div_iff₀ hp]
    rw [zpow_add₀ (by norm_num : (2 : ℚ) ≠ 0)] at h0
    have e : ((2 ^ 52 : ℤ) : ℚ) = (2 : ℚ) ^ (52 : ℤ) := by norm_num
    rw [e, mul_comm]
    exact h0
  have h2 := roundHalfEven_mono h1
  rw [roundHalfEven_intCast] at h2
  unfold fl
  rw [if_neg hx.ne', if_pos hx, zpow_add₀ (by norm_num : (2 : ℚ) ≠ 0), mul_comm ((2 : ℚ) ^ ulpExp x)]
  have h3 : (2 : ℚ) ^ (52 : ℤ) ≤ ((roundHalfEven (x / 2 ^ ulpExp x) : ℤ) : ℚ) := by
    have : ((2 ^ 52 : ℤ) : ℚ) ≤ ((roundHalfEven (x / 2 ^ ulpExp x) : ℤ) : ℚ) := by exact_mod_cast h2
    norm_num at this ⊢
    exact this
  exact mul_le_mul_of_nonneg_right h3 hp.le

/-- Rounding to binary64 is monotone on the non-negative numbers. -/
theorem fl_mono {x y : ℚ} (hx : 0 ≤ x) (h : x ≤ y) : fl x ≤ fl y := by
  rcases eq_or_lt_of_le hx with h0 | hpos
  · rw [← h0, fl_zero]
    exact fl_nonneg (le_trans hx h)
  · have hy : 0 < y := lt_of_lt_of_le hpos h
    have he := ulpExp_mono hpos h
    rcases eq_or_lt_of_le he with heq | hlt
    · have hp : (0 : ℚ) < 2 ^ ulpExp y := zpow_pos (by norm_num) _
      unfold fl
      rw [if_neg hpos.ne', if_pos hpos, if_neg hy.ne', if_pos hy, heq]
      have : x / 2 ^ ulpExp y ≤ y / 2 ^ ulpExp y := div_le_div_of_nonneg_right h hp.le
      have := roundHalfEven_mono this
      exact mul_le_mul_of_nonneg_right (by exact_mod_cast this) hp.le
    · have hny : -1022 ≤ Int.log 2 y := by
        by_contra hc
        have h1 : ulpExp y = -1074 := by
          unfold ulpExp
          rw [max_eq_right (by omega)]
          norm_num
        have h2 : -1074 ≤ ulpExp x := by
          unfold ulpExp
          have := le_max_right (Int.log 2 x) (-1022)
          omega
        omega
      calc fl x ≤ 2 ^ (ulpExp x + 53) := fl_le_zpow hpos
        _ ≤ 2 ^ (ulpExp y + 52) := zpow_le_zpow_right₀ (by norm_num) (by omega)
        _ ≤ fl y := zpow_le_fl hy hny

theorem zpow_ulpExp_le {x : ℚ} (hx : 0 < x) (hn : -1022 ≤ Int.log 2 x) :
    (2 : ℚ) ^ (ulpExp x + 52) ≤ x := by
  have hu : ulpExp x + 52 = Int.log 2 x := by
    unfold ulpExp
    rw [max_eq_left hn]
    omega
  rw [hu]
  have := Int.zpow_log_le_self (R := ℚ) (b := 2) (by norm_num) hx
  simpa using this

/-- A positive binary64 number is a whole multiple of its unit in the last
place. -/
theorem binary64_multiple {r : ℚ} (hb : isBinary64 r) (hr : 0 < r) :
    ∃ m : ℤ, r = (m : ℚ) * 2 ^ ulpExp r := by
  unfold isBinary64 fl at hb
  rw [if_neg hr.ne', if_pos hr] at hb
  exact ⟨_, hb.symm⟩

theorem zpow_eq_int_mul (a b : ℤ) (h : a ≤ b) : ∃ c : ℤ, (2 : ℚ) ^ b = (c : ℚ) * 2 ^ a := by
  refine ⟨2 ^ (b - a).toNat, ?_⟩
  have hb : b = ((b - a).toNat : ℤ) + a := by
    rw [Int.toNat_of_nonneg (by omega)]
    omega
  conv_lhs => rw [hb]
  rw [zpow_add₀ (by norm_num : (2 : ℚ) ≠ 0), zpow_natCast]
  push_cast
  rfl

/-- Two multiples of the same unit differ by at least the unit. -/
theorem multiple_gap {x y A : ℚ} (hA : 0 < A) (mx my : ℤ) (hx : x = (mx : ℚ) * A)
    (hy : y = (my : ℚ) * A) (h : x < y) : x + A ≤ y := by
  have hlt : mx < my := by
    by_contra hc
    have : (my : ℚ) ≤ mx := by exact_mod_cast (not_lt.mp hc)
    have := mul_le_mul_of_nonneg_right this hA.le
    linarith
  have : (mx : ℚ) + 1 ≤ my := by exact_mod_cast hlt
  have := mul_le_mul_of_nonneg_right this hA.le
  linarith

/-- The quotient of a binary64 number by a larger one is at most the largest
binary64 number below 1. -/
theorem binary64_div_lt_one {s r : ℚ} (hs : isBinary64 s) (hr : isBinary64 r) (h0 : 0 ≤ s)
    (hsr : s < r) : s / r ≤ 1 - 2 ^ (-53 : ℤ) := by
  have e53 : (2 : ℚ) ^ (-53 : ℤ) = 1 / 9007199254740992 := by norm_num
  have hrpos : 0 < r := lt_of_le_of_lt h0 hsr
  rw [div_le_iff₀ hrpos, e53]
  rcases eq_or_lt_of_le h0 with hz | hspos
  · rw [← hz]
    linarith
  · obtain ⟨ms, hms⟩ := binary64_multiple hs hspos
    obtain ⟨mr, hmr⟩ := binary64_multiple hr hrpos
    have he := ulpExp_mono hspos hsr.le
    have hA : (0 : ℚ) < 2 ^ ulpExp s := zpow_pos (by norm_num) _
    rcases eq_or_lt_of_le he with heq | hlt
    · rw [← heq] at hmr
      have hgap := multiple_gap hA ms mr hms hmr hsr
      have hup := lt_zpow_ulpExp hrpos
      rw [← heq, zpow_add₀ (by norm_num : (2 : ℚ) ≠ 0)] at hup
      have e : (2 : ℚ) ^ (53 : ℤ) = 9007199254740992 := by norm_num
      rw [e] at hup
      generalize (2 : ℚ) ^ ulpExp s = A at hgap hup hA
      linarith
    · have hnr : -1022 ≤ Int.log 2 r := by
        by_contra hc
        have h1 : ulpExp r = -1074 := by
          unfold ulpExp
          rw [max_eq_right (by omega)]
          norm_num
        have h2 : -1074 ≤ ulpExp s := by
          unfold ulpExp
          have := le_max_right (Int.log 2 s) (-1022)
          omega
        omega
      have hup := lt_zpow_ulpExp hspos
      have hlow := zpow_ulpExp_le hrpos hnr
      have hle : (2 : ℚ) ^ (ulpExp s + 53) ≤ 2 ^ (ulpExp r + 52) :=
        zpow_le_zpow_right₀ (by norm_num) (by omega)
      have htop : (2 : ℚ) ^ (ulpExp s + 53) = ((2 ^ 53 : ℤ) : ℚ) * 2 ^ ulpExp s := by
        rw [zpow_add₀ (by norm_num : (2 : ℚ) ≠ 0), mul_comm]
        norm_num
      have hgap := multiple_gap hA ms (2 ^ 53) hms htop hup
      have htop2 : (2 : ℚ) ^ (ulpExp s + 53) = 9007199254740992 * 2 ^ ulpExp s := by
        rw [htop]; norm_num
      generalize (2 : ℚ) ^ (ulpExp s + 53) = T at hgap htop2 hle
      generalize (2 : ℚ) ^ (ulpExp r + 52) = B at hle hlow
      generalize (2 : ℚ) ^ ulpExp s = A at hgap htop2 hA
      have : T ≤ r := le_trans hle hlow
      linarith

theorem fl_one : fl 1 = 1 := by
  have := fl_intCast 1 (by norm_num) (by norm_num)
  simpa using this

theorem fl_hundred : fl 100 = 100 := by
  have := fl_intCast 100 (by norm_num) (by norm_num)
  simpa using this

theorem isBinary64_pred_one : fl (1 - 2 ^ (-53 : ℤ)) = 1 - 2 ^ (-53 : ℤ) := by
  have e53 : (2 : ℚ) ^ (-53 : ℤ) = 1 / 9007199254740992 := by norm_num
  have hpos : (0 : ℚ) < 1 - 2 ^ (-53 : ℤ) := by rw [e53]; norm_num
  have hlo : (-1 : ℤ) ≤ Int.log 2 (1 - 2 ^ (-53 : ℤ) : ℚ) :=
    (Int.zpow_le_iff_le_log (R := ℚ) (b := 2) (by norm_num) hpos).mp (by rw [e53]; norm_num)
  have hhi : Int.log 2 (1 - 2 ^ (-53 : ℤ) : ℚ) < 0 :=
    (Int.lt_zpow_iff_log_lt (R := ℚ) (b := 2) (by norm_num) hpos).mp (by rw [e53]; norm_num)
  have hu : ulpExp (1 - 2 ^ (-53 : ℤ)) = -53 := by
    unfold ulpExp
    have : Int.log 2 (1 - 2 ^ (-53 : ℤ) : ℚ) = -1 := by omega
    rw [this]; rfl
  unfold fl
  rw [if_neg hpos.ne', if_pos hpos, hu]
  have hq : (1 - 2 ^ (-53 : ℤ) : ℚ) / 2 ^ (-53 : ℤ) = ((9007199254740991 : ℤ) : ℚ) := by
    rw [e53]; norm_num
  rw [hq, roundHalfEven_intCast, e53]
  norm_num

theorem progressOf_nonneg (stat requirement : Int) (hs : 0 ≤ stat) (hr : 0 < requirement) :
    0 ≤ progressOf stat requirement := by
  unfold progressOf
  have hq : (0 : ℚ) ≤ (stat : ℚ) / (requirement : ℚ) :=
    div_nonneg (by exact_mod_cast hs) (by exact_mod_cast hr.le)
  exact le_min (fl_nonneg (mul_nonneg (fl_nonneg hq) (by norm_num))) (by norm_num)

theorem progressOf_le (stat requirement : Int) : progressOf stat requirement ≤ 100 :=
  min_le_right _ _

theorem progressOf_mono (stat stat1 requirement : Int) (hs : 0 ≤ stat) (hr : 0 < requirement)
    (h : stat ≤ stat1) : progressOf stat requirement ≤ progressOf stat1 requirement := by
  unfold progressOf
  have hrq : (0 : ℚ) < (requirement : ℚ) := by exact_mod_cast hr
  have hq : (0 : ℚ) ≤ (stat : ℚ) / (requirement : ℚ) :=
    div_nonneg (by exact_mod_cast hs) hrq.le
  have hqq : (stat : ℚ) / (requirement : ℚ) ≤ (stat1 : ℚ) / (requirement : ℚ) :=
    div_le_div_of_nonneg_right (by exact_mod_cast h) hrq.le
  have h1 := fl_mono hq hqq
  have h2 : fl ((stat : ℚ) / (requirement : ℚ)) * 100 ≤ fl ((stat1 : ℚ) / (requirement : ℚ)) * 100 := by
    linarith
  exact min_le_min (fl_mono (mul_nonneg (fl_nonneg hq) (by norm_num)) h2) (le_refl _)

theorem progressOf_of_le (stat requirement : Int) (hr : 0 < requirement)
    (h : requirement ≤ stat) : progressOf stat requirement = 100 := by
  unfold progressOf
  have hrq : (0 : ℚ) < (requirement : ℚ) := by exact_mod_cast hr
  have hq : (1 : ℚ) ≤ (stat : ℚ) / (requirement : ℚ) := by
    rw [le_div_iff₀ hrq, one_mul]
    exact_mod_cast h
  have h1 := fl_mono (by norm_num) hq
  rw [fl_one] at h1
  have h2 : (100 : ℚ) ≤ fl ((stat : ℚ) / (requirement : ℚ)) * 100 := by linarith
  have h3 := fl_mono (by norm_num) h2
  rw [fl_hundred] at h3
  exact min_eq_right h3

theorem progressOf_lt (stat requirement : Int) (hs : 0 ≤ stat)
    (hbs : isBinary64 (stat : ℚ)) (hbr : isBinary64 (requirement : ℚ))
    (h : stat < requirement) : progressOf stat requirement < 100 := by
  unfold progressOf
  have hsq : (0 : ℚ) ≤ (stat : ℚ) := by exact_mod_cast hs
  have hlt : (stat : ℚ) < (requirement : ℚ) := by exact_mod_cast h
  have hrq : (0 : ℚ) < (requirement : ℚ) := lt_of_le_of_lt hsq hlt
  have hq0 : (0 : ℚ) ≤ (stat : ℚ) / (requirement : ℚ) := div_nonneg hsq hrq.le
  have hq := binary64_div_lt_one hbs hbr hsq hlt
  have h1 := fl_mono hq0 hq
  rw [isBinary64_pred_one] at h1
  have e53 : (2 : ℚ) ^ (-53 : ℤ) = 1 / 9007199254740992 := by norm_num
  rw [e53] at h1
  have hy0 : 0 ≤ fl ((stat : ℚ) / (requirement : ℚ)) * 100 :=
    mul_nonneg (fl_nonneg hq0) (by norm_num)
  apply lt_of_le_of_lt (min_le_left _ _)
  rcases eq_or_lt_of_le hy0 with hz | hpos
  · rw [← hz, fl_zero]
    norm_num
  · have hu := ulpExp_le (k := 7) hpos (by norm_num) (by norm_num; linarith)
    have h2 : (2 : ℚ) ^ ulpExp (fl ((stat : ℚ) / (requirement : ℚ)) * 100) ≤ 2 ^ (-46 : ℤ) :=
      zpow_le_zpow_right₀ (by norm_num) (by omega)
    have e46 : (2 : ℚ) ^ (-46 : ℤ) = 1 / 70368744177664 := by norm_num
    rw [e46] at h2
    have h3 := fl_le hpos
    generalize (2 : ℚ) ^ ulpExp (fl ((stat : ℚ) / (requirement : ℚ)) * 100) = U at h2 h3
    generalize fl (fl ((stat : ℚ) / (requirement : ℚ)) * 100) = Y at h3 ⊢
    generalize fl ((stat : ℚ) / (requirement : ℚ)) = X at h1 h3
    linarith

/-- The progress on doubles is within `2 ^ (-46)` of the exact value. -/
theorem progressOf_close (stat requirement : Int) (hs : 0 ≤ stat) (hr : 0 < requirement) :
    |progressOf stat requirement - exactProgress stat requirement| ≤ 2 ^ (-46 : ℤ) := by
  have e46 : (2 : ℚ) ^ (-46 : ℤ) = 1 / 70368744177664 := by norm_num
  have hsq : (0 : ℚ) ≤ (stat : ℚ) := by exact_mod_cast hs
  have hrq : (0 : ℚ) < (requirement : ℚ) := by exact_mod_cast hr
  rcases le_or_lt requirement stat with hle | hlt
  · rw [progressOf_of_le stat requirement hr hle]
    unfold exactProgress
    have hq : (1 : ℚ) ≤ (stat : ℚ) / (requirement : ℚ) := by
      rw [le_div_iff₀ hrq, one_mul]
      exact_mod_cast hle
    rw [min_eq_right (by linarith)]
    rw [e46]; norm_num
  · have hq0 : (0 : ℚ) ≤ (stat : ℚ) / (requirement : ℚ) := div_nonneg hsq hrq.le
    have hq1 : (stat : ℚ) / (requirement : ℚ) < 1 := by
      rw [div_lt_iff₀ hrq, one_mul]
      exact_mod_cast hlt
    unfold exactProgress progressOf
    rw [min_eq_left (by linarith : (stat : ℚ) / (requirement : ℚ) * 100 ≤ 100)]
    have hx1 : fl ((stat : ℚ) / (requirement : ℚ)) ≤ 1 := by
      have := fl_mono hq0 hq1.le
      rwa [fl_one] at this
    have hx0 := fl_nonneg hq0
    have hX : |fl ((stat : ℚ) / (requirement : ℚ)) - (stat : ℚ) / (requirement : ℚ)|
        ≤ 1 / 18014398509481984 := by
      rcases eq_or_lt_of_le hq0 with hz | hpos
      · rw [← hz, fl_zero]; norm_num
      · have hu := ulpExp_le (k := 0) hpos (by norm_num) (by simpa using hq1)
        have h2 : (2 : ℚ) ^ ulpExp ((stat : ℚ) / (requirement : ℚ)) ≤ 2 ^ (-53 : ℤ) :=
          zpow_le_zpow_right₀ (by norm_num) (by omega)
        have e53 : (2 : ℚ) ^ (-53 : ℤ) = 1 / 9007199254740992 := by norm_num
        rw [e53] at h2
        have h3 := fl_le hpos
        have h4 := fl_ge hpos
        rw [abs_le]
        constructor <;> linarith
    have hy0 : 0 ≤ fl ((stat : ℚ) / (requirement : ℚ)) * 100 := mul_nonneg hx0 (by norm_num)
    have hY : |fl (fl ((stat : ℚ) / (requirement : ℚ)) * 100)
        - fl ((stat : ℚ) / (requirement : ℚ)) * 100| ≤ 1 / 140737488355328 := by
      rcases eq_or_lt_of_le hy0 with hz | hpos
      · rw [← hz, fl_zero]; norm_num
      · have hu := ulpExp_le (k := 7) hpos (by norm_num) (by norm_num; linarith)
        have h2 : (2 : ℚ) ^ ulpExp (fl ((stat : ℚ) / (requirement : ℚ)) * 100) ≤ 2 ^ (-46 : ℤ) :=
          zpow_le_zpow_right₀ (by norm_num) (by omega)
        rw [e46] at h2
        have h3 := fl_le hpos
        have h4 := fl_ge hpos
        rw [abs_le]
        constructor <;> linarith
    rw [e46]
    rw [abs_le] at hX hY ⊢
    generalize fl (fl ((stat : ℚ) / (requirement : ℚ)) * 100) = Y at hY ⊢
    generalize fl ((stat : ℚ) / (requirement : ℚ)) = X at hX hY
    generalize (stat : ℚ) / (requirement : ℚ) = Q at hX hq1 hq0
    constructor
    · rcases le_total Y 100 with h | h
      · rw [min_eq_left h]; linarith
      · rw [min_eq_right h]; linarith
    · have : min Y 100 ≤ Y := min_le_left _ _
      linarith

end Progress

/-- C19: for an achievement with a positive requirement and a non-negative
stat, both numbers of JavaScript, `getProgress` is
`Math.min((stat / requirement) * 100, 100)` on doubles, with `videos_posted`
for the category `posting` and `viral_videos` for `viral`; it is within
`2 ^ (-46)` of the exact `min(stat / requirement * 100, 100)`, lies in
`[0, 100]`, is 100 exactly when the stat is at least the requirement, does
not decrease when the stat grows, and is 0 without user stats and for another
category. -/
theorem getProgress_spec (achievement : PredefinedAchievement)
    (hreq : 0 < achievement.requirement)
    (hbr : isBinary64 (achievement.requirement : ℚ)) :
    getProgress none achievement = 0 ∧
    (∀ stats, achievement.category ≠ "posting" → achievement.category ≠ "viral" →
      getProgress (some stats) achievement = 0) ∧
    (∀ stats, achievement.category = "posting" →
      statOf stats achievement = some (jsOr stats.videos_posted 0)) ∧
    (∀ stats, achievement.category = "viral" →
      statOf stats achievement = some (jsOr stats.viral_videos 0)) ∧
    (∀ stats stat, statOf stats achievement = some stat → 0 ≤ stat → isBinary64 (stat : ℚ) →
      getProgress (some stats) achievement = progressOf stat achievement.requirement ∧
      |getProgress (some stats) achievement - exactProgress stat achievement.requirement|
        ≤ 2 ^ (-46 : ℤ) ∧
      0 ≤ getProgress (some stats) achievement ∧
      getProgress (some stats) achievement ≤ 100 ∧
      (getProgress (some stats) achievement = 100 ↔ achievement.requirement ≤ stat)) ∧
    (∀ stats stats1 stat stat1, statOf stats achievement = some stat →
      statOf stats1 achievement = some stat1 → 0 ≤ stat → stat ≤ stat1 →
      getProgress (some stats) achievement ≤ getProgress (some stats1) achievement) := by
  have hget : ∀ stats stat, statOf stats achievement = some stat →
      getProgress (some stats) achievement = progressOf stat achievement.requirement := by
    intro stats stat h
    unfold statOf at h
    unfold getProgress
    simp only
    split_ifs at h ⊢ with h1 h2
    · rw [← Option.some.inj h]
    · rw [← Option.some.inj h]
  refine ⟨rfl, ?_, ?_, ?_, ?_, ?_⟩
  · intro stats h1 h2
    unfold getProgress
    simp only [h1, h2, if_false]
  · intro stats h1
    unfold statOf
    rw [if_pos h1]
  · intro stats h1
    unfold statOf
    by_cases h2 : achievement.category = "posting"
    · rw [h2] at h1
      exact absurd h1 (by decide)
    · rw [if_neg h2, if_pos h1]
  · intro stats stat h hs hbs
    rw [hget stats stat h]
    refine ⟨rfl, progressOf_close _ _ hs hreq, progressOf_nonneg _ _ hs hreq,
      progressOf_le _ _, ?_⟩
    constructor
    · intro h100
      by_contra hc
      have := progressOf_lt stat achievement.requirement hs hbs hbr (not_le.mp hc)
      rw [h100] at this
      exact lt_irrefl _ this
    · exact progressOf_of_le _ _ hreq
  · intro stats stats1 stat stat1 h h1 hs hle
    rw [hget stats stat h, hget stats1 stat1 h1]
    exact progressOf_mono _ _ _ hs hreq hle

/-- Witness of C11: the feed mounts on the sample store while the session has
expired; the two videos are shown, nobody is signed in, no video is liked. -/
theorem loadData_user_fetch_fails_witness :
    (loadData signedOutFeedWorld).1 = some () ∧
    (loadData signedOutFeedWorld).2.ui.videos = [clipTwo, clipOne] ∧
    (loadData signedOutFeedWorld).2.ui.user = none ∧
    (loadData signedOutFeedWorld).2.ui.likedVideos = [] :=
  have h := loadData_user_fetch_fails signedOutFeedWorld
    ⟨mountedFeed, { feedBackend with faults := [true] }⟩ [clipTwo, clipOne] rfl rfl
  ⟨h.1, h.2.1, (h.2.2.2.2 rfl rfl).1, (h.2.2.2.2 rfl rfl).2⟩

/-- Witness of C12: `User.me` fails on the sample store. -/
theorem checkIfWillGoViral_never_fails_witness :
    (checkIfWillGoViral
      (⟨emptyForm, { sampleBackend with faults := [true] }⟩ : World UploadUi)).1 = some false :=
  (checkIfWillGoViral_never_fails
    (⟨emptyForm, { sampleBackend with faults := [true] }⟩ : World UploadUi)).2.1 rfl

/-- Witness of C13: a comment and a reply through the sheet opened on the
first sample video leave its stored count at 1. -/
theorem postRuns_comment_count_witness :
    (postRuns [SheetPost.comment "nice", SheetPost.reply "4" "thanks"] sheetWorld).db.comments.length = 2 ∧
    ∀ r ∈ (postRuns [SheetPost.comment "nice", SheetPost.reply "4" "thanks"] sheetWorld).db.videos,
      r.id = clipOne.id → r.comment_count = some 1 ∧ r.comment_count ≠ some 2 := by
  have h := postRuns_comment_count sheetWorld sampleUser sampleUser clipOne
    [SheetPost.comment "nice", SheetPost.reply "4" "thanks"] rfl rfl rfl rfl (by decide)
    ⟨clipOne, by decide, rfl⟩ (by decide) (by decide) (by decide)
  refine ⟨by rw [h.1]; rfl, fun r hr hrid => ⟨h.2.2.2.1 r hr hrid, ?_⟩⟩
  exact h.2.2.2.2 (by decide) r hr hrid

/-- Witness of C14: the sample user opens the feed, likes the first video and
takes the like of the second one back. -/
theorem feedSession_likedVideos_witness :
    (mapHas (feedSession [clipOne, clipTwo] feedWorld).ui.likedVideos "0" = true ↔
      ∃ l ∈ (feedSession [clipOne, clipTwo] feedWorld).db.likes,
        l.created_by = sampleUser.email ∧ l.video_id = "0") ∧
    mapGet (feedSession [clipOne, clipTwo] feedWorld).ui.likedVideos "0" = some "4" ∧
    mapGet (feedSession [clipOne, clipTwo] feedWorld).ui.likedVideos "1" = none :=
  ⟨((feedSession_likedVideos feedWorld sampleUser [clipOne, clipTwo] rfl rfl (by decide)
      (by
        intro l hl k hk h
        have hl2 : l.id = toString 2 ∨ l.id = toString 3 := by
          simp only [feedWorld, feedBackend, List.mem_cons, List.mem_singleton,
            List.not_mem_nil, or_false] at hl
          rcases hl with rfl | rfl
          · exact Or.inl rfl
          · exact Or.inr rfl
        have hk4 : 4 ≤ k := hk
        rcases hl2 with h2 | h3
        · have := toString_nat_injective 2 k (h2.symm.trans h)
          omega
        · have := toString_nat_injective 3 k (h3.symm.trans h)
          omega)
      (by decide) (by decide)).2.2 { clipOne with likes := some 1 } (by decide)).1,
    by decide, by decide⟩

/-- Witness of C16: one unlocked record leaves six achievements locked. -/
theorem achievementsLeft_locked_count_witness :
    achievementsLeft [duplicateRecord] = 6 ∧
    predefinedAchievements.countP (fun p => !isAchievementUnlocked [duplicateRecord] p) = 6 :=
  ⟨(achievementsLeft_locked_count [duplicateRecord] (by decide) (by decide) (by decide)).trans
      (by decide), by decide⟩

/-- Witness of C17: the hashtags of the sample form. -/
theorem parseHashtags_spec_witness :
    (videoDataOf (fillForm sampleInput emptyForm) "https://files.example.org/clip.mp4" false 1
      0 0).hashtags = parseHashtags "#fun #clip" ∧
    (parseHashtags "#fun #clip").map displayHashtag = ["#fun", "#clip"] :=
  ⟨(parseHashtags_spec "#fun #clip").2.2.2.2.2.1 (fillForm sampleInput emptyForm)
      "https://files.example.org/clip.mp4" false 1 0 0 rfl,
   ((parseHashtags_spec "#fun #clip").2.2.1).trans (by decide)⟩

/-- Witness of C18: a reply is not a top-level comment. -/
theorem topLevelComments_spec_witness :
    (⟨"5", "0", "thanks", some "4", "bob@example.org"⟩ : Comment) ∉
      topLevelComments
        [⟨"5", "0", "thanks", some "4", "bob@example.org"⟩,
         ⟨"4", "0", "nice", none, "ana@example.org"⟩] :=
  (topLevelComments_spec
      [⟨"5", "0", "thanks", some "4", "bob@example.org"⟩,
       ⟨"4", "0", "nice", none, "ana@example.org"⟩]).2.2.2
    ⟨"5", "0", "thanks", some "4", "bob@example.org"⟩ "4" rfl (by decide)

/-- Witness of C19: nine posted videos against the requirement 25 of
`Influencer`. -/
theorem getProgress_spec_witness :
    0 ≤ getProgress (some nineVideos)
      { name := "Influencer", description := "Posted 25 videos", icon := "crown",
        category := "posting", requirement := 25, points := 100 } ∧
    getProgress (some nineVideos)
      { name := "Influencer", description := "Posted 25 videos", icon := "crown",
        category := "posting", requirement := 25, points := 100 } ≠ 100 :=
  have h := (getProgress_spec
    { name := "Influencer", description := "Posted 25 videos", icon := "crown",
      category := "posting", requirement := 25, points := 100 }
    (by decide) (fl_intCast 25 (by decide) (by decide))).2.2.2.2.1 nineVideos 9 rfl (by decide)
    (fl_intCast 9 (by decide) (by decide))
  ⟨h.2.2.1, fun h100 => absurd (h.2.2.2.2.mp h100) (by decide)⟩

section SafeIntegers

theorem fl_neg_eq {x : ℚ} (hx : x < 0) : fl x = -fl (-x) := by
  have hpos : 0 < -x := by linarith
  unfold fl
  rw [if_neg hx.ne, if_neg (not_lt.mpr hx.le), if_neg hpos.ne', if_pos hpos]

/-- A safe integer is a binary64 value. -/
theorem fl_safeInt (q : ℤ) (h0 : -(2 ^ 53) < q) (h1 : q < 2 ^ 53) : fl (q : ℚ) = q := by
  rcases lt_trichotomy q 0 with hneg | hz | hpos
  · have hq : ((q : ℤ) : ℚ) < 0 := by exact_mod_cast hneg
    rw [fl_neg_eq hq]
    have := fl_intCast (-q) (by omega) (by omega)
    push_cast at this
    rw [this]
    ring
  · subst hz
    simpa using fl_zero
  · exact fl_intCast q hpos h1

/-- The sum `n + 1` of a safe integer is exact in binary64. -/
theorem fl_succ_safeInt (n : ℤ) (h0 : -(2 ^ 53) < n) (h1 : n + 1 < 2 ^ 53) :
    fl ((n : ℚ) + 1) = ((n + 1 : ℤ) : ℚ) := by
  have := fl_safeInt (n + 1) (by omega) h1
  push_cast at this ⊢
  exact this

end SafeIntegers

/-- The value of `getNextViralVideo` on safe integers: every operation is
exact, and the ceiling of the rounded quotient is the ceiling of the exact
one. -/
theorem getNextViralVideo_eq (stats : Option UserStats) (n : ℤ)
    (hn : jsOr (stats.bind (fun s => s.videos_posted)) 0 = n)
    (h0 : 0 ≤ n) (h1 : n + 10 < 2 ^ 53) :
    getNextViralVideo stats
      = ((Int.ceil (((n + 1 : ℤ) : ℚ) / 10) * 10 - n : ℤ) : ℚ) := by
  unfold getNextViralVideo
  simp only
  rw [hn, fl_succ_safeInt n (by omega) (by omega), ceil_fl_tenth (n + 1) (by omega) (by omega)]
  have h2 : (((n + 1 : ℤ) : ℚ)) / 10 ≤ (Int.ceil (((n + 1 : ℤ) : ℚ) / 10) : ℚ) := Int.le_ceil _
  have h3 : (Int.ceil (((n + 1 : ℤ) : ℚ) / 10) : ℚ) < ((n + 1 : ℤ) : ℚ) / 10 + 1 :=
    Int.ceil_lt_add_one _
  generalize Int.ceil (((n + 1 : ℤ) : ℚ) / 10) = c at h2 h3
  have h4 : n + 1 ≤ 10 * c := by
    have : ((n + 1 : ℤ) : ℚ) ≤ 10 * (c : ℚ) := by linarith
    exact_mod_cast this
  have h5 : 10 * c < n + 1 + 10 := by
    have : 10 * (c : ℚ) < ((n + 1 : ℤ) : ℚ) + 10 := by linarith
    exact_mod_cast this
  have e2 : (c : ℚ) * 10 = ((c * 10 : ℤ) : ℚ) := by push_cast; rfl
  rw [e2, fl_safeInt (c * 10) (by omega) (by omega)]
  have e3 : ((c * 10 : ℤ) : ℚ) - (n : ℚ) = ((c * 10 - n : ℤ) : ℚ) := by push_cast; rfl
  rw [e3, fl_safeInt (c * 10 - n) (by omega) (by omega)]

/-- C1, amended: when `User.me` succeeds and the `UserStats` query returns a non-empty
list whose first record has `videos_posted = n` (a missing value counts as
0), with `n` a safe integer (`-2 ^ 53 < n` and `n + 1 < 2 ^ 53`), the sum
`n + 1` is exact in binary64 (`nextPostNumber` is `n + 1`) and
`checkIfWillGoViral` returns true exactly when `n + 1` is a multiple of 10;
when the query returns the empty list it returns false. -/
theorem checkIfWillGoViral_every_tenth {υ : Type} (w w1 w2 : World υ) (user : User)
    (records : List UserStats)
    (hme : User.me w = (some user, w1))
    (hq : UserStats.filter (fun r => r.created_by == user.email) w1 = (some records, w2)) :
    (∀ stats rest, records = stats :: rest →
      -(2 ^ 53) < jsOr stats.videos_posted 0 → jsOr stats.videos_posted 0 + 1 < 2 ^ 53 →
      nextPostNumber stats = ((jsOr stats.videos_posted 0 + 1 : ℤ) : ℚ) ∧
      checkIfWillGoViral w
        = (some (decide ((10 : Int) ∣ jsOr stats.videos_posted 0 + 1)), w2)) ∧
    (records = [] → (checkIfWillGoViral w).1 = some false) := by
  constructor
  · intro stats rest hrec hlo hhi
    subst hrec
    refine ⟨fl_succ_safeInt _ hlo hhi, ?_⟩
    unfold checkIfWillGoViral Act.tryCatch
    rw [Act.bind_of_some hme, Act.bind_of_some hq]
    simp only [Act.pure_eq, tmod_ten_eq_zero_iff]
  · intro hrec
    subst hrec
    unfold checkIfWillGoViral Act.tryCatch
    rw [Act.bind_of_some hme, Act.bind_of_some hq]
    simp only [Act.bind_eq]
    rcases h : UserStats.create initialStats w2 with ⟨_ | r, w3⟩ <;> simp [Act.pure_eq]

/-- Witness of C1: with nine videos posted the next upload is flagged. -/
theorem checkIfWillGoViral_every_tenth_witness :
    checkIfWillGoViral nineVideosWorld = (some true, nineVideosWorld) :=
  ((checkIfWillGoViral_every_tenth nineVideosWorld nineVideosWorld nineVideosWorld sampleUser
    [nineVideos] rfl rfl).1 nineVideos [] rfl (by decide) (by decide)).2

/-- C4, amended: `getNextViralVideo` is the number of uploads up to the next viral
one.  With `n` the videos posted (0 when missing), `0 ≤ n` and `n + 10` a
safe integer, the result is a whole number `k` with `1 ≤ k ≤ 10`, `n + k` is
a multiple of 10 and no smaller positive `j` makes `n + j` one; and among the
next `k` uploads `checkIfWillGoViral` flags exactly the `k`-th. -/
theorem getNextViralVideo_spec (stats : Option UserStats)
    (h0 : 0 ≤ jsOr (stats.bind (fun s => s.videos_posted)) 0)
    (hsafe : jsOr (stats.bind (fun s => s.videos_posted)) 0 + 10 < 2 ^ 53) :
    ∃ k : Int, getNextViralVideo stats = (k : ℚ) ∧ 1 ≤ k ∧ k ≤ 10 ∧
      (10 : Int) ∣ jsOr (stats.bind (fun s => s.videos_posted)) 0 + k ∧
      (∀ j : Int, 0 < j → j < k →
        ¬ (10 : Int) ∣ jsOr (stats.bind (fun s => s.videos_posted)) 0 + j) ∧
      (∀ (w : World UploadUi) (u : User) (st : UserStats) (rest : List UserStats) (j : Int),
        1 ≤ j → j ≤ k →
        w.db.faults = [] → w.db.currentUser = some u → statsOf w u.email = st :: rest →
        st.videos_posted = some (jsOr (stats.bind (fun s => s.videos_posted)) 0 + (j - 1)) →
        ((checkIfWillGoViral w).1 = some true ↔ j = k)) := by
  rw [getNextViralVideo_eq stats _ rfl h0 hsafe]
  generalize jsOr (stats.bind (fun s => s.videos_posted)) 0 = n at h0 hsafe
  have h1 : (((n + 1 : ℤ) : ℚ)) / 10 ≤ (Int.ceil (((n + 1 : ℤ) : ℚ) / 10) : ℚ) := Int.le_ceil _
  have h2 : (Int.ceil (((n + 1 : ℤ) : ℚ) / 10) : ℚ) < ((n + 1 : ℤ) : ℚ) / 10 + 1 :=
    Int.ceil_lt_add_one _
  generalize Int.ceil (((n + 1 : ℤ) : ℚ) / 10) = c at h1 h2
  have h3 : n + 1 ≤ 10 * c := by
    have : ((n + 1 : ℤ) : ℚ) ≤ 10 * (c : ℚ) := by linarith
    exact_mod_cast this
  have h4 : 10 * c < n + 1 + 10 := by
    have : 10 * (c : ℚ) < ((n + 1 : ℤ) : ℚ) + 10 := by linarith
    exact_mod_cast this
  refine ⟨c * 10 - n, rfl, by omega, by omega, ⟨c, by ring⟩, ?_, ?_⟩
  · intro j hj0 hjk hdvd
    obtain ⟨m, hm⟩ := hdvd
    omega
  · intro w u st rest j hj1 hjk hf hu hs hvp
    rw [checkIfWillGoViral_counted hf hu hs]
    simp only [Option.some.injEq, decide_eq_true_eq]
    rw [hvp, jsOr_some_zero, tmod_ten_eq_zero_iff]
    constructor
    · intro h
      obtain ⟨m, hm⟩ := h
      omega
    · intro h
      exact ⟨c, by omega⟩

/-- Witness of C4: nine videos posted, one upload to go, and the check flags
it. -/
theorem getNextViralVideo_spec_witness :
    getNextViralVideo (some nineVideos) = 1 ∧
    (checkIfWillGoViral nineVideosWorld).1 = some true := by
  obtain ⟨k, hk, h1, h10, hdvd, _, hcheck⟩ :=
    getNextViralVideo_spec (some nineVideos) (by decide) (by decide)
  have hk1 : k = 1 := by
    have h9 : jsOr ((some nineVideos).bind (fun s => s.videos_posted)) 0 = 9 := by decide
    rw [h9] at hdvd
    obtain ⟨m, hm⟩ := hdvd
    omega
  subst hk1
  refine ⟨by rw [hk]; norm_num, ?_⟩
  exact (hcheck nineVideosWorld sampleUser nineVideos [] 1 (by decide) (by decide) rfl rfl rfl
    rfl).mpr rfl

/-- A run of `handleUpload` with no failing call, a signed-in user, a chosen
file and a non-blank title returns and stores exactly one video, built by
`videoDataOf` with the flag `checkIfWillGoViral` returned. -/
theorem handleUpload_stores (ui : UploadUi) (db : Backend) (u : User) (file : File)
    (rViews rLikes : ℚ) (today : String)
    (hf : db.faults = []) (hu : db.currentUser = some u) (hfile : ui.file = some file)
    (ht : jsTrim ui.title ≠ "") :
    ∃ viral pn i,
      (handleUpload rViews rLikes today ⟨ui, db⟩).1 = some () ∧
      (checkIfWillGoViral (⟨ui, db⟩ : World UploadUi)).1 = some viral ∧
      (handleUpload rViews rLikes today ⟨ui, db⟩).2.db.videos = db.videos ++
        [{ videoDataOf ui file.url viral pn rViews rLikes with id := i, created_by := u.email }] := by
  obtain ⟨cu, us, st, vs, ac, cs, ms, ls, cms, k, fs⟩ := db
  simp only at hf hu
  subst hf hu
  rcases hs : st.filter (fun r => r.created_by == u.email) with _ | ⟨s0, rest⟩
  · refine ⟨false, 1, toString (k + 1), ?_⟩
    rw [checkIfWillGoViral_lit_fresh _ _ _ _ _ _ _ _ _ _ _ hs]
    unfold handleUpload
    rw [Act.bind_of_some (show Act.get _ = (some _, _) from rfl)]
    simp only [hfile, ht, if_false]
    have hpn : jsOr initialStats.videos_posted 0 + 1 = 1 := by
      simp [initialStats, jsOr]
    simp only [setUpload, Act.modify, Act.bind_eq, Act.tryCatch, userMe_lit,
      checkIfWillGoViral_lit_fresh _ _ _ _ _ _ _ _ _ _ _ hs, UploadFile_lit, userStatsFilter_lit,
      List.filter_append, hs, List.nil_append, List.filter_cons, List.filter_nil,
      beq_self_eq_true, if_true, Act.pure_eq, videoCreate_lit, hpn]
    rw [userStatsUpdate_lit _ _ _ _ _ _ _ _ _ _ _ _ _ (by simp)]
    simp only
    obtain ⟨created, k2, hrun, _⟩ := checkAndUnlockAchievements_lit
      ({ ui with isUploading := true, uploadProgress := 90, willGoViral := false } : UploadUi)
      u us _ (vs ++ [{ videoDataOf ui file.url false 1 rViews rLikes with
            id := toString (k + 1), created_by := u.email }]) ac cs ms ls cms (k + 1 + 1)
      1 false today
    rw [hrun]
    simp
  · have hmem : s0 ∈ st := by
      have : s0 ∈ st.filter (fun r => r.created_by == u.email) := by rw [hs]; simp
      exact (List.mem_filter.mp this).1
    refine ⟨decide (Int.tmod (jsOr s0.videos_posted 0 + 1) 10 = 0), jsOr s0.videos_posted 0 + 1,
      toString k, ?_⟩
    rw [checkIfWillGoViral_lit_counted _ _ _ _ _ _ _ _ _ _ _ s0 rest hs]
    unfold handleUpload
    rw [Act.bind_of_some (show Act.get _ = (some _, _) from rfl)]
    simp only [hfile, ht, if_false]
    simp only [setUpload, Act.modify, Act.bind_eq, Act.tryCatch, userMe_lit,
      checkIfWillGoViral_lit_counted _ _ _ _ _ _ _ _ _ _ _ s0 rest hs, UploadFile_lit,
      userStatsFilter_lit, hs, Act.pure_eq, videoCreate_lit]
    rw [userStatsUpdate_lit _ _ _ _ _ _ _ _ _ _ _ _ _
      (List.any_eq_true.mpr ⟨s0, hmem, by simp⟩)]
    simp only
    obtain ⟨created, k2, hrun, _⟩ := checkAndUnlockAchievements_lit
      ({ ui with isUploading := true, uploadProgress := 90,
                 willGoViral := decide (Int.tmod (jsOr s0.videos_posted 0 + 1) 10 = 0) } : UploadUi)
      u us _ (vs ++ [{ videoDataOf ui file.url
            (decide (Int.tmod (jsOr s0.videos_posted 0 + 1) 10 = 0)) (jsOr s0.videos_posted 0 + 1)
            rViews rLikes with id := toString k, created_by := u.email }]) ac cs ms ls cms (k + 1)
      (jsOr s0.videos_posted 0 + 1) (decide (Int.tmod (jsOr s0.videos_posted 0 + 1) 10 = 0)) today
    rw [hrun]
    simp

/-- C3: every video `handleUpload` stores has `views = 1000` and `likes = 50`
when it is viral, and views in `[10, 59]` and likes in `[0, 9]` when it is
not, for all draws of `Math.random()` and whatever calls fail; a run with no
failing call, a signed-in user, a chosen file and a non-blank title returns
and stores exactly one video, viral as `checkIfWillGoViral` says; and of any
two stored videos a viral one has more views and more likes than one that is
not viral. -/
theorem handleUpload_initial_counters (w w2 : World UploadUi)
    (rViews rLikes rViews2 rLikes2 : ℚ) (today today2 : String)
    (hv : IsRandomDraw rViews) (hl : IsRandomDraw rLikes)
    (hv2 : IsRandomDraw rViews2) (hl2 : IsRandomDraw rLikes2) :
    ∃ created created2,
      (handleUpload rViews rLikes today w).2.db.videos = w.db.videos ++ created ∧
      (handleUpload rViews2 rLikes2 today2 w2).2.db.videos = w2.db.videos ++ created2 ∧
      (∀ v ∈ created ++ created2,
        (v.is_viral = true → v.views = some 1000 ∧ v.likes = some 50) ∧
        (v.is_viral = false → ∃ a b : Int, v.views = some a ∧ 10 ≤ a ∧ a ≤ 59 ∧
          v.likes = some b ∧ 0 ≤ b ∧ b ≤ 9)) ∧
      (∀ u file, w.db.faults = [] → w.db.currentUser = some u → w.ui.file = some file →
        jsTrim w.ui.title ≠ "" →
        (handleUpload rViews rLikes today w).1 = some () ∧
        ∃ v, created = [v] ∧ (checkIfWillGoViral w).1 = some v.is_viral) ∧
      (∀ u file, w2.db.faults = [] → w2.db.currentUser = some u → w2.ui.file = some file →
        jsTrim w2.ui.title ≠ "" →
        (handleUpload rViews2 rLikes2 today2 w2).1 = some () ∧
        ∃ v, created2 = [v] ∧ (checkIfWillGoViral w2).1 = some v.is_viral) ∧
      (∀ v ∈ created ++ created2, ∀ v2 ∈ created ++ created2,
        v.is_viral = true → v2.is_viral = false →
        ∃ a b a2 b2 : Int, v.views = some a ∧ v.likes = some b ∧
          v2.views = some a2 ∧ v2.likes = some b2 ∧ a2 < a ∧ b2 < b) := by
  have key : ∀ (rV rL : ℚ), IsRandomDraw rV → IsRandomDraw rL →
      ∀ ui url viral pn i e,
        InitialCounters { videoDataOf ui url viral pn rV rL with id := i, created_by := e } := by
    intro rV rL hV hL ui url viral pn i e
    have h1 := randomViews_range hV.1 hV.2.1 hV.2.2
    have h2 := randomLikes_range hL.1 hL.2.1 hL.2.2
    cases viral
    · refine ⟨fun h => by simp [videoDataOf] at h, fun _ => ⟨randomViews rV, randomLikes rL, ?_⟩⟩
      simp only [videoDataOf]
      exact ⟨rfl, h1.1, h1.2, rfl, h2.1, h2.2⟩
    · refine ⟨fun _ => ?_, fun h => by simp [videoDataOf] at h⟩
      simp [videoDataOf]
  have live : ∀ (w : World UploadUi) (rV rL : ℚ) (d : String) (created : List Video),
      (handleUpload rV rL d w).2.db.videos = w.db.videos ++ created →
      ∀ u file, w.db.faults = [] → w.db.currentUser = some u → w.ui.file = some file →
        jsTrim w.ui.title ≠ "" →
        (handleUpload rV rL d w).1 = some () ∧
        ∃ v, created = [v] ∧ (checkIfWillGoViral w).1 = some v.is_viral := by
    intro w rV rL d created hc u file hf hu hfile ht
    obtain ⟨ui, db⟩ := w
    obtain ⟨viral, pn, i, hret, hflag, hvid⟩ :=
      handleUpload_stores ui db u file rV rL d hf hu hfile ht
    rw [hc] at hvid
    exact ⟨hret, { videoDataOf ui file.url viral pn rV rL with id := i, created_by := u.email },
      List.append_cancel_left hvid, hflag⟩
  obtain ⟨created, hc, hP⟩ :=
    respects_handleUpload (P := InitialCounters) rViews rLikes today (key rViews rLikes hv hl) w
  obtain ⟨created2, hc2, hP2⟩ :=
    respects_handleUpload (P := InitialCounters) rViews2 rLikes2 today2
      (key rViews2 rLikes2 hv2 hl2) w2
  have hall : ∀ v ∈ created ++ created2, InitialCounters v := by
    intro v hvm
    rcases List.mem_append.mp hvm with h | h
    · exact hP v h
    · exact hP2 v h
  refine ⟨created, created2, hc, hc2, hall, live w _ _ _ created hc, live w2 _ _ _ created2 hc2,
    ?_⟩
  intro v hvm v2 hvm2 hviral hnot
  obtain ⟨hviews, hlikes⟩ := (hall v hvm).1 hviral
  obtain ⟨a2, b2, ha2, h10, h59, hb2, h0, h9⟩ := (hall v2 hvm2).2 hnot
  exact ⟨1000, 50, a2, b2, hviews, hlikes, ha2, hb2, by omega, by omega⟩

/-- Witness of C3: a tenth upload and a first upload, both with the draw 0:
each stores one video, the tenth a viral one with 1000 views and 50 likes,
the first one that is not viral with fewer of both. -/
theorem handleUpload_initial_counters_witness :
    ∃ v v2,
      (handleUpload 0 0 "2024-05-02" nineVideosFilledWorld).2.db.videos = [v] ∧
      (handleUpload 0 0 "2024-05-01" filledUploadWorld).2.db.videos = [v2] ∧
      v.is_viral = true ∧ v2.is_viral = false ∧
      v.views = some 1000 ∧ v.likes = some 50 ∧
      ∃ a2 b2 : Int, v2.views = some a2 ∧ v2.likes = some b2 ∧ a2 < 1000 ∧ b2 < 50 := by
  obtain ⟨created, created2, hc, hc2, hall, hlive, hlive2, hcmp⟩ :=
    handleUpload_initial_counters nineVideosFilledWorld filledUploadWorld 0 0 0 0 "2024-05-02"
      "2024-05-01" isRandomDraw_zero isRandomDraw_zero isRandomDraw_zero isRandomDraw_zero
  obtain ⟨_, v, hv, hflag⟩ := hlive sampleUser sampleInput.file rfl rfl rfl (by decide)
  obtain ⟨_, v2, hv2, hflag2⟩ := hlive2 sampleUser sampleInput.file rfl rfl rfl (by decide)
  have hviral : v.is_viral = true := by
    have h : (checkIfWillGoViral nineVideosFilledWorld).1 = some true := by
      rw [@checkIfWillGoViral_counted UploadUi nineVideosFilledWorld sampleUser nineVideos []
        rfl rfl rfl]
      rfl
    rw [h] at hflag
    exact (Option.some.inj hflag).symm
  have hnot : v2.is_viral = false := by
    have h : (checkIfWillGoViral filledUploadWorld).1 = some false := by
      rw [@checkIfWillGoViral_fresh UploadUi filledUploadWorld sampleUser rfl rfl rfl]
    rw [h] at hflag2
    exact (Option.some.inj hflag2).symm
  subst hv hv2
  obtain ⟨a, b, a2, b2, ha, hb, ha2, hb2, hlt, hlt2⟩ :=
    hcmp v (by simp) v2 (by simp) hviral hnot
  obtain ⟨hviews, hlikes⟩ := (hall v (by simp)).1 hviral
  rw [hviews] at ha
  rw [hlikes] at hb
  have ea : a = 1000 := (Option.some.inj ha).symm
  have eb : b = 50 := (Option.some.inj hb).symm
  subst ea eb
  exact ⟨v, v2, hc, hc2, hviral, hnot, hviews, hlikes, a2, b2, ha2, hb2, hlt, hlt2⟩

section LikeUpdate

theorem request_ui {υ : Type} (w : World υ) : (request w).2.ui = w.ui := by
  obtain ⟨ui, ⟨cu, us, st, vs, ac, cs, ms, ls, cms, n, fs⟩⟩ := w
  unfold request
  rcases fs with _ | ⟨b, rest⟩
  · rfl
  · cases b <;> rfl

theorem likeCreate_ui {υ : Type} (vid : String) (w : World υ) :
    (Like.create vid w).2.ui = w.ui := by
  obtain ⟨ui, ⟨cu, us, st, vs, ac, cs, ms, ls, cms, n, fs⟩⟩ := w
  unfold Like.create
  simp only [Act.bind_eq, request, signedIn, freshId, Act.modify, Act.pure_eq]
  rcases fs with _ | ⟨b, rest⟩
  · cases cu <;> rfl
  · cases b <;> cases cu <;> rfl

theorem likeDelete_ui {υ : Type} (id : String) (w : World υ) :
    (Like.delete id w).2.ui = w.ui := by
  obtain ⟨ui, ⟨cu, us, st, vs, ac, cs, ms, ls, cms, n, fs⟩⟩ := w
  unfold Like.delete
  simp only [Act.bind_eq, request, Act.get, Act.modify, Act.throw]
  rcases fs with _ | ⟨b, rest⟩
  · simp only
    split <;> rfl
  · cases b
    · simp only
      split <;> rfl
    · rfl

/-- The update `handleLike` makes to `videos` is the optimistic update at the
flag `likedVideos.has(video.id)`, whether the backend call succeeds or not. -/
theorem handleLike_videos (w : World FeedUi) (video : Video) (x : User)
    (hx : w.ui.user = some x) :
    (handleLike video w).2.ui.videos
      = optimisticLike (mapHas w.ui.likedVideos video.id) video w.ui.videos := by
  obtain ⟨⟨videos, idx, ux, pl, mu, m, sc, av, ss⟩, db⟩ := w
  simp only at hx
  subst hx
  unfold handleLike
  simp only [Act.bind_eq, Act.andThen, Act.get, setFeed, Act.modify]
  cases hh : mapHas m video.id
  · simp only [Bool.false_eq_true, if_false]
    have hui := likeCreate_ui video.id
      (⟨⟨optimisticLike false video videos, idx, some x, pl, mu, m, sc, av, ss⟩, db⟩ : World FeedUi)
    rcases hr : Like.create video.id
      (⟨⟨optimisticLike false video videos, idx, some x, pl, mu, m, sc, av, ss⟩, db⟩ : World FeedUi)
      with ⟨_ | r, w1⟩
    · rw [hr] at hui
      rw [Act.bind_of_none hr]
      simp only at hui ⊢
      rw [hui]
    · rw [hr] at hui
      rw [Act.bind_of_some hr]
      simp only [Act.modify] at hui ⊢
      rw [hui]
  · simp only [if_true]
    rcases hg : mapGet m video.id with _ | i
    · rfl
    · simp only
      have hui := likeDelete_ui i
        (⟨⟨optimisticLike true video videos, idx, some x, pl, mu, m, sc, av, ss⟩, db⟩ : World FeedUi)
      rcases hr : Like.delete i
        (⟨⟨optimisticLike true video videos, idx, some x, pl, mu, m, sc, av, ss⟩, db⟩ : World FeedUi)
        with ⟨_ | r, w1⟩
      · rw [hr] at hui
        rw [Act.bind_of_none hr]
        simp only at hui ⊢
        rw [hui]
      · rw [hr] at hui
        rw [Act.bind_of_some hr]
        simp only [Act.modify] at hui ⊢
        rw [hui]

/-- The optimistic update keeps length and order, leaves other ids alone and
changes the likes of the target by the formula of its flag. -/
theorem optimisticLike_spec (isLiked : Bool) (video : Video) (prev : List Video) :
    (optimisticLike isLiked video prev).length = prev.length ∧
    (∀ (i : Nat) (v : Video), prev[i]? = some v →
      (v.id ≠ video.id → (optimisticLike isLiked video prev)[i]? = some v) ∧
      (v.id = video.id → isLiked = false →
        (optimisticLike isLiked video prev)[i]? = some { v with likes := some (jsOr v.likes 0 + 1) }) ∧
      (v.id = video.id → isLiked = true →
        (optimisticLike isLiked video prev)[i]? = some { v with likes := some (jsOr v.likes 1 - 1) })) := by
  refine ⟨by simp [optimisticLike], ?_⟩
  intro i v hv
  unfold optimisticLike
  rw [List.getElem?_map, hv]
  refine ⟨fun hne => ?_, fun heq hl => ?_, fun heq hl => ?_⟩
  · simp [hne]
  · subst hl; simp [heq]
  · subst hl; simp [heq]

end LikeUpdate

/-- C15: `handleLike` of a signed-in user, whether its backend call succeeds
or not, leaves the length and the order of `videos` and every video with
another id as they were, and gives a video with the id of the target
`(likes || 0) + 1` likes when `likedVideos` has no entry for the target and
`(likes || 1) - 1` likes when it has one; without a user `handleLike` changes
nothing. -/
theorem handleLike_optimistic_update (w : World FeedUi) (video : Video) :
    (w.ui.user = none → handleLike video w = (some (), w)) ∧
    (∀ x, w.ui.user = some x →
      (handleLike video w).2.ui.videos.length = w.ui.videos.length ∧
      (handleLike video w).2.ui.videos.map (fun v => v.id) = w.ui.videos.map (fun v => v.id) ∧
      ∀ (i : Nat) (v : Video), w.ui.videos[i]? = some v →
        (v.id ≠ video.id → (handleLike video w).2.ui.videos[i]? = some v) ∧
        (v.id = video.id → mapHas w.ui.likedVideos video.id = false →
          (handleLike video w).2.ui.videos[i]?
            = some { v with likes := some (jsOr v.likes 0 + 1) }) ∧
        (v.id = video.id → mapHas w.ui.likedVideos video.id = true →
          (handleLike video w).2.ui.videos[i]?
            = some { v with likes := some (jsOr v.likes 1 - 1) })) := by
  constructor
  · intro hnone
    unfold handleLike
    simp only [Act.bind_eq, Act.get, hnone, Act.pure_eq]
  · intro x hx
    rw [handleLike_videos w video x hx]
    have h := optimisticLike_spec (mapHas w.ui.likedVideos video.id) video w.ui.videos
    exact ⟨h.1, optimisticLike_ids _ _ _, h.2⟩

/-- Witness of C15: on the loaded sample feed a like of the first video,
which has no likes yet, and the like of the second video taken back. -/
theorem handleLike_optimistic_update_witness :
    (handleLike clipOne loadedFeedWorld).2.ui.videos[1]?
      = some { clipOne with likes := some 1 } ∧
    (handleLike clipOne loadedFeedWorld).2.ui.videos[0]? = some clipTwo ∧
    (handleLike clipTwo loadedFeedWorld).2.ui.videos[0]?
      = some { clipTwo with likes := some 1 } :=
  ⟨(((handleLike_optimistic_update loadedFeedWorld clipOne).2 sampleUser rfl).2.2 1 clipOne
      rfl).2.1 rfl rfl,
   (((handleLike_optimistic_update loadedFeedWorld clipOne).2 sampleUser rfl).2.2 0 clipTwo
      rfl).1 (by decide),
   (((handleLike_optimistic_update loadedFeedWorld clipTwo).2 sampleUser rfl).2.2 0 clipTwo
      rfl).2.2 rfl rfl⟩

section Beyond

/-- Rounding in the binade `[2 ^ 53, 2 ^ 54)`, where the doubles are the even
integers. -/
theorem fl_binade_53 {x : ℚ} (hlo : (2 : ℚ) ^ (53 : ℤ) ≤ x) (hhi : x < (2 : ℚ) ^ (54 : ℤ)) :
    fl x = (roundHalfEven (x / 2) : ℚ) * 2 := by
  have hpos : 0 < x := lt_of_lt_of_le (by norm_num) hlo
  have h1 : (53 : ℤ) ≤ Int.log 2 x :=
    (Int.zpow_le_iff_le_log (R := ℚ) (b := 2) (by norm_num) hpos).mp (by simpa using hlo)
  have h2 : Int.log 2 x < 54 :=
    (Int.lt_zpow_iff_log_lt (R := ℚ) (b := 2) (by norm_num) hpos).mp (by simpa using hhi)
  have hu : ulpExp x = 1 := by
    unfold ulpExp
    have : Int.log 2 x = 53 := by omega
    rw [this]; rfl
  unfold fl
  rw [if_neg hpos.ne', if_pos hpos, hu]
  norm_num

theorem roundHalfEven_half (f : ℤ) (hf : f % 2 = 0) :
    roundHalfEven ((f : ℚ) + 1 / 2) = f := by
  have hfl : Int.floor ((f : ℚ) + 1 / 2) = f := by
    rw [Int.floor_eq_iff]
    constructor <;> norm_num
  unfold roundHalfEven
  simp only [hfl]
  have hd : (f : ℚ) + 1 / 2 - (f : ℚ) = 1 / 2 := by ring
  rw [hd]
  simp [hf]

/-- In binary64 the sum `9007199254741000 + 1` is `9007199254741000`. -/
theorem fl_unsafe_succ : fl ((9007199254741000 : ℚ) + 1) = 9007199254741000 := by
  rw [fl_binade_53 (by norm_num) (by norm_num)]
  have e : ((9007199254741000 : ℚ) + 1) / 2 = ((4503599627370500 : ℤ) : ℚ) + 1 / 2 := by
    norm_num
  rw [e, roundHalfEven_half _ (by decide)]
  norm_num

theorem fl_unsafe : fl (9007199254741000 : ℚ) = 9007199254741000 := by
  rw [fl_binade_53 (by norm_num) (by norm_num)]
  have e : (9007199254741000 : ℚ) / 2 = ((4503599627370500 : ℤ) : ℚ) := by norm_num
  rw [e, roundHalfEven_intCast]
  norm_num

end Beyond

/-- Counterexample to C1: for a record with `videos_posted = 9007199254741000`
the constant `nextPostNumber` is `9007199254741000` in binary64, a multiple of
10, so the test `nextPostNumber % 10 === 0` holds, while
`9007199254741000 + 1` is not a multiple of 10. -/
theorem checkIfWillGoViral_counterexample :
    nextPostNumber unsafeCounter = ((9007199254741000 : Int) : ℚ) ∧
    Int.tmod 9007199254741000 10 = 0 ∧
    ¬ (10 : Int) ∣ jsOr unsafeCounter.videos_posted 0 + 1 := by
  refine ⟨?_, by decide, by decide⟩
  unfold nextPostNumber
  have h : jsOr unsafeCounter.videos_posted 0 = 9007199254741000 := by decide
  rw [h]
  have := fl_unsafe_succ
  push_cast
  exact this

/-- Counterexample to C4: with `videos_posted = 9007199254741000` the result
of `getNextViralVideo` is 0, not a number from 1 to 10. -/
theorem getNextViralVideo_counterexample :
    0 ≤ jsOr ((some unsafeCounter).bind (fun s => s.videos_posted)) 0 ∧
    ¬ (1 : ℚ) ≤ getNextViralVideo (some unsafeCounter) ∧
    getNextViralVideo (some unsafeCounter) = 0 := by
  suffices key : getNextViralVideo (some unsafeCounter) = 0 from
    ⟨by decide, by rw [key]; norm_num, key⟩
  unfold getNextViralVideo
  have h : jsOr ((some unsafeCounter).bind (fun s => s.videos_posted)) 0 = 9007199254741000 := by
    decide
  simp only
  rw [h]
  push_cast
  rw [fl_unsafe_succ]
  have e : (9007199254741000 : ℚ) / 10 = ((900719925474100 : ℤ) : ℚ) := by norm_num
  rw [e, fl_intCast 900719925474100 (by norm_num) (by norm_num), Int.ceil_intCast]
  have e2 : ((900719925474100 : ℤ) : ℚ) * 10 = 9007199254741000 := by norm_num
  rw [e2, fl_unsafe, sub_self]
  unfold fl
  simp

end ViralStream
